import Mathlib

/-!
# node-opcua: message chunking and reassembly

A shallow embedding of `lib/chunk_manager.js`:

* `ChunkManager`         accumulates written bytes into fixed-size blocks,
* `MessageChunkManager`  frames each block with the 12-byte OPC UA chunk header,
* `MessageBuilderBase`   reassembles a logical message from received chunks.

JavaScript objects are records, methods are functions from the state before the
call to an `Outcome` holding the state after it.  An exception keeps the state
the object was left in when it was raised, because a JavaScript `throw` does not
roll back earlier assignments.  Event emission is synchronous: a listener runs
inside the emitting call, on the current state.
-/

namespace NodeOpcua

/-! ## Outcomes -/

/-- Result of a method call on a mutable object whose state has type `σ`:
normal return, exception (with the message and the state left behind), or a
loop that used up its iteration budget. -/
inductive Outcome (σ : Type) where
  | ok (s : σ)
  | threw (msg : String) (s : σ)
  | diverged (s : σ)
  deriving Repr, DecidableEq

/-- Sequencing: run `f` on the state of a normal return, propagate anything else. -/
def Outcome.bind {σ : Type} (r : Outcome σ) (f : σ → Outcome σ) : Outcome σ :=
  match r with
  | .ok s => f s
  | .threw m s => .threw m s
  | .diverged s => .diverged s

/-- Transport an outcome along a map of states. -/
def Outcome.map {σ τ : Type} (g : σ → τ) (r : Outcome σ) : Outcome τ :=
  match r with
  | .ok s => .ok (g s)
  | .threw m s => .threw m (g s)
  | .diverged s => .diverged (g s)

/-- The state an outcome ends in, whatever its kind. -/
def Outcome.state {σ : Type} (r : Outcome σ) : σ :=
  match r with
  | .ok s => s
  | .threw _ s => s
  | .diverged s => s

/-- Whether the call returned normally. -/
def Outcome.isOk {σ : Type} (r : Outcome σ) : Bool :=
  match r with
  | .ok _ => true
  | _ => false

/-! ## Node Buffers -/

/-- A Node `Buffer`: a sequence of byte values. -/
abbrev Buffer := List Nat

/-- The call `new Buffer(n)`: `n` bytes (a negative size is coerced to 0).  Node leaves
the contents unspecified; they are taken to be zero. -/
def Buffer.alloc (n : Int) : Buffer := List.replicate n.toNat 0

/-- Index clamping of `Buffer.prototype.slice`: negative indices count from the end. -/
def Buffer.clamp (len : Nat) (index : Int) : Nat :=
  if index ≥ len then len
  else if index ≥ 0 then index.toNat
  else (index + len).toNat

/-- The bytes seen by `buf.slice(start, stop)`. -/
def Buffer.slice (buf : Buffer) (start stop : Int) : Buffer :=
  (buf.take (Buffer.clamp buf.length stop)).drop (Buffer.clamp buf.length start)

/-- The call `source.copy(target, targetStart, sourceStart, sourceEnd)`: the new contents
of `target`.  Out-of-range arguments are clamped or rejected as Node does. -/
def Buffer.copy (source target : Buffer) (targetStart sourceStart sourceEnd : Int) :
    Except String Buffer :=
  let targetStart : Int := if targetStart ≥ 0 then targetStart else 0
  let sourceStart : Int := if sourceStart ≥ 0 then sourceStart else 0
  let sourceEnd : Int := if sourceEnd < source.length then sourceEnd else source.length
  if sourceEnd = sourceStart ∨ target.length = 0 ∨ source.length = 0
      ∨ sourceStart > source.length then
    .ok target
  else if sourceEnd < sourceStart then
    .error "sourceEnd < sourceStart"
  else if targetStart ≥ target.length then
    .error "targetStart out of bounds"
  else
    let sourceEnd : Int :=
      if (target.length : Int) - targetStart < sourceEnd - sourceStart then
        target.length - targetStart + sourceStart
      else sourceEnd
    let bytes := (source.take sourceEnd.toNat).drop sourceStart.toNat
    .ok (target.take targetStart.toNat ++ bytes
          ++ target.drop (targetStart.toNat + bytes.length))

/-- The call `buf.writeUInt8(value, offset)`: fails on a value above 255 or an offset
outside the buffer. -/
def Buffer.writeUInt8 (buf : Buffer) (value offset : Nat) : Except String Buffer :=
  if value > 255 then .error "value is larger than maximum value for type"
  else if offset ≥ buf.length then .error "Trying to write beyond buffer length"
  else .ok (buf.set offset value)

/-- The call `buf.writeUInt32LE(value, offset)`: fails on a value of 2^32 or more or when
the four bytes do not fit. -/
def Buffer.writeUInt32LE (buf : Buffer) (value offset : Nat) : Except String Buffer :=
  if value ≥ 2 ^ 32 then .error "value is larger than maximum value for type"
  else if offset + 4 > buf.length then .error "Trying to write beyond buffer length"
  else .ok ((((buf.set offset (value % 256)).set (offset + 1) (value / 256 % 256)).set
          (offset + 2) (value / 65536 % 256)).set (offset + 3) (value / 16777216 % 256))

/-- The call `buf.readUInt8(offset)`. -/
def Buffer.readUInt8 (buf : Buffer) (offset : Nat) : Option Nat :=
  if offset < buf.length then some (buf.getD offset 0) else none

/-- The call `buf.readUInt32LE(offset)`. -/
def Buffer.readUInt32LE (buf : Buffer) (offset : Nat) : Option Nat :=
  if offset + 4 ≤ buf.length then
    some (buf.getD offset 0 + 256 * buf.getD (offset + 1) 0 + 65536 * buf.getD (offset + 2) 0
          + 16777216 * buf.getD (offset + 3) 0)
  else none

/-! ## ChunkManager -/

/-- State of a `ChunkManager` object. -/
structure ChunkManager where
  chunk_size : Int
  chunk : Buffer
  cursor : Int
  _in_before_chunk : Bool
  deriving Repr, DecidableEq

/-- Events a `ChunkManager` emits, with the buffer passed to the listeners. -/
inductive ChunkEvent where
  | before_chunk (chunk : Buffer)
  | chunk (chunk : Buffer)
  deriving Repr, DecidableEq

/-- The listeners registered on a `ChunkManager`, acting on the manager and on their own
state `L`. -/
abbrev ChunkListener (L : Type) := ChunkEvent → ChunkManager × L → Outcome (ChunkManager × L)

/-- The constructor `new ChunkManager(chunk_size)`. -/
def ChunkManager.new (chunk_size : Int) : ChunkManager :=
  let chunk_size := if chunk_size = 0 then 1024 else chunk_size
  { chunk_size := chunk_size, chunk := Buffer.alloc chunk_size, cursor := 0,
    _in_before_chunk := false }

/-- The body of the `while (l > 0)` loop of `ChunkManager.prototype.write`, run at most
`fuel` times; `l` and `input_cursor` are the loop's local variables. -/
def ChunkManager.writeLoop {L : Type} (emit : ChunkListener L) (buffer : Option Buffer)
    (length : Int) : Nat → Int → Int → ChunkManager × L → Outcome (ChunkManager × L)
  | 0, l, _, w => if l > 0 then .diverged w else .ok w
  | fuel + 1, l, input_cursor, w =>
    if l > 0 then
      if length - input_cursor = 0 then .threw "assert(length - input_cursor !== 0)" w
      else
        (if w.1.cursor = 0 ∧ w.1._in_before_chunk = false then
          (emit (.before_chunk w.1.chunk) ({ w.1 with _in_before_chunk := true }, w.2)).bind
            fun w1 => .ok ({ w1.1 with _in_before_chunk := false }, w1.2)
        else .ok w).bind fun w2 =>
          let space_left := w2.1.chunk_size - w2.1.cursor
          let nb_to_write := min (length - input_cursor) space_left
          (match buffer with
            | some b =>
              match Buffer.copy b w2.1.chunk w2.1.cursor input_cursor
                  (input_cursor + nb_to_write) with
              | .ok c => Outcome.ok ({ w2.1 with chunk := c }, w2.2)
              | .error e => Outcome.threw e w2
            | none => Outcome.ok w2).bind fun w3 =>
            let w4 : ChunkManager × L := ({ w3.1 with cursor := w3.1.cursor + nb_to_write }, w3.2)
            (if w4.1.cursor ≥ w4.1.chunk_size then
              if w4.1.cursor = w4.1.chunk_size then
                (emit (.chunk w4.1.chunk) w4).bind fun w5 => .ok ({ w5.1 with cursor := 0 }, w5.2)
              else .threw "assert(this.cursor === this.chunk_size)" w4
            else .ok w4).bind fun w6 =>
              ChunkManager.writeLoop emit buffer length fuel (l - nb_to_write)
                (input_cursor + nb_to_write) w6
    else .ok w

/-- The method `ChunkManager.prototype.write(buffer, length)`; `buffer = none` is the
`null` of a caller that only reserves space.  The loop is given `length` iterations,
which is all it can need when every iteration consumes at least one byte. -/
def ChunkManager.write {L : Type} (emit : ChunkListener L) (buffer : Option Buffer)
    (length : Int) (w : ChunkManager × L) : Outcome (ChunkManager × L) :=
  if length = 0 then .threw "assert(length != 0)" w
  else ChunkManager.writeLoop emit buffer length length.toNat length 0 w

/-- The module variable `fill_padding`. -/
def fill_padding : Bool := false

/-- The padding loop of `ChunkManager.prototype.end`: writes `n % 256` from the cursor
up to the end of the block, leaving the cursor at `chunk_size`. -/
def ChunkManager.fill (n : Int) : Nat → ChunkManager → Outcome ChunkManager
  | 0, cm => if cm.cursor < cm.chunk_size then .diverged cm else .ok cm
  | fuel + 1, cm =>
    if cm.cursor < cm.chunk_size then
      match Buffer.writeUInt8 cm.chunk (n % 256).toNat cm.cursor.toNat with
      | .ok c => ChunkManager.fill n fuel { cm with chunk := c, cursor := cm.cursor + 1 }
      | .error e => .threw e cm
    else .ok cm

/-- The method `ChunkManager.prototype.end()`. -/
def ChunkManager.end_ {L : Type} (emit : ChunkListener L) (w : ChunkManager × L) :
    Outcome (ChunkManager × L) :=
  if w.1.cursor > 0 then
    (if fill_padding then
      (ChunkManager.fill (w.1.chunk_size - w.1.cursor) (w.1.chunk_size - w.1.cursor).toNat
        w.1).map fun cm => (cm, w.2)
    else .ok w).bind fun w1 =>
      (emit (.chunk (Buffer.slice w1.1.chunk 0 w1.1.cursor)) w1).bind fun w2 =>
        .ok ({ w2.1 with cursor := 0 }, w2.2)
  else .ok w

/-! ## MessageChunkManager -/

/-- A JavaScript string as its sequence of character codes (what `charCodeAt` reads). -/
abbrev JsString := List Nat

/-- The string `"HEL"`. -/
def HEL : JsString := [72, 69, 76]

/-- The string `"C"` (continuation chunk). -/
def charC : JsString := [67]

/-- The string `"F"` (final chunk). -/
def charF : JsString := [70]

/-- The string `"A"` (abort chunk). -/
def charA : JsString := [65]

/-- An exception raised by a Buffer primitive leaves the buffer `s0` as it was. -/
def Outcome.ofExcept {σ : Type} (e : Except String σ) (s0 : σ) : Outcome σ :=
  match e with
  | .ok s => .ok s
  | .error m => .threw m s0

/-- State of a `MessageChunkManager` object; `emitted` records, in order, the buffers
passed to its own "chunk" event. -/
structure MessageChunkManager where
  messageSize : Int
  msgType : JsString
  secureChannelId : Nat
  sizeOfHeader : Nat
  bodySize : Int
  chunkManager : ChunkManager
  pendingChunk : Option Buffer
  emitted : List Buffer
  deriving Repr, DecidableEq

/-- The function `mark_buffer(buffer)`: every byte becomes 0xEF. -/
def mark_buffer (buffer : Buffer) : Buffer := buffer.map fun _ => 0xEF

/-- The call `buf.writeUInt8(s.charCodeAt(i), offset)`; past the end of the string
`charCodeAt` gives NaN, which `writeUInt8` rejects. -/
def writeCharCode (buf : Buffer) (s : JsString) (i offset : Nat) : Outcome Buffer :=
  match s[i]? with
  | some c => Outcome.ofExcept (Buffer.writeUInt8 buf c offset) buf
  | none => .threw "value is not a number" buf

/-- The method `MessageChunkManager.prototype.write_header_and_footer(finalC, buf, length)`:
the contents of `buf` afterwards. -/
def MessageChunkManager.write_header_and_footer (self : MessageChunkManager)
    (finalC : JsString) (buf : Buffer) (length : Nat) : Outcome Buffer :=
  if finalC.length ≠ 1 then .threw "assert(finalC.length === 1)" buf
  else
    (writeCharCode buf self.msgType 0 0).bind fun b1 =>
    (writeCharCode b1 self.msgType 1 1).bind fun b2 =>
    (writeCharCode b2 self.msgType 2 2).bind fun b3 =>
    (writeCharCode b3 finalC 0 3).bind fun b4 =>
    (Outcome.ofExcept (Buffer.writeUInt32LE b4 length 4) b4).bind fun b5 =>
    Outcome.ofExcept (Buffer.writeUInt32LE b5 self.secureChannelId 8) b5

/-- The method `MessageChunkManager.prototype._sendPendingChunk(finalC)`.  The header is
written through `pendingChunk.slice(0, sizeOfHeader)`, which shares the memory of the
pending chunk. -/
def MessageChunkManager._sendPendingChunk (finalC : JsString) (self : MessageChunkManager) :
    Outcome MessageChunkManager :=
  if finalC.length ≠ 1 then .threw "assert(finalC.length === 1)" self
  else
    match self.pendingChunk with
    | some pendingChunk =>
      let view := Buffer.slice pendingChunk 0 self.sizeOfHeader
      match self.write_header_and_footer finalC view pendingChunk.length with
      | .ok v =>
        let sent := v ++ pendingChunk.drop view.length
        .ok { self with emitted := self.emitted ++ [sent], pendingChunk := none }
      | .threw m v =>
        .threw m { self with pendingChunk := some (v ++ pendingChunk.drop view.length) }
      | .diverged v =>
        .diverged { self with pendingChunk := some (v ++ pendingChunk.drop view.length) }
    | none => .ok self

/-- The listeners the constructor registers on the inner `ChunkManager`: the "chunk"
handler, and the empty "before_chunk" handler. -/
def MessageChunkManager.listener : ChunkListener MessageChunkManager
  | .before_chunk _, w => .ok w
  | .chunk chunk, w =>
    let offsetBody := w.2.sizeOfHeader
    if ¬ (w.2.messageSize ≥ chunk.length + offsetBody) then
      .threw "assert(self.messageSize >= chunk.length + offsetBody)" w
    else
      ((MessageChunkManager._sendPendingChunk charC w.2).map fun s => (w.1, s)).bind fun w1 =>
        if w1.2.pendingChunk.isSome then .threw "assert(!self.pendingChunk)" w1
        else
          let pendingChunk := mark_buffer (Buffer.alloc (chunk.length + w1.2.sizeOfHeader))
          match Buffer.copy chunk pendingChunk offsetBody 0 chunk.length with
          | .ok p => .ok (w1.1, { w1.2 with pendingChunk := some p })
          | .error e => .threw e (w1.1, { w1.2 with pendingChunk := some pendingChunk })

/-- The constructor `new MessageChunkManager(messageSize, msgType, secureChannelId,
extraHeaderSize)`; an omitted argument is the empty string or 0. -/
def MessageChunkManager.new (messageSize : Int) (msgType : JsString) (secureChannelId : Nat)
    (extraHeaderSize : Nat) : Except String MessageChunkManager :=
  let msgType := if msgType = [] then HEL else msgType
  if msgType.length ≠ 3 then .error "assert(msgType.length === 3)"
  else if ¬ (messageSize > 12) then .error "assert(messageSize > 12)"
  else
    let sizeOfHeader := 12 + extraHeaderSize
    let bodySize := messageSize - sizeOfHeader
    .ok { messageSize := messageSize, msgType := msgType, secureChannelId := secureChannelId,
          sizeOfHeader := sizeOfHeader, bodySize := bodySize,
          chunkManager := ChunkManager.new bodySize, pendingChunk := none, emitted := [] }

/-- Store the inner `ChunkManager` back into its owner after a call on it. -/
def MessageChunkManager.repack (w : ChunkManager × MessageChunkManager) : MessageChunkManager :=
  { w.2 with chunkManager := w.1 }

/-- The method `MessageChunkManager.prototype.write(buffer, length)`. -/
def MessageChunkManager.write (buffer : Option Buffer) (length : Int)
    (self : MessageChunkManager) : Outcome MessageChunkManager :=
  (ChunkManager.write MessageChunkManager.listener buffer length (self.chunkManager, self)).map
    MessageChunkManager.repack

/-- The method `MessageChunkManager.prototype.abort()`. -/
def MessageChunkManager.abort (self : MessageChunkManager) : Outcome MessageChunkManager :=
  ((ChunkManager.end_ MessageChunkManager.listener (self.chunkManager, self)).map
    MessageChunkManager.repack).bind (MessageChunkManager._sendPendingChunk charA)

/-- The method `MessageChunkManager.prototype.end()`. -/
def MessageChunkManager.end_ (self : MessageChunkManager) : Outcome MessageChunkManager :=
  ((ChunkManager.end_ MessageChunkManager.listener (self.chunkManager, self)).map
    MessageChunkManager.repack).bind (MessageChunkManager._sendPendingChunk charF)

/-- Write each buffer of `pieces` in turn, with `length` equal to the buffer's length. -/
def MessageChunkManager.writeAll :
    List Buffer → MessageChunkManager → Outcome MessageChunkManager
  | [], self => .ok self
  | b :: rest, self =>
    (MessageChunkManager.write (some b) b.length self).bind (MessageChunkManager.writeAll rest)

/-! ## MessageBuilderBase -/

/-- Modelled from the spec: the `BinaryStream` class of `lib/nodeopcua`, which is not
among the sources.  It is a read cursor over a buffer; its field `length` is the
position of the cursor, 0 on creation ("the stream positioned after the common
header" is `length = 12`). -/
structure BinaryStream where
  _buffer : Buffer
  length : Nat
  deriving Repr, DecidableEq

/-- Modelled from the spec: `new BinaryStream(buffer)`, a stream positioned at the start
of the buffer. -/
def BinaryStream.new (buffer : Buffer) : BinaryStream := { _buffer := buffer, length := 0 }

/-- Modelled from the spec: `BinaryStream.prototype.readUInt8`, one byte at the cursor,
which advances by 1; reading past the end of the buffer fails. -/
def BinaryStream.readUInt8 (stream : BinaryStream) : Option (Nat × BinaryStream) :=
  (Buffer.readUInt8 stream._buffer stream.length).map fun v =>
    (v, { stream with length := stream.length + 1 })

/-- Modelled from the spec: `BinaryStream.prototype.readUInt32`, a little-endian unsigned
32-bit integer at the cursor, which advances by 4; reading past the end of the buffer
fails. -/
def BinaryStream.readUInt32 (stream : BinaryStream) : Option (Nat × BinaryStream) :=
  (Buffer.readUInt32LE stream._buffer stream.length).map fun v =>
    (v, { stream with length := stream.length + 4 })

/-- The fields of the common chunk header read by `readMessageHeader`. -/
structure MessageHeader where
  msgType : JsString
  isFinal : Nat
  length : Nat
  deriving Repr, DecidableEq

/-- Modelled from the spec: `readMessageHeader` of `lib/nodeopcua`, which is not among
the sources.  It parses the common header: the 3-byte message type, the 1-byte chunk
type and the 4-byte little-endian total chunk length. -/
def readMessageHeader (stream : BinaryStream) : Option MessageHeader :=
  match stream.readUInt8 with
  | none => none
  | some (c0, s1) =>
    match s1.readUInt8 with
    | none => none
    | some (c1, s2) =>
      match s2.readUInt8 with
      | none => none
      | some (c2, s3) =>
        match s3.readUInt8 with
        | none => none
        | some (isFinal, s4) =>
          match s4.readUInt32 with
          | none => none
          | some (length, _) => some { msgType := [c0, c1, c2], isFinal := isFinal, length := length }

/-- What a `MessageBuilderBase` makes observable: the "raw_buffer" event, the call of the
`_on_raw_buffer` method, and the "error" event. -/
inductive BuilderEvent where
  | raw_buffer (buf : Buffer)
  | on_raw_buffer (buf : Buffer)
  | error
  deriving Repr, DecidableEq

/-- What is attached to a `MessageBuilderBase` from outside: the optional `_read_headers`
method, whether an `_on_raw_buffer` method exists, and whether a listener is registered
for "error" (Node's emitter raises when "error" is emitted with no listener). -/
structure BuilderHooks where
  _read_headers : Option (BinaryStream → Outcome BinaryStream)
  _on_raw_buffer : Bool
  error_listener : Bool

/-- State of a `MessageBuilderBase` object; `events` records what it emitted, in order. -/
structure MessageBuilderBase where
  total_size : Int
  blocks : List Buffer
  offsetBodyStart : Option Nat
  events : List BuilderEvent
  deriving Repr, DecidableEq

/-- The constructor `new MessageBuilderBase()`. -/
def MessageBuilderBase.new : MessageBuilderBase :=
  { total_size := 0, blocks := [], offsetBodyStart := none, events := [] }

/-- The `_read_headers` step of `_append`: call the method when there is one, then
`assert(binaryStream.length > 12)`. -/
def MessageBuilderBase.read_headers_step (hooks : BuilderHooks) (binaryStream : BinaryStream) :
    Outcome BinaryStream :=
  match hooks._read_headers with
  | some h =>
    (h binaryStream).bind fun s =>
      if s.length > 12 then .ok s else .threw "assert(binaryStream.length > 12)" s
  | none => .ok binaryStream

/-- The method `MessageBuilderBase.prototype._append(messageChunk)`. -/
def MessageBuilderBase._append (hooks : BuilderHooks) (messageChunk : Buffer)
    (self : MessageBuilderBase) : Outcome MessageBuilderBase :=
  match (BinaryStream.new messageChunk).readUInt32 with
  | none => .threw "Trying to read beyond buffer length" self
  | some (_, s1) =>
    match s1.readUInt32 with
    | none => .threw "Trying to read beyond buffer length" self
    | some (chunkSize, s2) =>
      match s2.readUInt32 with
      | none => .threw "Trying to read beyond buffer length" self
      | some (_, s3) =>
        if chunkSize ≠ messageChunk.length then .threw "Invalid messageChunk size" self
        else if s3.length ≠ 12 then .threw "assert(binaryStream.length === 12)" self
        else
          match MessageBuilderBase.read_headers_step hooks s3 with
          | .threw m _ => .threw m self
          | .diverged _ => .diverged self
          | .ok binaryStream =>
            let offsetBodyStart := binaryStream.length
            let offsetBodyEnd := chunkSize
            let self1 := { self with
              total_size := self.total_size + ((offsetBodyEnd : Int) - offsetBodyStart),
              offsetBodyStart := some offsetBodyStart }
            let shared_buf := Buffer.slice messageChunk offsetBodyStart messageChunk.length
            let cloned_buf := Buffer.alloc shared_buf.length
            match Buffer.copy shared_buf cloned_buf 0 0 shared_buf.length with
            | .error e => .threw e self1
            | .ok cloned => .ok { self1 with blocks := self1.blocks ++ [cloned] }

/-- The method `MessageBuilderBase.prototype.feed(messageChunk)`. -/
def MessageBuilderBase.feed (hooks : BuilderHooks) (messageChunk : Buffer)
    (self : MessageBuilderBase) : Outcome MessageBuilderBase :=
  match readMessageHeader (BinaryStream.new messageChunk) with
  | none => .threw "Trying to read beyond buffer length" self
  | some messageHeader =>
    if messageHeader.isFinal = 70 then
      (MessageBuilderBase._append hooks messageChunk self).bind fun self1 =>
        let buf := self1.blocks.flatten
        if (buf.length : Int) ≠ self1.total_size then
          .threw "assert(buf.length == this.total_size)" self1
        else
          let self2 := { self1 with events := self1.events ++ [.raw_buffer buf] }
          if hooks._on_raw_buffer then
            .ok { self2 with events := self2.events ++ [.on_raw_buffer buf] }
          else .ok self2
    else if messageHeader.isFinal = 65 then
      let self1 := { self with events := self.events ++ [.error] }
      if hooks.error_listener then .ok self1
      else .threw "Uncaught, unspecified 'error' event." self1
    else if messageHeader.isFinal = 67 then
      MessageBuilderBase._append hooks messageChunk self
    else .ok self

/-- Feed the chunks in order, stopping at the first call that does not return. -/
def MessageBuilderBase.feedAll (hooks : BuilderHooks) :
    List Buffer → MessageBuilderBase → Outcome MessageBuilderBase
  | [], self => .ok self
  | c :: rest, self =>
    (MessageBuilderBase.feed hooks c self).bind (MessageBuilderBase.feedAll hooks rest)

/-- The buffers of the "raw_buffer" events among `events`, in order. -/
def rawBuffers : List BuilderEvent → List Buffer
  | [] => []
  | .raw_buffer b :: rest => b :: rawBuffers rest
  | _ :: rest => rawBuffers rest

/-- A `_read_headers` method that advances the stream by exactly `n` bytes. -/
def advanceBy (n : Nat) (stream : BinaryStream) : Outcome BinaryStream :=
  .ok { stream with length := stream.length + n }

/-- The hooks of a reassembler matching an extra header of `extraHeaderSize` bytes: no
`_read_headers` method when the size is 0, one that skips that many bytes otherwise. -/
def skipHooks (extraHeaderSize : Nat) (on_raw_buffer error_listener : Bool) : BuilderHooks :=
  { _read_headers := if extraHeaderSize = 0 then none else some (advanceBy extraHeaderSize),
    _on_raw_buffer := on_raw_buffer, error_listener := error_listener }

/-- A chunk is well formed for a header of `12 + e` bytes: it holds the header and its
length field is its length. -/
def WellFormedChunk (e : Nat) (t : Nat) (chunk : Buffer) : Prop :=
  12 + e ≤ chunk.length ∧ chunk.getD 3 0 = t ∧ Buffer.readUInt32LE chunk 4 = some chunk.length

instance (e t : Nat) (chunk : Buffer) : Decidable (WellFormedChunk e t chunk) := by
  unfold WellFormedChunk
  infer_instance

/-- One call made on a `MessageChunkManager` by its user. -/
inductive FramerCall where
  | write (buffer : Option Buffer) (length : Int)
  | end_
  | abort
  deriving Repr, DecidableEq

/-- Perform one call. -/
def MessageChunkManager.call : FramerCall → MessageChunkManager → Outcome MessageChunkManager
  | .write buffer length, self => MessageChunkManager.write buffer length self
  | .end_, self => MessageChunkManager.end_ self
  | .abort, self => MessageChunkManager.abort self

/-- Perform a sequence of calls.  A caller may catch an exception and go on using the
object, so the sequence continues from the state an exception left; it stops only at a
call that does not return. -/
def MessageChunkManager.run : List FramerCall → MessageChunkManager → Outcome MessageChunkManager
  | [], self => .ok self
  | c :: rest, self =>
    match MessageChunkManager.call c self with
    | .ok s => MessageChunkManager.run rest s
    | .threw m s => if rest = [] then .threw m s else MessageChunkManager.run rest s
    | .diverged s => .diverged s

/-- A chunk whose length field (bytes 4..7, little-endian) is its own length. -/
def LengthFieldOk (c : Buffer) : Prop := Buffer.readUInt32LE c 4 = some c.length

instance (c : Buffer) : Decidable (LengthFieldOk c) := by
  unfold LengthFieldOk
  infer_instance

/-- Every chunk in the list has its length field right. -/
def AllLengthFieldsOk (m : MessageChunkManager) : Prop := ∀ c ∈ m.emitted, LengthFieldOk c

/-- The four little-endian bytes of an unsigned 32-bit integer. -/
def le32 (v : Nat) : Buffer := [v % 256, v / 256 % 256, v / 65536 % 256, v / 16777216 % 256]

/-- The chunk sent for the body block `body` with chunk type `t` by a framer of message
type `mt`, channel `sc` and header size `H`: the common header, the extra header left as
marked (0xEF), the body. -/
def framedChunk (mt : JsString) (sc H t : Nat) (body : Buffer) : Buffer :=
  mt ++ [t] ++ le32 (H + body.length) ++ le32 sc ++ List.replicate (H - 12) 0xEF ++ body

/-- The parameters of a framer fit the wire format: a message type of 3 byte-sized
character codes, a channel id and a message size below 2^32, a non-empty body capacity. -/
structure FramerParams (mt : JsString) (sc H B : Nat) : Prop where
  mt_len : mt.length = 3
  mt_bytes : ∀ c ∈ mt, c ≤ 255
  header : 12 ≤ H
  channel : sc < 2 ^ 32
  body : 1 ≤ B
  bound : H + B < 2 ^ 32

/-- The framer after its accumulator completed the body blocks `blocks`: all but the last
have been sent as continuation chunks, the last is pending with its header still marked. -/
structure FramerState (mt : JsString) (sc H B : Nat) (blocks : List Buffer)
    (m : MessageChunkManager) : Prop where
  msgType : m.msgType = mt
  channel : m.secureChannelId = sc
  header : m.sizeOfHeader = H
  size : m.messageSize = ((H + B : Nat) : Int)
  emitted : m.emitted = blocks.dropLast.map (framedChunk mt sc H 67)
  pending : m.pendingChunk = blocks.getLast?.map (fun b => List.replicate H 0xEF ++ b)
  sizes : ∀ b ∈ blocks, b.length ≤ B

/-- The accumulator holding the bytes `rest` of an incomplete block of capacity `B`. -/
structure ChunkState (B : Nat) (rest : Buffer) (cm : ChunkManager) : Prop where
  size : cm.chunk_size = B
  len : cm.chunk.length = B
  flag : cm._in_before_chunk = false
  cursor : cm.cursor = rest.length
  room : rest.length < B
  filled : cm.chunk.take rest.length = rest

/-- The framer and its accumulator after the bytes `blocks.flatten ++ rest` were written:
`blocks` are the completed body blocks, `rest` the bytes of the block being filled. -/
structure Framed (mt : JsString) (sc H B : Nat) (blocks : List Buffer) (rest : Buffer)
    (m : MessageChunkManager) : Prop where
  framer : FramerState mt sc H B blocks m
  full : ∀ x ∈ blocks, x.length = B
  chunk : ChunkState B rest m.chunkManager

/-- The body blocks of a message once the accumulator is ended: the completed blocks,
then the incomplete one if it holds any byte. -/
def allBlocks (blocks : List Buffer) (rest : Buffer) : List Buffer :=
  blocks ++ (if rest = [] then [] else [rest])

/-- The function `verify_message_chunk(message_chunk)`; `Except.ok ()` is a normal
return.  The function touches no state. -/
def verify_message_chunk (message_chunk : Buffer) : Except String Unit :=
  match readMessageHeader (BinaryStream.new message_chunk) with
  | none => .error "Trying to read beyond buffer length"
  | some header =>
    if message_chunk.length ≠ header.length then
      .error " chunk length = ... message  length ..."
    else .ok ()

/-- The common header of a chunk is laid out for message type `mt` and channel `sc`:
bytes 0..2 are the message type, byte 3 is 'C', 'F' or 'A', bytes 8..11 are the channel
id in little-endian order. -/
def HeaderLayoutOk (mt : JsString) (sc : Nat) (c : Buffer) : Prop :=
  12 ≤ c.length ∧ c.take 3 = mt
    ∧ (c.getD 3 0 = 67 ∨ c.getD 3 0 = 70 ∨ c.getD 3 0 = 65)
    ∧ (c.drop 8).take 4 = le32 sc ∧ sc < 2 ^ 32

/-- The framer keeps its configuration and every chunk it has emitted has its header
laid out for that configuration. -/
def LayoutInv (mt : JsString) (sc : Nat) (m : MessageChunkManager) : Prop :=
  m.msgType = mt ∧ mt.length = 3 ∧ m.secureChannelId = sc
    ∧ ∀ c ∈ m.emitted, HeaderLayoutOk mt sc c

/-- Listeners that only record, in order, the events they receive; the buffer of an
event is recorded as it is at the time of the event. -/
def recorder : ChunkListener (List ChunkEvent) :=
  fun ev w => .ok (w.1, w.2 ++ [ev])

/-- Write each buffer of `pieces` in turn, with `length` equal to the buffer's length. -/
def ChunkManager.writeAll {L : Type} (emit : ChunkListener L) :
    List Buffer → ChunkManager × L → Outcome (ChunkManager × L)
  | [], w => .ok w
  | b :: rest, w =>
    (ChunkManager.write emit (some b) b.length w).bind (ChunkManager.writeAll emit rest)

/-- The buffers of the "chunk" events of a log, in order. -/
def chunkEvents : List ChunkEvent → List Buffer
  | [] => []
  | .chunk b :: rest => b :: chunkEvents rest
  | .before_chunk _ :: rest => chunkEvents rest

/-- The buffers of the "before_chunk" events of a log, in order. -/
def beforeEvents : List ChunkEvent → List Buffer
  | [] => []
  | .before_chunk b :: rest => b :: beforeEvents rest
  | .chunk _ :: rest => beforeEvents rest

/-- The log of an accumulator that started from block contents `prev`, completed the
blocks `blocks` and, when `started`, has begun one more block: each block is announced
by a "before_chunk" carrying the contents left by the block before it, then completed
by a "chunk" carrying the block. -/
def expectedLog (prev : Buffer) : List Buffer → Bool → List ChunkEvent
  | [], started => if started then [.before_chunk prev] else []
  | b :: bs, started => .before_chunk prev :: .chunk b :: expectedLog b bs started

/-- The accumulator with recording listeners after the bytes `blocks.flatten ++ rest`:
`blocks` completed (each of `c` bytes), `rest` the bytes of the block being filled, the
block buffer holding `rest` over the contents left by the block before. -/
structure RecState (c : Nat) (init : Buffer) (blocks : List Buffer) (rest : Buffer)
    (w : ChunkManager × List ChunkEvent) : Prop where
  size : w.1.chunk_size = c
  flag : w.1._in_before_chunk = false
  cursor : w.1.cursor = rest.length
  room : rest.length < c
  init_len : init.length = c
  full : ∀ x ∈ blocks, x.length = c
  content : w.1.chunk = rest ++ (blocks.getLast?.getD init).drop rest.length
  log : w.2 = expectedLog init blocks (decide (rest ≠ []))

/-- First part of an iteration of the write loop: the "before_chunk" announcement made
when the cursor is 0 and no announcement is in progress. -/
def ChunkManager.announce {L : Type} (emit : ChunkListener L) (w : ChunkManager × L) :
    Outcome (ChunkManager × L) :=
  if w.1.cursor = 0 ∧ w.1._in_before_chunk = false then
    (emit (.before_chunk w.1.chunk) ({ w.1 with _in_before_chunk := true }, w.2)).bind
      fun w1 => .ok ({ w1.1 with _in_before_chunk := false }, w1.2)
  else .ok w

/-- Second part of an iteration of the write loop, from the computation of
`space_left` on, followed by the remaining iterations. -/
def ChunkManager.fillStep {L : Type} (emit : ChunkListener L) (buffer : Option Buffer)
    (length : Int) (fuel : Nat) (l input_cursor : Int) (w2 : ChunkManager × L) :
    Outcome (ChunkManager × L) :=
  let space_left := w2.1.chunk_size - w2.1.cursor
  let nb_to_write := min (length - input_cursor) space_left
  (match buffer with
    | some b =>
      match Buffer.copy b w2.1.chunk w2.1.cursor input_cursor
          (input_cursor + nb_to_write) with
      | .ok c => Outcome.ok ({ w2.1 with chunk := c }, w2.2)
      | .error e => Outcome.threw e w2
    | none => Outcome.ok w2).bind fun w3 =>
    let w4 : ChunkManager × L := ({ w3.1 with cursor := w3.1.cursor + nb_to_write }, w3.2)
    (if w4.1.cursor ≥ w4.1.chunk_size then
      if w4.1.cursor = w4.1.chunk_size then
        (emit (.chunk w4.1.chunk) w4).bind fun w5 => .ok ({ w5.1 with cursor := 0 }, w5.2)
      else .threw "assert(this.cursor === this.chunk_size)" w4
    else .ok w4).bind fun w6 =>
      ChunkManager.writeLoop emit buffer length fuel (l - nb_to_write)
        (input_cursor + nb_to_write) w6

/-- The framer's listeners, with a counter of the body blocks its accumulator has
completed: the counter goes up at every "chunk" event delivered. -/
def MessageChunkManager.countingListener : ChunkListener (MessageChunkManager × Nat) :=
  fun ev w =>
    (MessageChunkManager.listener ev (w.1, w.2.1)).map fun w1 =>
      (w1.1, (w1.2, match ev with
        | .chunk _ => w.2.2 + 1
        | .before_chunk _ => w.2.2))

/-- Forget the counter kept beside the listeners' state. -/
def dropCount {L G : Type} (w : ChunkManager × (L × G)) : ChunkManager × L := (w.1, w.2.1)

/-- Store the inner `ChunkManager` back into its owner, keeping the counter. -/
def MessageChunkManager.repackCounted (w : ChunkManager × (MessageChunkManager × Nat)) :
    MessageChunkManager × Nat :=
  (MessageChunkManager.repack (w.1, w.2.1), w.2.2)

/-- The method `_sendPendingChunk` on a framer carrying the block counter. -/
def MessageChunkManager.sendCounted (finalC : JsString) (s : MessageChunkManager × Nat) :
    Outcome (MessageChunkManager × Nat) :=
  (MessageChunkManager._sendPendingChunk finalC s.1).map fun m => (m, s.2)

/-- Perform one call on a framer carrying the block counter. -/
def MessageChunkManager.callCounted :
    FramerCall → MessageChunkManager × Nat → Outcome (MessageChunkManager × Nat)
  | .write buffer length, s =>
    (ChunkManager.write MessageChunkManager.countingListener buffer length
      (s.1.chunkManager, s)).map MessageChunkManager.repackCounted
  | .end_, s =>
    ((ChunkManager.end_ MessageChunkManager.countingListener (s.1.chunkManager, s)).map
      MessageChunkManager.repackCounted).bind (MessageChunkManager.sendCounted charF)
  | .abort, s =>
    ((ChunkManager.end_ MessageChunkManager.countingListener (s.1.chunkManager, s)).map
      MessageChunkManager.repackCounted).bind (MessageChunkManager.sendCounted charA)

/-- Perform a sequence of calls on a framer carrying the block counter. -/
def MessageChunkManager.runCounted :
    List FramerCall → MessageChunkManager × Nat → Outcome (MessageChunkManager × Nat)
  | [], s => .ok s
  | c :: rest, s =>
    match MessageChunkManager.callCounted c s with
    | .ok s1 => MessageChunkManager.runCounted rest s1
    | .threw m s1 => if rest = [] then .threw m s1 else MessageChunkManager.runCounted rest s1
    | .diverged s1 => .diverged s1

/-- The framer with its block counter, between two events: the configuration is the
given one, a pending chunk has room for its header and fits the message size, and the
blocks completed so far are the chunks emitted plus the pending one. -/
structure CountInv (mt : JsString) (sc H B : Nat) (s : MessageChunkManager × Nat) : Prop where
  msgType : s.1.msgType = mt
  channel : s.1.secureChannelId = sc
  header : s.1.sizeOfHeader = H
  size : s.1.messageSize = ((H + B : Nat) : Int)
  pending : ∀ p, s.1.pendingChunk = some p → H ≤ p.length ∧ p.length ≤ H + B
  count : s.2 = s.1.emitted.length + (if s.1.pendingChunk.isSome then 1 else 0)

/-- The accumulator between two calls: a block buffer of `B` bytes, the cursor inside
it, no announcement in progress. -/
structure AccInv (B : Nat) (cm : ChunkManager) : Prop where
  csize : cm.chunk_size = B
  clen : cm.chunk.length = B
  flag : cm._in_before_chunk = false
  cursor : ∃ k : Nat, cm.cursor = k ∧ k < B

/-- End of an iteration of the write loop, after the copy: the cursor advances by
`nb_to_write`, a full block is emitted, and the remaining iterations follow. -/
def ChunkManager.completeStep {L : Type} (emit : ChunkListener L) (buffer : Option Buffer)
    (length : Int) (fuel : Nat) (l input_cursor nb_to_write : Int) (w3 : ChunkManager × L) :
    Outcome (ChunkManager × L) :=
  let w4 : ChunkManager × L := ({ w3.1 with cursor := w3.1.cursor + nb_to_write }, w3.2)
  (if w4.1.cursor ≥ w4.1.chunk_size then
    if w4.1.cursor = w4.1.chunk_size then
      (emit (.chunk w4.1.chunk) w4).bind fun w5 => .ok ({ w5.1 with cursor := 0 }, w5.2)
    else .threw "assert(this.cursor === this.chunk_size)" w4
  else .ok w4).bind fun w6 =>
    ChunkManager.writeLoop emit buffer length fuel (l - nb_to_write)
      (input_cursor + nb_to_write) w6

/-- The counting framer between two calls. -/
structure PipelineInv (mt : JsString) (sc H B : Nat) (s : MessageChunkManager × Nat) :
    Prop where
  acc : AccInv B s.1.chunkManager
  framer : CountInv mt sc H B s

/-- The local variables `l` and `input_cursor` of the write loop, with the accumulator
and the listeners' state. -/
structure LoopState (L : Type) where
  l : Int
  input_cursor : Int
  w : ChunkManager × L

/-- The copy made by an iteration of the write loop: `nb_to_write` bytes of `buffer`
from `input_cursor` go to the block at the cursor; nothing is copied for `null`. -/
def ChunkManager.copyStep {L : Type} (buffer : Option Buffer)
    (input_cursor nb_to_write : Int) (w : ChunkManager × L) : Outcome (ChunkManager × L) :=
  match buffer with
  | some b =>
    match Buffer.copy b w.1.chunk w.1.cursor input_cursor (input_cursor + nb_to_write) with
    | .ok c => Outcome.ok ({ w.1 with chunk := c }, w.2)
    | .error e => Outcome.threw e w
  | none => Outcome.ok w

/-- The end of an iteration of the write loop: the cursor advances by `nb_to_write`, and
a block found full is checked, emitted and started again. -/
def ChunkManager.advance {L : Type} (emit : ChunkListener L) (nb_to_write : Int)
    (w : ChunkManager × L) : Outcome (ChunkManager × L) :=
  let w4 : ChunkManager × L := ({ w.1 with cursor := w.1.cursor + nb_to_write }, w.2)
  if w4.1.cursor ≥ w4.1.chunk_size then
    if w4.1.cursor = w4.1.chunk_size then
      (emit (.chunk w4.1.chunk) w4).bind fun w5 => .ok ({ w5.1 with cursor := 0 }, w5.2)
    else .threw "assert(this.cursor === this.chunk_size)" w4
  else .ok w4

/-- One pass through the body of the `while (l > 0)` loop of
`ChunkManager.prototype.write`, from the state `s` at the start of the iteration to the
state at its end: the announcement, the copy, the advance of the cursor and of the
loop variables. -/
def ChunkManager.loopBody {L : Type} (emit : ChunkListener L) (buffer : Option Buffer)
    (length : Int) (s : LoopState L) : Outcome (LoopState L) :=
  if length - s.input_cursor = 0 then .threw "assert(length - input_cursor !== 0)" s
  else
    ((ChunkManager.announce emit s.w).map fun w2 => { s with w := w2 }).bind fun s2 =>
    let space_left := s2.w.1.chunk_size - s2.w.1.cursor
    let nb_to_write := min (length - s2.input_cursor) space_left
    ((ChunkManager.copyStep buffer s2.input_cursor nb_to_write s2.w).map
      fun w3 => { s2 with w := w3 }).bind fun s3 =>
    (ChunkManager.advance emit nb_to_write s3.w).map fun w6 =>
      { l := s3.l - nb_to_write, input_cursor := s3.input_cursor + nb_to_write, w := w6 }

/-- The states at the start of each iteration the write loop performs from `s`, at most
`fuel` of them: the loop goes on while `l > 0` and the body returns. -/
def ChunkManager.loopTrace {L : Type} (emit : ChunkListener L) (buffer : Option Buffer)
    (length : Int) : Nat → LoopState L → List (LoopState L)
  | 0, _ => []
  | fuel + 1, s =>
    if s.l > 0 then
      s :: (match ChunkManager.loopBody emit buffer length s with
        | .ok s1 => ChunkManager.loopTrace emit buffer length fuel s1
        | .threw _ _ => []
        | .diverged _ => [])
    else []

/-- Go on with `cont` after a normal return; otherwise keep the outcome, with the part
`proj` of its state. -/
def Outcome.andThen {σ τ : Type} (proj : τ → σ) (cont : τ → Outcome σ) (r : Outcome τ) :
    Outcome σ :=
  match r with
  | .ok s => cont s
  | .threw m s => .threw m (proj s)
  | .diverged s => .diverged (proj s)

/-- The loop invariant of `write` for a block of `c` bytes: the accumulator is in
order, `l` is what remains of the input and the input position is not negative. -/
structure LoopInv {L : Type} (c : Nat) (length : Int) (s : LoopState L) : Prop where
  acc : AccInv c s.w.1
  remaining : s.l = length - s.input_cursor
  position : 0 ≤ s.input_cursor
  left : 0 ≤ s.l

/-- The name under which an event is emitted. -/
def ChunkEvent.name : ChunkEvent → String
  | .before_chunk _ => "before_chunk"
  | .chunk _ => "chunk"

/-- What the control of the write loop depends on at the start of an iteration, with
the names of the events recorded so far: `l`, `input_cursor`, the cursor, the names. -/
def LoopState.shape (s : LoopState (List ChunkEvent)) : Int × Int × Int × List String :=
  (s.l, s.input_cursor, s.w.1.cursor, s.w.2.map ChunkEvent.name)

/-- Listeners that, when they return, have left the accumulator as it was. -/
def Transparent {L : Type} (emit : ChunkListener L) : Prop :=
  ∀ ev w r, emit ev w = .ok r → r.1 = w.1

/-- Feed the chunks in order, each call starting from the state the call before left,
whether it returned or raised an exception: the state after the last call. -/
def MessageBuilderBase.feedEach (hooks : BuilderHooks) :
    List Buffer → MessageBuilderBase → MessageBuilderBase
  | [], self => self
  | c :: rest, self =>
    MessageBuilderBase.feedEach hooks rest (MessageBuilderBase.feed hooks c self).state

/-- A JavaScript value of the kinds a `Duration` field may hold: absent (`undefined`),
or a number, which is NaN, an infinity, or finite.  A finite double is a rational, and
none of `||`, `Math.min` and `Math.max` rounds, so finite numbers are taken in `ℚ`. -/
inductive JsValue where
  | undefined
  | nan
  | negInf
  | posInf
  | num (x : ℚ)
  deriving DecidableEq

/-- Whether a value is truthy: `undefined`, NaN and 0 are not. -/
def JsValue.truthy : JsValue → Bool
  | .undefined => false
  | .nan => false
  | .negInf => true
  | .posInf => true
  | .num x => decide (x ≠ 0)

/-- The expression `a || b`. -/
def JsValue.or (a b : JsValue) : JsValue := if a.truthy then a else b

/-- The function `Math.min(a, b)`: NaN when an argument is NaN or `undefined`. -/
def Math.min : JsValue → JsValue → JsValue
  | .undefined, _ => .nan
  | _, .undefined => .nan
  | .nan, _ => .nan
  | _, .nan => .nan
  | .negInf, _ => .negInf
  | _, .negInf => .negInf
  | .posInf, b => b
  | a, .posInf => a
  | .num x, .num y => .num (if x ≤ y then x else y)

/-- The function `Math.max(a, b)`: NaN when an argument is NaN or `undefined`. -/
def Math.max : JsValue → JsValue → JsValue
  | .undefined, _ => .nan
  | _, .undefined => .nan
  | .nan, _ => .nan
  | _, .nan => .nan
  | .posInf, _ => .posInf
  | _, .posInf => .posInf
  | .negInf, b => b
  | a, .negInf => a
  | .num x, .num y => .num (if x ≤ y then y else x)

/-- The module variable `minSessionTimeout`: 10 milliseconds. -/
def minSessionTimeout : JsValue := .num 10

/-- The module variable `defaultSessionTimeout`: 1 second. -/
def defaultSessionTimeout : JsValue := .num 1000

/-- The module variable `maxSessionTimeout`: 5 minutes. -/
def maxSessionTimeout : JsValue := .num (1000 * 60 * 5)

/-- The local variable `revisedSessionTimeout` of `_on_CreateSessionRequest`, after its
three assignments. -/
def revisedSessionTimeout (requestedSessionTimeout : JsValue) : JsValue :=
  let revisedSessionTimeout := JsValue.or requestedSessionTimeout defaultSessionTimeout
  let revisedSessionTimeout := Math.min revisedSessionTimeout maxSessionTimeout
  Math.max revisedSessionTimeout minSessionTimeout

/-- Modelled from the spec: the members of `StatusCodes`
(`lib/datamodel/opcua_status_code`, not among the sources) that the handlers below
name. -/
inductive StatusCodes where
  | Good
  | BadTooManySessions
  | BadNonceInvalid
  | BadSessionNotActivated
  | BadNothingToDo
  | BadTooManyOperations
  deriving Repr, DecidableEq

/-- Modelled from the spec: the members of `MessageSecurityMode`
(`lib/services/get_endpoints_service`, not among the sources). -/
inductive MessageSecurityMode where
  | INVALID
  | NONE
  | SIGN
  | SIGNANDENCRYPT
  deriving Repr, DecidableEq

/-- Modelled from the spec: the members of `ApplicationType`
(`lib/datamodel/structures`, not among the sources). -/
inductive ApplicationType where
  | SERVER
  | CLIENT
  | CLIENTANDSERVER
  | DISCOVERYSERVER
  deriving Repr, DecidableEq

/-- The fields of an `OPCUAServer` the methods below read or write:
`serverInfo.applicationType` (absent when not set), the session counters. -/
structure OPCUAServer where
  applicationType : Option ApplicationType
  currentSessionCount : Nat
  maxAllowedSessionNumber : Nat
  _rejectedSessionCount : Nat
  deriving Repr, DecidableEq

/-- The getter `serverType`: `this.serverInfo.applicationType`. -/
def OPCUAServer.serverType (self : OPCUAServer) : Option ApplicationType :=
  self.applicationType

/-- The fields of a `CreateSessionRequest` that `_on_CreateSessionRequest` reads before
it creates the session. -/
structure CreateSessionRequest where
  requestedSessionTimeout : JsValue
  clientNonce : Option Buffer

/-- What `_on_CreateSessionRequest` does: it answers with a failed service result, or
it goes on to `server.createSession({sessionTimeout: revisedSessionTimeout})` and to a
response that carries the same `revisedSessionTimeout`. -/
inductive CreateSessionResult where
  | rejected (serviceResult : StatusCodes)
  | created (revisedSessionTimeout : JsValue)
  deriving DecidableEq

/-- The method `OPCUAServer.prototype._on_CreateSessionRequest(message, channel)`, up
to the creation of the session; `securityMode` is `channel.securityMode`. -/
def OPCUAServer._on_CreateSessionRequest (server : OPCUAServer)
    (request : CreateSessionRequest) (securityMode : MessageSecurityMode) :
    OPCUAServer × CreateSessionResult :=
  if server.currentSessionCount ≥ server.maxAllowedSessionNumber then
    ({ server with _rejectedSessionCount := server._rejectedSessionCount + 1 },
      .rejected .BadTooManySessions)
  else
    let revisedSessionTimeout := JsValue.or request.requestedSessionTimeout defaultSessionTimeout
    let revisedSessionTimeout := Math.min revisedSessionTimeout maxSessionTimeout
    let revisedSessionTimeout := Math.max revisedSessionTimeout minSessionTimeout
    let nonceMissing : Bool :=
      match request.clientNonce with
      | none => true
      | some nonce => decide (nonce.length < 32)
    if nonceMissing = true ∧ securityMode ≠ .NONE then
      ({ server with _rejectedSessionCount := server._rejectedSessionCount + 1 },
        .rejected .BadNonceInvalid)
    else (server, .created revisedSessionTimeout)

/-- The response class `RepublishResponse`, by name. -/
def RepublishResponse : String := "RepublishResponse"

/-- The response class `CallResponse`, by name. -/
def CallResponse : String := "CallResponse"

/-- A response object built by `new ResponseClass({responseHeader: {serviceResult: ...}})`:
the name of its class and its `responseHeader.serviceResult`. -/
structure Response where
  responseClass : String
  serviceResult : StatusCodes
  deriving Repr, DecidableEq

/-- A session object as the handlers use it: its identity, and whether its property
`keepAlive` is a function. -/
structure ServerSession where
  sessionId : Nat
  keepAlive : Bool
  deriving Repr, DecidableEq

/-- An element of `request.methodsToCall`. -/
structure CallMethodRequest where
  objectId : Nat
  methodId : Nat
  deriving Repr, DecidableEq

/-- The field of a `CallRequest` that `_on_CallRequest` reads. -/
structure CallRequest where
  methodsToCall : List CallMethodRequest
  deriving Repr, DecidableEq

/-- A message handed to a handler: the request, and the session `prepare` attached to
it, absent when the authentication token matched no session. -/
structure Message (ρ : Type) where
  request : ρ
  session : Option ServerSession

/-- What a handler does that can be seen from outside, in order: the call
`session.keepAlive()`, the call `channel.send_response(msgType, response, message)`,
the call `async.map(methodsToCall, callMethod.bind(server, session), ...)` that runs the
methods, and the call of an `action_to_perform` that records itself. -/
inductive ServerEvent where
  | keepAlive (session : ServerSession)
  | send_response (msgType : String) (response : Response)
  | async_map (session : ServerSession) (methodsToCall : List CallMethodRequest)
  | action (session : ServerSession)
  deriving Repr, DecidableEq

/-- The function passed as `action_to_perform`, acting on the log of events. -/
abbrev SessionAction (ρ : Type) :=
  ServerSession → Message ρ → List ServerEvent → Outcome (List ServerEvent)

/-- The method `OPCUAServer.prototype._apply_on_SessionObject(ResponseClass, message,
channel, action_to_perform)`; `action_to_perform = none` is an argument that is not a
function.  The console output of the invalid-session branch is left out. -/
def OPCUAServer._apply_on_SessionObject {ρ : Type} (ResponseClass : String)
    (message : Message ρ) (action_to_perform : Option (SessionAction ρ))
    (log : List ServerEvent) : Outcome (List ServerEvent) :=
  match action_to_perform with
  | none => .threw "assert(_.isFunction(action_to_perform))" log
  | some action_to_perform =>
    match message.session with
    | none =>
      let response : Response :=
        { responseClass := ResponseClass, serviceResult := .BadSessionNotActivated }
      .ok (log ++ [.send_response "MSG" response])
    | some session =>
      if session.keepAlive = false then
        .threw "assert(_.isFunction(message.session.keepAlive))" log
      else action_to_perform session message (log ++ [.keepAlive session])

/-- An `action_to_perform` that only records that it was called, and with which
session. -/
def recordAction {ρ : Type} : SessionAction ρ :=
  fun session _ log => .ok (log ++ [.action session])

/-- Whether an event is a call of the recording action. -/
def ServerEvent.isAction : ServerEvent → Bool
  | .action _ => true
  | _ => false

/-- Whether an event is a response sent. -/
def ServerEvent.isResponse : ServerEvent → Bool
  | .send_response _ _ => true
  | _ => false

/-- The module variable `maximumOperationInCallRequest`. -/
def maximumOperationInCallRequest : Nat := 1000

/-- The method `OPCUAServer.prototype._on_CallRequest(message, channel)`, up to the
call of `async.map` that runs the methods. -/
def OPCUAServer._on_CallRequest (message : Message CallRequest) (log : List ServerEvent) :
    Outcome (List ServerEvent) :=
  OPCUAServer._apply_on_SessionObject RepublishResponse message
    (some fun session message log =>
      let request := message.request
      if request.methodsToCall.length = 0 then
        .ok (log ++ [.send_response "MSG"
          { responseClass := CallResponse, serviceResult := .BadNothingToDo }])
      else if request.methodsToCall.length ≥ maximumOperationInCallRequest then
        .ok (log ++ [.send_response "MSG"
          { responseClass := CallResponse, serviceResult := .BadTooManyOperations }])
      else .ok (log ++ [.async_map session request.methodsToCall])) log

/-- The `server` field of a `RegisterServerRequest`, as `registerServer` fills it. -/
structure RegisteredServer where
  serverUri : String
  productUri : String
  serverNames : List (String × String)
  serverType : ApplicationType
  gatewayServerUri : Option String
  discoveryUrls : List String
  semaphoreFilePath : Option String
  isOnline : Bool
  deriving Repr, DecidableEq

/-- The request `registerServer` builds; the request header the constructor adds is
left out. -/
structure RegisterServerRequest where
  server : RegisteredServer
  deriving Repr, DecidableEq

/-- The three methods of the client object that `registerServer` calls, over a state
`σ` of the outside world; each takes the callback it is to call.  `connect` passes the
error, absent on success; `performMessageTransaction` passes the error and the name of
the class of the response. -/
structure ClientMethods (σ : Type) where
  connect : String → (Option String → σ → Outcome σ) → σ → Outcome σ
  performMessageTransaction : RegisterServerRequest →
    (Option String → Option String → σ → Outcome σ) → σ → Outcome σ
  disconnect : (σ → Outcome σ) → σ → Outcome σ

/-- The method `OPCUAServer.prototype.registerServer(discovery_server_endpointUrl,
callback)`, with the methods of the client it creates as a parameter.  The console
output of the failed-connection branch is left out. -/
def OPCUAServer.registerServer {σ : Type} (self : OPCUAServer) (client : ClientMethods σ)
    (discovery_server_endpointUrl : String) (callback : σ → Outcome σ) (w : σ) :
    Outcome σ :=
  match self.serverType with
  | none => .threw "assert(self.serverType)" w
  | some serverType =>
    client.connect discovery_server_endpointUrl (fun err =>
      match err with
      | none =>
        let request : RegisterServerRequest :=
          { server :=
              { serverUri := "request.serverUri",
                productUri := "request.productUri",
                serverNames := [("en", "MyServerName")],
                serverType := serverType,
                gatewayServerUri := none,
                discoveryUrls := [],
                semaphoreFilePath := none,
                isOnline := false } }
        client.performMessageTransaction request (fun _ response =>
          if response = some "RegisterServerResponse" then client.disconnect callback
          else fun w1 => .threw "assert(response instanceof RegisterServerResponse)" w1)
      | some _ => client.disconnect callback) w

/-- What happens between the server and the discovery server, in order. -/
inductive RegistrationEvent where
  | connect (endpointUrl : String)
  | transaction (request : RegisterServerRequest)
  | disconnect
  | callback
  deriving Repr, DecidableEq

/-- The outside world of `registerServer`: the discovery server's list
`registered_servers`, and what happened so far. -/
structure DiscoveryWorld where
  registered_servers : List RegisteredServer
  events : List RegistrationEvent
  deriving Repr, DecidableEq

/-- Modelled from the spec: the `OPCUAClientBase` class (`lib/client/client_base`) and
the discovery server, which are not among the sources, as the test "should register
server to the discover server" observes them.  `connect` succeeds on the endpoints
`reachable` holds for and calls its callback once; a transaction makes the discovery
server add the server of the request to `registered_servers` and answer with a
`RegisterServerResponse`; `disconnect` calls its callback once. -/
def discoveryClient (reachable : String → Bool) : ClientMethods DiscoveryWorld where
  connect := fun endpointUrl cb w =>
    cb (if reachable endpointUrl then none else some "connection failed")
      { w with events := w.events ++ [.connect endpointUrl] }
  performMessageTransaction := fun request cb w =>
    cb none (some "RegisterServerResponse")
      { w with
        registered_servers := w.registered_servers ++ [request.server],
        events := w.events ++ [.transaction request] }
  disconnect := fun cb w => cb { w with events := w.events ++ [.disconnect] }

/-- A callback that only records that it was called. -/
def recordCallback (w : DiscoveryWorld) : Outcome DiscoveryWorld :=
  .ok { w with events := w.events ++ [.callback] }

/-! ## Basic facts -/

@[simp] theorem Outcome.bind_ok {σ : Type} (s : σ) (f : σ → Outcome σ) :
    (Outcome.ok s).bind f = f s := rfl

@[simp] theorem Outcome.bind_threw {σ : Type} (m : String) (s : σ) (f : σ → Outcome σ) :
    (Outcome.threw m s).bind f = .threw m s := rfl

@[simp] theorem Outcome.bind_diverged {σ : Type} (s : σ) (f : σ → Outcome σ) :
    (Outcome.diverged s).bind f = .diverged s := rfl

@[simp] theorem Outcome.map_ok {σ τ : Type} (g : σ → τ) (s : σ) :
    (Outcome.ok s).map g = .ok (g s) := rfl

@[simp] theorem Outcome.map_threw {σ τ : Type} (g : σ → τ) (m : String) (s : σ) :
    (Outcome.threw m s).map g = .threw m (g s) := rfl

@[simp] theorem Outcome.map_diverged {σ τ : Type} (g : σ → τ) (s : σ) :
    (Outcome.diverged s).map g = .diverged (g s) := rfl

@[simp] theorem Outcome.state_ok {σ : Type} (s : σ) : (Outcome.ok s).state = s := rfl

@[simp] theorem Outcome.state_threw {σ : Type} (m : String) (s : σ) :
    (Outcome.threw m s).state = s := rfl

/-- Cloning a buffer into a fresh buffer of the same length gives the same bytes. -/
theorem Buffer.copy_clone (b : Buffer) :
    Buffer.copy b (Buffer.alloc b.length) 0 0 b.length = .ok b := by
  cases b with
  | nil => simp [Buffer.copy, Buffer.alloc]
  | cons x xs =>
    simp [Buffer.copy, Buffer.alloc]
    have h1 : ¬ ((xs.length : Int) + 1 = 0) := by omega
    have h2 : ¬ ((xs.length : Int) + 1 < 0) := by omega
    simp [h1, h2]

/-- The method `slice(start)` with `start` inside the buffer drops the first `start` bytes. -/
theorem Buffer.slice_from (b : Buffer) (n : Nat) (h : n ≤ b.length) :
    Buffer.slice b n b.length = b.drop n := by
  unfold Buffer.slice Buffer.clamp
  simp
  by_cases hn : b.length ≤ n
  · have : n = b.length := by omega
    subst this
    simp
  · simp [hn]

/-! ## Reassembly lemmas -/

/-- What `_append` does to a chunk whose length field is right. -/
theorem MessageBuilderBase.append_wellformed (e : Nat) (b1 b2 : Bool) (chunk : Buffer)
    (hlen : 12 + e ≤ chunk.length)
    (hfield : Buffer.readUInt32LE chunk 4 = some chunk.length) (s : MessageBuilderBase) :
    MessageBuilderBase._append (skipHooks e b1 b2) chunk s =
      .ok { s with
        total_size := s.total_size + ((chunk.length : Int) - ((12 + e : Nat) : Int)),
        offsetBodyStart := some (12 + e),
        blocks := s.blocks ++ [chunk.drop (12 + e)] } := by
  have h0 : Buffer.readUInt32LE chunk 0 ≠ none := by
    simp [Buffer.readUInt32LE]; omega
  have h8 : Buffer.readUInt32LE chunk 8 ≠ none := by
    simp [Buffer.readUInt32LE]; omega
  obtain ⟨v0, hv0⟩ := Option.ne_none_iff_exists'.mp h0
  obtain ⟨v8, hv8⟩ := Option.ne_none_iff_exists'.mp h8
  unfold MessageBuilderBase._append
  simp only [BinaryStream.readUInt32, BinaryStream.new, hv0, Option.map_some', hfield, hv8,
    zero_add]
  simp only [ne_eq, not_true_eq_false, if_false]
  have hstep : MessageBuilderBase.read_headers_step (skipHooks e b1 b2)
      { _buffer := chunk, length := 12 } = .ok { _buffer := chunk, length := 12 + e } := by
    unfold MessageBuilderBase.read_headers_step skipHooks
    by_cases he : e = 0
    · simp [he]
    · have : 12 + e > 12 := by omega
      simp [he, advanceBy, this]
  simp only [hstep]
  rw [Buffer.slice_from chunk (12 + e) hlen, Buffer.copy_clone]

/-- The header `readMessageHeader` parses from a buffer of at least 8 bytes. -/
theorem readMessageHeader_eq (chunk : Buffer) (h : 8 ≤ chunk.length) :
    readMessageHeader (BinaryStream.new chunk) =
      some { msgType := [chunk.getD 0 0, chunk.getD 1 0, chunk.getD 2 0],
             isFinal := chunk.getD 3 0,
             length := chunk.getD 4 0 + 256 * chunk.getD 5 0 + 65536 * chunk.getD 6 0
                        + 16777216 * chunk.getD 7 0 } := by
  have h0 : 0 < chunk.length := by omega
  have h1 : 1 < chunk.length := by omega
  have h2 : 2 < chunk.length := by omega
  have h3 : 3 < chunk.length := by omega
  simp [readMessageHeader, BinaryStream.readUInt8, BinaryStream.readUInt32, BinaryStream.new,
    Buffer.readUInt8, Buffer.readUInt32LE, h0, h1, h2, h3, h]

/-- A buffer too short for the common header makes `readMessageHeader` fail. -/
theorem readMessageHeader_short (chunk : Buffer) (h : chunk.length < 8) :
    readMessageHeader (BinaryStream.new chunk) = none := by
  simp only [readMessageHeader, BinaryStream.readUInt8, BinaryStream.readUInt32,
    BinaryStream.new, Buffer.readUInt8, Buffer.readUInt32LE]
  by_cases h0 : 0 < chunk.length <;> simp [h0]
  by_cases h1 : 1 < chunk.length <;> simp [h1]
  by_cases h2 : 2 < chunk.length <;> simp [h2]
  by_cases h3 : 3 < chunk.length <;> simp [h3]
  have h8 : ¬ (8 ≤ chunk.length) := by omega
  simp [h8]

theorem rawBuffers_append (xs ys : List BuilderEvent) :
    rawBuffers (xs ++ ys) = rawBuffers xs ++ rawBuffers ys := by
  induction xs with
  | nil => rfl
  | cons x rest ih => cases x <;> simp [rawBuffers, ih]

theorem MessageBuilderBase.feed_C (e : Nat) (b1 b2 : Bool) (chunk : Buffer)
    (h : WellFormedChunk e 67 chunk) (s : MessageBuilderBase) :
    MessageBuilderBase.feed (skipHooks e b1 b2) chunk s =
      .ok { s with
        total_size := s.total_size + ((chunk.length : Int) - ((12 + e : Nat) : Int)),
        offsetBodyStart := some (12 + e),
        blocks := s.blocks ++ [chunk.drop (12 + e)] } := by
  obtain ⟨hlen, ht, hf⟩ := h
  unfold MessageBuilderBase.feed
  rw [readMessageHeader_eq chunk (by omega)]
  simp only [ht]
  simp [MessageBuilderBase.append_wellformed e b1 b2 chunk hlen hf]

theorem MessageBuilderBase.feedAll_C (e : Nat) (b1 b2 : Bool) (cs : List Buffer)
    (h : ∀ c ∈ cs, WellFormedChunk e 67 c) (s : MessageBuilderBase) :
    ∃ s1, MessageBuilderBase.feedAll (skipHooks e b1 b2) cs s = .ok s1
      ∧ s1.blocks = s.blocks ++ cs.map (List.drop (12 + e))
      ∧ s1.events = s.events
      ∧ ((s.blocks.flatten.length : Int) = s.total_size →
          (s1.blocks.flatten.length : Int) = s1.total_size) := by
  induction cs generalizing s with
  | nil => exact ⟨s, rfl, by simp, rfl, id⟩
  | cons c rest ih =>
    have hc := h c (List.mem_cons_self _ _)
    obtain ⟨s1, h1, h2, h3, h4⟩ := ih (fun c hc => h c (List.mem_cons_of_mem _ hc))
      { s with
        total_size := s.total_size + ((c.length : Int) - ((12 + e : Nat) : Int)),
        offsetBodyStart := some (12 + e),
        blocks := s.blocks ++ [c.drop (12 + e)] }
    refine ⟨s1, ?_, ?_, ?_, ?_⟩
    · simp only [MessageBuilderBase.feedAll, MessageBuilderBase.feed_C e b1 b2 c hc,
        Outcome.bind_ok, h1]
    · simp [h2]
    · simpa using h3
    · intro hs
      apply h4
      have := hc.1
      dsimp only
      simp only [List.flatten_append, List.length_append, List.flatten_cons, List.flatten_nil,
        List.length_drop, List.append_nil]
      push_cast
      omega

theorem MessageBuilderBase.feed_F (e : Nat) (b1 b2 : Bool) (chunk : Buffer)
    (h : WellFormedChunk e 70 chunk) (s : MessageBuilderBase)
    (hs : (s.blocks.flatten.length : Int) = s.total_size) :
    ∃ s1, MessageBuilderBase.feed (skipHooks e b1 b2) chunk s = .ok s1
      ∧ s1.blocks = s.blocks ++ [chunk.drop (12 + e)]
      ∧ rawBuffers s1.events = rawBuffers s.events ++ [(s.blocks ++ [chunk.drop (12 + e)]).flatten]
      := by
  obtain ⟨hlen, ht, hf⟩ := h
  have hsz : (((s.blocks ++ [chunk.drop (12 + e)]).flatten.length : Nat) : Int)
      = s.total_size + ((chunk.length : Int) - ((12 + e : Nat) : Int)) := by
    simp only [List.flatten_append, List.length_append, List.flatten_cons, List.flatten_nil,
      List.length_drop, List.append_nil]
    push_cast
    omega
  unfold MessageBuilderBase.feed
  rw [readMessageHeader_eq chunk (by omega)]
  simp only [ht, if_true, MessageBuilderBase.append_wellformed e b1 b2 chunk hlen hf,
    Outcome.bind_ok, hsz, ne_eq, not_true_eq_false, if_false]
  cases b1
  · refine ⟨_, rfl, rfl, ?_⟩
    simp [skipHooks, rawBuffers_append, rawBuffers]
  · refine ⟨_, rfl, rfl, ?_⟩
    simp [skipHooks, rawBuffers_append, rawBuffers]

/-! ## Claims on the reassembler -/

@[simp] theorem Outcome.state_diverged {σ : Type} (s : σ) :
    (Outcome.diverged s).state = s := rfl

@[simp] theorem Outcome.isOk_ok {σ : Type} (s : σ) : (Outcome.ok s).isOk = true := rfl

@[simp] theorem Outcome.isOk_threw {σ : Type} (m : String) (s : σ) :
    (Outcome.threw m s).isOk = false := rfl

/-- C7. Reassembly: `k ≥ 0` well-formed 'C' chunks followed by one well-formed 'F' chunk,
fed in order to a fresh `MessageBuilderBase` without `_read_headers`, emit no raw_buffer
before the 'F' chunk (after any number of the 'C' chunks nothing at all has been
emitted), and on the 'F' chunk exactly one raw_buffer, the concatenation in feed order
of each chunk's bytes from offset 12 to its end. -/
theorem C7_reassembly (cs : List Buffer) (f : Buffer) (on_raw_buffer error_listener : Bool)
    (hcs : ∀ c ∈ cs, WellFormedChunk 0 67 c) (hf : WellFormedChunk 0 70 f) :
    (∀ k, ∃ sk, MessageBuilderBase.feedAll
          { _read_headers := none, _on_raw_buffer := on_raw_buffer,
            error_listener := error_listener } (cs.take k) MessageBuilderBase.new = .ok sk
        ∧ sk.events = [])
    ∧ ∃ s1 s2, MessageBuilderBase.feedAll
          { _read_headers := none, _on_raw_buffer := on_raw_buffer,
            error_listener := error_listener } cs MessageBuilderBase.new = .ok s1
        ∧ MessageBuilderBase.feed
          { _read_headers := none, _on_raw_buffer := on_raw_buffer,
            error_listener := error_listener } f s1 = .ok s2
        ∧ rawBuffers s2.events = [((cs ++ [f]).map (List.drop 12)).flatten] := by
  have hk : (⟨none, on_raw_buffer, error_listener⟩ : BuilderHooks)
      = skipHooks 0 on_raw_buffer error_listener := rfl
  rw [hk]
  constructor
  · intro k
    obtain ⟨sk, h1, _, h3, _⟩ := MessageBuilderBase.feedAll_C 0 on_raw_buffer error_listener
      (cs.take k) (fun c hc => hcs c (List.mem_of_mem_take hc)) MessageBuilderBase.new
    exact ⟨sk, h1, h3⟩
  · obtain ⟨s1, h1, h2, h3, h4⟩ := MessageBuilderBase.feedAll_C 0 on_raw_buffer error_listener
      cs hcs MessageBuilderBase.new
    obtain ⟨s2, g1, _, g3⟩ := MessageBuilderBase.feed_F 0 on_raw_buffer error_listener f hf s1
      (h4 rfl)
    refine ⟨s1, s2, h1, g1, ?_⟩
    rw [g3, h3, h2]
    simp [MessageBuilderBase.new, rawBuffers]

/-- Witness for C7: two 'C' chunks and one 'F' chunk. -/
theorem C7_reassembly_witness :
    (∀ k, ∃ sk, MessageBuilderBase.feedAll
          { _read_headers := none, _on_raw_buffer := false, error_listener := false }
          ([[72, 69, 76, 67, 14, 0, 0, 0, 0, 0, 0, 0, 1, 2],
            [72, 69, 76, 67, 14, 0, 0, 0, 0, 0, 0, 0, 3, 4]].take k)
          MessageBuilderBase.new = .ok sk
        ∧ sk.events = [])
    ∧ ∃ s1 s2, MessageBuilderBase.feedAll
          { _read_headers := none, _on_raw_buffer := false, error_listener := false }
          [[72, 69, 76, 67, 14, 0, 0, 0, 0, 0, 0, 0, 1, 2],
           [72, 69, 76, 67, 14, 0, 0, 0, 0, 0, 0, 0, 3, 4]] MessageBuilderBase.new = .ok s1
        ∧ MessageBuilderBase.feed
          { _read_headers := none, _on_raw_buffer := false, error_listener := false }
          [72, 69, 76, 70, 13, 0, 0, 0, 0, 0, 0, 0, 5] s1 = .ok s2
        ∧ rawBuffers s2.events = [(([[72, 69, 76, 67, 14, 0, 0, 0, 0, 0, 0, 0, 1, 2],
           [72, 69, 76, 67, 14, 0, 0, 0, 0, 0, 0, 0, 3, 4]]
             ++ [[72, 69, 76, 70, 13, 0, 0, 0, 0, 0, 0, 0, 5]]).map (List.drop 12)).flatten] :=
  C7_reassembly _ _ false false
    (by intro c hc; simp at hc; rcases hc with rfl | rfl <;> decide)
    (by decide)

/-- C8, as stated, fails: a buffer of chunk type 'X' whose length field (99) differs from
its length (12) is accepted by `feed`, which returns normally. -/
theorem C8_counterexample :
    Buffer.readUInt32LE [72, 69, 76, 88, 99, 0, 0, 0, 0, 0, 0, 0] 4
        ≠ some ([72, 69, 76, 88, 99, 0, 0, 0, 0, 0, 0, 0] : Buffer).length
    ∧ MessageBuilderBase.feed
        { _read_headers := none, _on_raw_buffer := false, error_listener := false }
        [72, 69, 76, 88, 99, 0, 0, 0, 0, 0, 0, 0] MessageBuilderBase.new
      = .ok MessageBuilderBase.new := by
  constructor
  · decide
  · rfl

/-- C8, amended. Malformed rejection: for every buffer of chunk type 'C' or 'F' whose
length field (little-endian u32 at offset 4) differs from the buffer's actual length,
`feed` raises an exception and leaves the reassembler in the state it was in before the
call, whatever hooks are installed. -/
theorem C8_malformed_rejected (hooks : BuilderHooks) (chunk : Buffer) (s : MessageBuilderBase)
    (h8 : 8 ≤ chunk.length) (ht : chunk.getD 3 0 = 67 ∨ chunk.getD 3 0 = 70)
    (hne : Buffer.readUInt32LE chunk 4 ≠ some chunk.length) :
    ∃ msg, MessageBuilderBase.feed hooks chunk s = .threw msg s := by
  have happ : ∃ msg, MessageBuilderBase._append hooks chunk s = .threw msg s := by
    have h0 : Buffer.readUInt32LE chunk 0 ≠ none := by
      simp [Buffer.readUInt32LE]; omega
    have h4 : Buffer.readUInt32LE chunk 4 ≠ none := by
      simp [Buffer.readUInt32LE]; omega
    obtain ⟨v0, hv0⟩ := Option.ne_none_iff_exists'.mp h0
    obtain ⟨v4, hv4⟩ := Option.ne_none_iff_exists'.mp h4
    have hv : v4 ≠ chunk.length := by
      intro h; apply hne; rw [hv4, h]
    unfold MessageBuilderBase._append
    simp only [BinaryStream.readUInt32, BinaryStream.new, hv0, Option.map_some', hv4, zero_add]
    cases h8r : Buffer.readUInt32LE chunk 8 with
    | none => exact ⟨_, rfl⟩
    | some v8 =>
      simp only [Option.map_some', ne_eq, hv, not_false_eq_true, if_true]
      exact ⟨_, rfl⟩
  obtain ⟨msg, hmsg⟩ := happ
  unfold MessageBuilderBase.feed
  rw [readMessageHeader_eq chunk h8]
  rcases ht with ht | ht
  · simp only [ht]
    exact ⟨msg, by simp [hmsg]⟩
  · simp only [ht]
    exact ⟨msg, by simp [hmsg]⟩

/-- Witness for C8: a 'C' chunk of 13 bytes announcing 99. -/
theorem C8_malformed_rejected_witness :
    ∃ msg, MessageBuilderBase.feed
        { _read_headers := none, _on_raw_buffer := false, error_listener := false }
        [72, 69, 76, 67, 99, 0, 0, 0, 0, 0, 0, 0, 5]
        { total_size := 2, blocks := [[1, 2]], offsetBodyStart := some 12, events := [] }
      = .threw msg
        { total_size := 2, blocks := [[1, 2]], offsetBodyStart := some 12, events := [] } :=
  C8_malformed_rejected _ _ _ (by decide) (by decide) (by decide)

/-- C9, as stated, fails: a well-formed chunk of type 'X' is not rejected; `feed` returns
normally and does nothing. -/
theorem C9_counterexample :
    MessageBuilderBase.feed
        { _read_headers := none, _on_raw_buffer := false, error_listener := false }
        [72, 69, 76, 88, 12, 0, 0, 0, 0, 0, 0, 0] MessageBuilderBase.new
      = .ok MessageBuilderBase.new := by
  rfl

/-- C9, amended. Unknown chunk type: for every chunk holding the 8 header bytes that `feed`
parses and whose chunk-type byte is none of 'C', 'F', 'A', `feed` does not fail: it
returns normally, emits nothing and leaves the reassembler unchanged. -/
theorem C9_unknown_type_ignored (hooks : BuilderHooks) (chunk : Buffer)
    (s : MessageBuilderBase) (h8 : 8 ≤ chunk.length)
    (hC : chunk.getD 3 0 ≠ 67) (hF : chunk.getD 3 0 ≠ 70) (hA : chunk.getD 3 0 ≠ 65) :
    MessageBuilderBase.feed hooks chunk s = .ok s := by
  unfold MessageBuilderBase.feed
  rw [readMessageHeader_eq chunk h8]
  simp only [hC, hF, hA, if_false]

/-- Witness for C9: the chunk of type 'X'. -/
theorem C9_unknown_type_ignored_witness :
    MessageBuilderBase.feed
        { _read_headers := none, _on_raw_buffer := true, error_listener := true }
        [72, 69, 76, 88, 13, 0, 0, 0, 0, 0, 0, 0, 9]
        { total_size := 2, blocks := [[1, 2]], offsetBodyStart := some 12, events := [] }
      = .ok { total_size := 2, blocks := [[1, 2]], offsetBodyStart := some 12, events := [] } :=
  C9_unknown_type_ignored _ _ _ (by decide) (by decide) (by decide) (by decide)

/-- C10. Abort on the read path: feeding a chunk whose chunk-type byte is 'A' emits the
"error" signal and nothing else, in particular no raw_buffer, and leaves the accumulated
blocks and running total as they were, whatever was accumulated before; the call returns
normally exactly when a listener is registered for "error". -/
theorem C10_abort_read_path (hooks : BuilderHooks) (chunk : Buffer) (s : MessageBuilderBase)
    (h8 : 8 ≤ chunk.length) (hA : chunk.getD 3 0 = 65) :
    (MessageBuilderBase.feed hooks chunk s).state.events = s.events ++ [BuilderEvent.error]
    ∧ rawBuffers (MessageBuilderBase.feed hooks chunk s).state.events = rawBuffers s.events
    ∧ (MessageBuilderBase.feed hooks chunk s).state.blocks = s.blocks
    ∧ (MessageBuilderBase.feed hooks chunk s).state.total_size = s.total_size
    ∧ (MessageBuilderBase.feed hooks chunk s).isOk = hooks.error_listener := by
  unfold MessageBuilderBase.feed
  rw [readMessageHeader_eq chunk h8]
  simp only [hA]
  cases hl : hooks.error_listener <;> simp [rawBuffers_append, rawBuffers]

/-- Witness for C10: an 'A' chunk after one accumulated block. -/
theorem C10_abort_read_path_witness :
    (MessageBuilderBase.feed
        { _read_headers := none, _on_raw_buffer := false, error_listener := true }
        [72, 69, 76, 65, 13, 0, 0, 0, 0, 0, 0, 0, 9]
        { total_size := 2, blocks := [[1, 2]], offsetBodyStart := some 12,
          events := [] }).state.events = [] ++ [BuilderEvent.error]
    ∧ rawBuffers (MessageBuilderBase.feed
        { _read_headers := none, _on_raw_buffer := false, error_listener := true }
        [72, 69, 76, 65, 13, 0, 0, 0, 0, 0, 0, 0, 9]
        { total_size := 2, blocks := [[1, 2]], offsetBodyStart := some 12,
          events := [] }).state.events = rawBuffers []
    ∧ (MessageBuilderBase.feed
        { _read_headers := none, _on_raw_buffer := false, error_listener := true }
        [72, 69, 76, 65, 13, 0, 0, 0, 0, 0, 0, 0, 9]
        { total_size := 2, blocks := [[1, 2]], offsetBodyStart := some 12,
          events := [] }).state.blocks = [[1, 2]]
    ∧ (MessageBuilderBase.feed
        { _read_headers := none, _on_raw_buffer := false, error_listener := true }
        [72, 69, 76, 65, 13, 0, 0, 0, 0, 0, 0, 0, 9]
        { total_size := 2, blocks := [[1, 2]], offsetBodyStart := some 12,
          events := [] }).state.total_size = 2
    ∧ (MessageBuilderBase.feed
        { _read_headers := none, _on_raw_buffer := false, error_listener := true }
        [72, 69, 76, 65, 13, 0, 0, 0, 0, 0, 0, 0, 9]
        { total_size := 2, blocks := [[1, 2]], offsetBodyStart := some 12,
          events := [] }).isOk = true :=
  C10_abort_read_path _ _ _ (by decide) (by decide)

/-! ## Chunks emitted by the framer -/

theorem Outcome.bind_eq_ok {σ : Type} {r : Outcome σ} {f : σ → Outcome σ} {v : σ}
    (h : r.bind f = .ok v) : ∃ s, r = .ok s ∧ f s = .ok v := by
  cases r with
  | ok s => exact ⟨s, rfl, h⟩
  | threw m s => simp at h
  | diverged s => simp at h

theorem Outcome.ofExcept_eq_ok {σ : Type} {e : Except String σ} {s0 v : σ}
    (h : Outcome.ofExcept e s0 = .ok v) : e = .ok v := by
  cases e with
  | ok s => simp [Outcome.ofExcept] at h; rw [h]
  | error m => simp [Outcome.ofExcept] at h

theorem writeCharCode_eq_ok {buf : Buffer} {s : JsString} {i offset : Nat} {v : Buffer}
    (h : writeCharCode buf s i offset = .ok v) : ∃ c, v = buf.set offset c := by
  unfold writeCharCode at h
  cases hs : s[i]? with
  | none => simp [hs] at h
  | some c =>
    simp only [hs] at h
    have := Outcome.ofExcept_eq_ok h
    unfold Buffer.writeUInt8 at this
    split at this
    · simp at this
    · split at this
      · simp at this
      · exact ⟨c, by simpa using this.symm⟩

theorem writeUInt32LE_eq_ok {buf : Buffer} {value offset : Nat} {v : Buffer}
    (h : Buffer.writeUInt32LE buf value offset = .ok v) :
    value < 2 ^ 32 ∧ offset + 4 ≤ buf.length ∧
      v = (((buf.set offset (value % 256)).set (offset + 1) (value / 256 % 256)).set
          (offset + 2) (value / 65536 % 256)).set (offset + 3) (value / 16777216 % 256) := by
  unfold Buffer.writeUInt32LE at h
  split at h
  · simp at h
  · split at h
    · simp at h
    · refine ⟨by omega, by omega, ?_⟩
      simpa using h.symm

/-- Reading back the four little-endian bytes of a value below 2^32. -/
theorem le32_value (v : Nat) (h : v < 2 ^ 32) :
    v % 256 + 256 * (v / 256 % 256) + 65536 * (v / 65536 % 256)
      + 16777216 * (v / 16777216 % 256) = v := by
  omega

/-- A header written without error has the length of the buffer it was written to, which
is at least 12, and holds `length` in bytes 4..7. -/
theorem MessageChunkManager.write_header_and_footer_ok {self : MessageChunkManager}
    {finalC : JsString} {buf : Buffer} {length : Nat} {v : Buffer}
    (h : self.write_header_and_footer finalC buf length = .ok v) :
    v.length = buf.length ∧ 12 ≤ v.length ∧ Buffer.readUInt32LE v 4 = some length := by
  unfold MessageChunkManager.write_header_and_footer at h
  split at h
  · simp at h
  · obtain ⟨b1, h1, h⟩ := Outcome.bind_eq_ok h
    obtain ⟨b2, h2, h⟩ := Outcome.bind_eq_ok h
    obtain ⟨b3, h3, h⟩ := Outcome.bind_eq_ok h
    obtain ⟨b4, h4, h⟩ := Outcome.bind_eq_ok h
    obtain ⟨b5, h5, h⟩ := Outcome.bind_eq_ok h
    obtain ⟨c1, rfl⟩ := writeCharCode_eq_ok h1
    obtain ⟨c2, rfl⟩ := writeCharCode_eq_ok h2
    obtain ⟨c3, rfl⟩ := writeCharCode_eq_ok h3
    obtain ⟨c4, rfl⟩ := writeCharCode_eq_ok h4
    obtain ⟨hv, hl, rfl⟩ := writeUInt32LE_eq_ok (Outcome.ofExcept_eq_ok h5)
    obtain ⟨_, hl2, rfl⟩ := writeUInt32LE_eq_ok (Outcome.ofExcept_eq_ok h)
    simp only [List.length_set] at hl hl2 ⊢
    refine ⟨trivial, by omega, ?_⟩
    unfold Buffer.readUInt32LE
    simp only [List.length_set]
    rw [if_pos (by omega)]
    have a4 : 4 < buf.length := by omega
    have a5 : 5 < buf.length := by omega
    have a6 : 6 < buf.length := by omega
    have a7 : 7 < buf.length := by omega
    simp [List.getD_eq_getElem?_getD, List.getElem?_set, a4, a5, a6, a7]
    omega

theorem readUInt32LE_append (v tl : Buffer) (off : Nat) (h : off + 4 ≤ v.length) :
    Buffer.readUInt32LE (v ++ tl) off = Buffer.readUInt32LE v off := by
  unfold Buffer.readUInt32LE
  have h0 : off < v.length := by omega
  have h1 : off + 1 < v.length := by omega
  have h2 : off + 2 < v.length := by omega
  have h3 : off + 3 < v.length := by omega
  have h4 : off + 4 ≤ v.length + tl.length := by omega
  simp [List.getD_eq_getElem?_getD, List.getElem?_append_left, h0, h1, h2, h3, h4, h]

theorem Buffer.slice_zero (p : Buffer) (n : Nat) : Buffer.slice p 0 n = p.take n := by
  unfold Buffer.slice Buffer.clamp
  by_cases h0 : p = []
  · subst h0
    simp
  · have hp : ¬ ((0 : Int) ≥ ((p.length : Nat) : Int)) := by
      have : 0 < p.length := List.length_pos.mpr h0
      omega
    rw [if_neg hp]
    by_cases h : p.length ≤ n
    · simp [h, List.take_of_length_le h]
    · simp [h]

/-- Whatever `_sendPendingChunk` does, the chunks emitted so far stay, and a chunk it
adds has its length field right. -/
theorem MessageChunkManager.sendPendingChunk_emitted (finalC : JsString)
    (self : MessageChunkManager) :
    ∃ added, (MessageChunkManager._sendPendingChunk finalC self).state.emitted
        = self.emitted ++ added ∧ ∀ c ∈ added, LengthFieldOk c := by
  unfold MessageChunkManager._sendPendingChunk
  split
  · exact ⟨[], by simp, by simp⟩
  · cases hp : self.pendingChunk with
    | none => exact ⟨[], by simp, by simp⟩
    | some p =>
      simp only
      cases hw : self.write_header_and_footer finalC (Buffer.slice p 0 self.sizeOfHeader)
          p.length with
      | threw m v => exact ⟨[], by simp, by simp⟩
      | diverged v => exact ⟨[], by simp [Outcome.state], by simp⟩
      | ok v =>
        obtain ⟨hlen, h12, hrd⟩ := MessageChunkManager.write_header_and_footer_ok hw
        refine ⟨[v ++ p.drop (Buffer.slice p 0 self.sizeOfHeader).length], by simp, ?_⟩
        intro c hc
        simp only [List.mem_singleton] at hc
        subst hc
        unfold LengthFieldOk
        rw [readUInt32LE_append _ _ _ (by omega), hrd]
        rw [Buffer.slice_zero] at hlen ⊢
        simp only [List.length_append, List.length_drop, hlen, List.length_take]
        congr 1
        omega

theorem Outcome.bind_state_inv {σ : Type} (P : σ → Prop) (r : Outcome σ) (f : σ → Outcome σ)
    (hr : P r.state) (hf : ∀ s, P s → P (f s).state) : P (r.bind f).state := by
  cases r with
  | ok s => exact hf s hr
  | threw m s => exact hr
  | diverged s => exact hr

theorem Outcome.map_state {σ τ : Type} (g : σ → τ) (r : Outcome σ) :
    (r.map g).state = g r.state := by
  cases r <;> rfl

/-- A property of the listeners' state that every listener call keeps is kept by the
write loop. -/
theorem ChunkManager.writeLoop_inv {L : Type} (Q : L → Prop) (emit : ChunkListener L)
    (hemit : ∀ ev w, Q w.2 → Q (emit ev w).state.2)
    (buffer : Option Buffer) (length : Int) (fuel : Nat) :
    ∀ (l input_cursor : Int) (w : ChunkManager × L), Q w.2 →
      Q (ChunkManager.writeLoop emit buffer length fuel l input_cursor w).state.2 := by
  induction fuel with
  | zero =>
    intro l ic w hw
    unfold ChunkManager.writeLoop
    split <;> exact hw
  | succ n ih =>
    intro l ic w hw
    unfold ChunkManager.writeLoop
    split
    · split
      · exact hw
      · refine Outcome.bind_state_inv (fun w : ChunkManager × L => Q w.2) _ _ ?_ ?_ <;> beta_reduce
        · split
          · refine Outcome.bind_state_inv (fun w : ChunkManager × L => Q w.2) _ _ ?_ ?_ <;> beta_reduce
            · exact hemit _ _ hw
            · intro s hs; exact hs
          · exact hw
        · intro w2 hw2
          refine Outcome.bind_state_inv (fun w : ChunkManager × L => Q w.2) _ _ ?_ ?_ <;> beta_reduce
          · cases buffer with
            | none => exact hw2
            | some b =>
              simp only
              split <;> exact hw2
          · intro w3 hw3
            refine Outcome.bind_state_inv (fun w : ChunkManager × L => Q w.2) _ _ ?_ ?_ <;> beta_reduce
            · split
              · split
                · refine Outcome.bind_state_inv (fun w : ChunkManager × L => Q w.2) _ _ ?_ ?_ <;> beta_reduce
                  · exact hemit _ _ hw3
                  · intro s hs; exact hs
                · exact hw3
              · exact hw3
            · intro w6 hw6
              exact ih _ _ w6 hw6
    · exact hw

theorem ChunkManager.write_inv {L : Type} (Q : L → Prop) (emit : ChunkListener L)
    (hemit : ∀ ev w, Q w.2 → Q (emit ev w).state.2)
    (buffer : Option Buffer) (length : Int) (w : ChunkManager × L) (hw : Q w.2) :
    Q (ChunkManager.write emit buffer length w).state.2 := by
  unfold ChunkManager.write
  split
  · exact hw
  · exact ChunkManager.writeLoop_inv Q emit hemit buffer length _ _ _ w hw

theorem ChunkManager.fill_snd {L : Type} (n : Int) (fuel : Nat) (cm : ChunkManager) (x : L) :
    (((ChunkManager.fill n fuel cm).map fun c => (c, x)).state).2 = x := by
  rw [Outcome.map_state]

theorem ChunkManager.end_inv {L : Type} (Q : L → Prop) (emit : ChunkListener L)
    (hemit : ∀ ev w, Q w.2 → Q (emit ev w).state.2)
    (w : ChunkManager × L) (hw : Q w.2) :
    Q (ChunkManager.end_ emit w).state.2 := by
  unfold ChunkManager.end_
  split
  · refine Outcome.bind_state_inv (fun w : ChunkManager × L => Q w.2) _ _ ?_ ?_ <;> beta_reduce
    · split
      · rw [ChunkManager.fill_snd]; exact hw
      · exact hw
    · intro w1 hw1
      refine Outcome.bind_state_inv (fun w : ChunkManager × L => Q w.2) _ _ ?_ ?_ <;> beta_reduce
      · exact hemit _ _ hw1
      · intro s hs; exact hs
  · exact hw

theorem MessageChunkManager.sendPendingChunk_inv (finalC : JsString)
    (self : MessageChunkManager) (h : AllLengthFieldsOk self) :
    AllLengthFieldsOk (MessageChunkManager._sendPendingChunk finalC self).state := by
  obtain ⟨added, h1, h2⟩ := MessageChunkManager.sendPendingChunk_emitted finalC self
  intro c hc
  rw [h1, List.mem_append] at hc
  rcases hc with hc | hc
  · exact h c hc
  · exact h2 c hc

theorem MessageChunkManager.listener_inv (ev : ChunkEvent)
    (w : ChunkManager × MessageChunkManager) (h : AllLengthFieldsOk w.2) :
    AllLengthFieldsOk (MessageChunkManager.listener ev w).state.2 := by
  cases ev with
  | before_chunk c => exact h
  | chunk c =>
    unfold MessageChunkManager.listener
    simp only
    split
    · exact h
    · refine Outcome.bind_state_inv (fun w : ChunkManager × MessageChunkManager => AllLengthFieldsOk w.2) _ _ ?_ ?_ <;> beta_reduce
      · rw [Outcome.map_state]
        exact MessageChunkManager.sendPendingChunk_inv _ _ h
      · intro w1 hw1
        split
        · exact hw1
        · split
          · exact hw1
          · exact hw1

theorem MessageChunkManager.call_inv (c : FramerCall) (self : MessageChunkManager)
    (h : AllLengthFieldsOk self) : AllLengthFieldsOk (MessageChunkManager.call c self).state := by
  cases c with
  | write buffer length =>
    simp only [MessageChunkManager.call, MessageChunkManager.write, Outcome.map_state]
    exact ChunkManager.write_inv AllLengthFieldsOk _ MessageChunkManager.listener_inv
      buffer length (self.chunkManager, self) h
  | end_ =>
    simp only [MessageChunkManager.call, MessageChunkManager.end_]
    refine Outcome.bind_state_inv AllLengthFieldsOk _ _ ?_ ?_ <;> beta_reduce
    · rw [Outcome.map_state]
      exact ChunkManager.end_inv AllLengthFieldsOk _ MessageChunkManager.listener_inv
        (self.chunkManager, self) h
    · intro s hs
      exact MessageChunkManager.sendPendingChunk_inv _ _ hs
  | abort =>
    simp only [MessageChunkManager.call, MessageChunkManager.abort]
    refine Outcome.bind_state_inv AllLengthFieldsOk _ _ ?_ ?_ <;> beta_reduce
    · rw [Outcome.map_state]
      exact ChunkManager.end_inv AllLengthFieldsOk _ MessageChunkManager.listener_inv
        (self.chunkManager, self) h
    · intro s hs
      exact MessageChunkManager.sendPendingChunk_inv _ _ hs

theorem MessageChunkManager.run_inv (calls : List FramerCall) :
    ∀ self : MessageChunkManager, AllLengthFieldsOk self →
      AllLengthFieldsOk (MessageChunkManager.run calls self).state := by
  induction calls with
  | nil => intro self h; exact h
  | cons c rest ih =>
    intro self h
    have hc := MessageChunkManager.call_inv c self h
    unfold MessageChunkManager.run
    cases hr : MessageChunkManager.call c self with
    | ok s => rw [hr] at hc; exact ih s hc
    | threw m s =>
      rw [hr] at hc
      simp only
      split
      · exact hc
      · exact ih s hc
    | diverged s => rw [hr] at hc; exact hc

/-- What a successful construction gives. -/
theorem MessageChunkManager.new_ok {messageSize : Int} {msgType : JsString}
    {secureChannelId extraHeaderSize : Nat} {m : MessageChunkManager}
    (h : MessageChunkManager.new messageSize msgType secureChannelId extraHeaderSize = .ok m) :
    (if msgType = [] then HEL else msgType).length = 3 ∧ 12 < messageSize ∧
    m = { messageSize := messageSize, msgType := if msgType = [] then HEL else msgType,
          secureChannelId := secureChannelId, sizeOfHeader := 12 + extraHeaderSize,
          bodySize := messageSize - ((12 + extraHeaderSize : Nat) : Int),
          chunkManager := ChunkManager.new (messageSize - ((12 + extraHeaderSize : Nat) : Int)),
          pendingChunk := none, emitted := [] } := by
  unfold MessageChunkManager.new at h
  by_cases h3 : (if msgType = [] then HEL else msgType).length = 3
  · by_cases h12 : messageSize > 12
    · simp only [h3, h12, ne_eq, not_true_eq_false, if_false, Except.ok.injEq] at h
      exact ⟨h3, h12, h.symm⟩
    · simp [h3, h12] at h
  · simp [h3] at h

theorem MessageChunkManager.new_emitted {messageSize : Int} {msgType : JsString}
    {secureChannelId extraHeaderSize : Nat} {m : MessageChunkManager}
    (h : MessageChunkManager.new messageSize msgType secureChannelId extraHeaderSize = .ok m) :
    m.emitted = [] ∧ m.pendingChunk = none ∧ m.chunkManager.cursor = 0 := by
  obtain ⟨_, _, rfl⟩ := MessageChunkManager.new_ok h
  simp [ChunkManager.new]

/-- C2. Every chunk emitted by a `MessageChunkManager`, whether flushed during a write,
by `end()` or by `abort()`, in any sequence of calls on a constructed manager, carries in
bytes 4..7, read as a little-endian unsigned 32-bit integer, exactly the length of the
emitted buffer itself. -/
theorem C2_length_field (messageSize : Int) (msgType : JsString)
    (secureChannelId extraHeaderSize : Nat) (m : MessageChunkManager)
    (calls : List FramerCall)
    (hnew : MessageChunkManager.new messageSize msgType secureChannelId extraHeaderSize
      = .ok m) :
    ∀ c ∈ (MessageChunkManager.run calls m).state.emitted,
      Buffer.readUInt32LE c 4 = some c.length := by
  have h0 : AllLengthFieldsOk m := by
    intro c hc
    rw [(MessageChunkManager.new_emitted hnew).1] at hc
    simp at hc
  exact MessageChunkManager.run_inv calls m h0

/-- Witness for C2: five bytes written to a manager with body capacity 3, then `end()`;
two chunks are emitted. -/
theorem C2_length_field_witness :
    MessageChunkManager.new 15 [] 7 0
      = .ok { messageSize := 15, msgType := HEL, secureChannelId := 7, sizeOfHeader := 12,
              bodySize := 3, chunkManager := ChunkManager.new 3, pendingChunk := none,
              emitted := [] }
    ∧ (MessageChunkManager.run [FramerCall.write (some [1, 2, 3, 4, 5]) 5, FramerCall.end_]
        { messageSize := 15, msgType := HEL, secureChannelId := 7, sizeOfHeader := 12,
          bodySize := 3, chunkManager := ChunkManager.new 3, pendingChunk := none,
          emitted := [] }).state.emitted.length = 2
    ∧ ∀ c ∈ (MessageChunkManager.run [FramerCall.write (some [1, 2, 3, 4, 5]) 5, FramerCall.end_]
        { messageSize := 15, msgType := HEL, secureChannelId := 7, sizeOfHeader := 12,
          bodySize := 3, chunkManager := ChunkManager.new 3, pendingChunk := none,
          emitted := [] }).state.emitted,
      Buffer.readUInt32LE c 4 = some c.length :=
  ⟨rfl, rfl, C2_length_field 15 [] 7 0 _ _ rfl⟩

/-- C5, as stated, fails: `end()` on a freshly constructed manager (message size 22, body
capacity 10) emits no chunk at all. -/
theorem C5_counterexample :
    ∃ m, MessageChunkManager.new 22 HEL 0 0 = .ok m
      ∧ (MessageChunkManager.end_ m).state.emitted = [] :=
  ⟨_, rfl, rfl⟩

/-- C5, amended. Empty message: when `end()` is called on a `MessageChunkManager` to which
no body was ever written, no chunk is emitted; the call returns normally and leaves the
manager as it was constructed. -/
theorem C5_empty_message (messageSize : Int) (msgType : JsString)
    (secureChannelId extraHeaderSize : Nat) (m : MessageChunkManager)
    (hnew : MessageChunkManager.new messageSize msgType secureChannelId extraHeaderSize
      = .ok m) :
    MessageChunkManager.end_ m = .ok m ∧ (MessageChunkManager.end_ m).state.emitted = [] := by
  obtain ⟨_, _, rfl⟩ := MessageChunkManager.new_ok hnew
  simp [MessageChunkManager.end_, ChunkManager.end_, ChunkManager.new,
    MessageChunkManager.repack, MessageChunkManager._sendPendingChunk, charF]

/-- Witness for C5: the manager of message size 22. -/
theorem C5_empty_message_witness :
    MessageChunkManager.end_
        { messageSize := 22, msgType := HEL, secureChannelId := 0, sizeOfHeader := 12,
          bodySize := 10, chunkManager := ChunkManager.new 10, pendingChunk := none,
          emitted := [] }
      = .ok
        { messageSize := 22, msgType := HEL, secureChannelId := 0, sizeOfHeader := 12,
          bodySize := 10, chunkManager := ChunkManager.new 10, pendingChunk := none,
          emitted := [] }
    ∧ (MessageChunkManager.end_
        { messageSize := 22, msgType := HEL, secureChannelId := 0, sizeOfHeader := 12,
          bodySize := 10, chunkManager := ChunkManager.new 10, pendingChunk := none,
          emitted := [] }).state.emitted = [] :=
  C5_empty_message 22 HEL 0 0 _ rfl

/-! ## The framer as a function of the bytes written -/

/-- Copying `nb` bytes that lie inside the source to a place inside the target. -/
theorem Buffer.copy_window (src tgt : Buffer) (ts i nb : Nat) (hnb : 1 ≤ nb)
    (hs : i + nb ≤ src.length) (ht : ts + nb ≤ tgt.length) :
    Buffer.copy src tgt (ts : Int) (i : Int) ((i : Int) + (nb : Int))
      = .ok (tgt.take ts ++ (src.take (i + nb)).drop i ++ tgt.drop (ts + nb)) := by
  unfold Buffer.copy
  have e1 : (if (ts : Int) ≥ 0 then (ts : Int) else 0) = ts := by simp
  have e2 : (if (i : Int) ≥ 0 then (i : Int) else 0) = i := by simp
  have e3 : (if (i : Int) + nb < (src.length : Int) then (i : Int) + nb else src.length)
      = ((i + nb : Nat) : Int) := by
    split
    · push_cast; rfl
    · push_cast; omega
  simp only [e1, e2, e3]
  have c1 : ¬ (((i + nb : Nat) : Int) = (i : Int) ∨ tgt.length = 0 ∨ src.length = 0
      ∨ (i : Int) > (src.length : Int)) := by
    push_cast
    omega
  have c2 : ¬ (((i + nb : Nat) : Int) < (i : Int)) := by push_cast; omega
  have c3 : ¬ ((ts : Int) ≥ (tgt.length : Int)) := by omega
  have c4 : ¬ ((tgt.length : Int) - (ts : Int) < ((i + nb : Nat) : Int) - (i : Int)) := by
    push_cast; omega
  simp only [c1, c2, c3, c4, if_false, Int.toNat_ofNat]
  have hl : ((src.take (i + nb)).drop i).length = nb := by
    simp only [List.length_drop, List.length_take]
    omega
  rw [hl]

theorem list_twelve (l : List Nat) (h : 12 ≤ l.length) :
    ∃ a0 a1 a2 a3 a4 a5 a6 a7 a8 a9 a10 a11,
      l = a0 :: a1 :: a2 :: a3 :: a4 :: a5 :: a6 :: a7 :: a8 :: a9 :: a10 :: a11 :: l.drop 12 := by
  rcases l with _ | ⟨a0, _ | ⟨a1, _ | ⟨a2, _ | ⟨a3, _ | ⟨a4, _ | ⟨a5, _ | ⟨a6, _ | ⟨a7,
    _ | ⟨a8, _ | ⟨a9, _ | ⟨a10, _ | ⟨a11, tl⟩⟩⟩⟩⟩⟩⟩⟩⟩⟩⟩⟩ <;> simp at h
  exact ⟨a0, a1, a2, a3, a4, a5, a6, a7, a8, a9, a10, a11, rfl⟩

/-- The header written into a buffer of at least 12 bytes. -/
theorem MessageChunkManager.write_header_and_footer_eq (self : MessageChunkManager)
    (t : Nat) (buf : Buffer) (length : Nat)
    (hmt : self.msgType.length = 3) (hb : ∀ c ∈ self.msgType, c ≤ 255)
    (hsc : self.secureChannelId < 2 ^ 32) (ht : t ≤ 255) (hlen : length < 2 ^ 32)
    (hbuf : 12 ≤ buf.length) :
    self.write_header_and_footer [t] buf length
      = .ok (self.msgType ++ [t] ++ le32 length ++ le32 self.secureChannelId ++ buf.drop 12) := by
  obtain ⟨a0, a1, a2, a3, a4, a5, a6, a7, a8, a9, a10, a11, hl⟩ := list_twelve buf hbuf
  generalize buf.drop 12 = tl at hl
  subst hl
  rcases hm : self.msgType with _ | ⟨m0, _ | ⟨m1, _ | ⟨m2, _ | ⟨m3, mtl⟩⟩⟩⟩ <;>
    rw [hm] at hmt <;> simp at hmt
  rw [hm] at hb
  have h0 : ¬ m0 > 255 := by have := hb m0 (by simp); omega
  have h1 : ¬ m1 > 255 := by have := hb m1 (by simp); omega
  have h2 : ¬ m2 > 255 := by have := hb m2 (by simp); omega
  have h3 : ¬ t > 255 := by omega
  have h4 : ¬ 4294967296 ≤ length := by omega
  have h5 : ¬ 4294967296 ≤ self.secureChannelId := by omega
  have h6 : ¬ (tl.length + 1 + 1 + 1 + 1 + 1 + 1 + 1 + 1 + 1 + 1 + 1 + 1 < 8) := by omega
  have h7 : ¬ (tl.length + 1 + 1 + 1 + 1 + 1 + 1 + 1 + 1 + 1 + 1 + 1 + 1 < 12) := by omega
  simp [MessageChunkManager.write_header_and_footer, writeCharCode, Buffer.writeUInt8,
    Buffer.writeUInt32LE, Outcome.ofExcept, hm, h0, h1, h2, h3, h4, h5, h6, h7, le32]

theorem Buffer.take_replicate_append (H : Nat) (x : Nat) (body : Buffer) :
    (List.replicate H x ++ body).take H = List.replicate H x := by
  rw [List.take_append_of_le_length (by simp)]
  simp

theorem Buffer.drop_replicate_append (H : Nat) (x : Nat) (body : Buffer) :
    (List.replicate H x ++ body).drop H = body := by
  rw [List.drop_append_of_le_length (by simp)]
  simp

/-- Flushing a pending chunk whose header is still marked. -/
theorem MessageChunkManager.sendPendingChunk_framed {mt : JsString} {sc H B : Nat}
    (P : FramerParams mt sc H B) (m : MessageChunkManager) (t : Nat) (ht : t ≤ 255)
    (body : Buffer) (hbody : body.length ≤ B)
    (h1 : m.msgType = mt) (h2 : m.secureChannelId = sc) (h3 : m.sizeOfHeader = H)
    (hp : m.pendingChunk = some (List.replicate H 0xEF ++ body)) :
    MessageChunkManager._sendPendingChunk [t] m
      = .ok { m with emitted := m.emitted ++ [framedChunk mt sc H t body],
                     pendingChunk := none } := by
  unfold MessageChunkManager._sendPendingChunk
  simp only [List.length_singleton, ne_eq, not_true_eq_false, if_false, hp, h3]
  rw [Buffer.slice_zero, Buffer.take_replicate_append]
  have hb := P.bound
  have hh := P.header
  rw [MessageChunkManager.write_header_and_footer_eq m t _ _ (h1 ▸ P.mt_len)
    (h1 ▸ P.mt_bytes) (h2 ▸ P.channel) ht (by simp; omega) (by simp; omega)]
  simp only [List.length_replicate, Buffer.drop_replicate_append, List.drop_replicate,
    List.length_append, h1, h2, framedChunk, List.append_assoc]

/-- Nothing is flushed when no chunk is pending. -/
theorem MessageChunkManager.sendPendingChunk_none (m : MessageChunkManager) (t : Nat)
    (hp : m.pendingChunk = none) :
    MessageChunkManager._sendPendingChunk [t] m = .ok m := by
  unfold MessageChunkManager._sendPendingChunk
  simp [hp]

theorem mark_alloc (a b : Nat) :
    mark_buffer (Buffer.alloc ((a : Int) + (b : Int))) = List.replicate (a + b) 0xEF := by
  have : ((a : Int) + (b : Int)).toNat = a + b := by omega
  simp [mark_buffer, Buffer.alloc, this]

/-- The body block copied behind the marked header of a fresh pending chunk. -/
theorem Buffer.copy_body (chunk : Buffer) (H : Nat) :
    Buffer.copy chunk (List.replicate (chunk.length + H) 0xEF) (H : Int) 0 (chunk.length : Int)
      = .ok (List.replicate H 0xEF ++ chunk) := by
  by_cases hc : chunk = []
  · subst hc
    simp [Buffer.copy]
  · have hpos : 1 ≤ chunk.length := List.length_pos.mpr hc
    have := Buffer.copy_window chunk (List.replicate (chunk.length + H) 0xEF) H 0 chunk.length
      hpos (by omega) (by simp; omega)
    simp only [Nat.cast_zero, zero_add] at this
    rw [this]
    simp [List.take_replicate, List.drop_replicate]
    omega

/-- The "chunk" handler on a completed body block: the pending chunk, if any, is sent as a
continuation chunk and the new block becomes the pending chunk. -/
theorem MessageChunkManager.listener_chunk_framed {mt : JsString} {sc H B : Nat}
    (P : FramerParams mt sc H B) (blocks : List Buffer) (cm : ChunkManager)
    (m : MessageChunkManager) (hm : FramerState mt sc H B blocks m)
    (chunk : Buffer) (hlen : chunk.length ≤ B) :
    ∃ m1, MessageChunkManager.listener (.chunk chunk) (cm, m) = .ok (cm, m1)
      ∧ FramerState mt sc H B (blocks ++ [chunk]) m1 := by
  have hassert : m.messageSize ≥ (chunk.length : Int) + (m.sizeOfHeader : Int) := by
    rw [hm.size, hm.header]; push_cast; omega
  unfold MessageChunkManager.listener
  simp only [hassert, not_true_eq_false, if_false]
  rcases List.eq_nil_or_concat blocks with hnil | ⟨init, last, hcat⟩
  · subst hnil
    have hp : m.pendingChunk = none := by simpa using hm.pending
    rw [show charC = [67] from rfl, MessageChunkManager.sendPendingChunk_none m 67 hp]
    simp only [Outcome.map_ok, Outcome.bind_ok, hp, Option.isSome_none, Bool.false_eq_true,
      if_false, mark_alloc, hm.header, Buffer.copy_body]
    refine ⟨_, rfl, ?_⟩
    exact { msgType := by simp [hm.msgType], channel := by simp [hm.channel],
            header := by simp [hm.header], size := by simp [hm.size],
            emitted := by simpa using hm.emitted, pending := by simp,
            sizes := by simpa using hlen }
  · subst hcat
    have hp : m.pendingChunk = some (List.replicate H 0xEF ++ last) := by
      simpa using hm.pending
    have hlast : last.length ≤ B := hm.sizes last (by simp)
    rw [show charC = [67] from rfl,
      MessageChunkManager.sendPendingChunk_framed P m 67 (by omega) last hlast hm.msgType
        hm.channel hm.header hp]
    simp only [Outcome.map_ok, Outcome.bind_ok, Option.isSome_none, Bool.false_eq_true,
      if_false, mark_alloc, hm.header, Buffer.copy_body]
    refine ⟨_, rfl, ?_⟩
    exact { msgType := by simp [hm.msgType], channel := by simp [hm.channel],
            header := by simp [hm.header], size := by simp [hm.size],
            emitted := by
              have := hm.emitted
              simp only [List.dropLast_concat] at this ⊢
              simp [this],
            pending := by simp,
            sizes := by
              intro b hb
              rcases List.mem_append.mp hb with hb | hb
              · exact hm.sizes b hb
              · simp at hb; subst hb; exact hlen }

@[simp] theorem MessageChunkManager.listener_before_chunk (c : Buffer)
    (w : ChunkManager × MessageChunkManager) :
    MessageChunkManager.listener (.before_chunk c) w = .ok w := rfl

theorem ChunkManager.writeLoop_framed {mt : JsString} {sc H B : Nat}
    (P : FramerParams mt sc H B) (b : Buffer) (fuel : Nat) :
    ∀ (i : Nat) (blocks : List Buffer) (rest : Buffer) (cm : ChunkManager)
      (m : MessageChunkManager),
      i ≤ b.length → b.length - i ≤ fuel →
      FramerState mt sc H B blocks m → (∀ x ∈ blocks, x.length = B) → ChunkState B rest cm →
      ∃ blocks1 rest1 cm1 m1,
        ChunkManager.writeLoop MessageChunkManager.listener (some b) b.length fuel
            ((b.length : Int) - i) i (cm, m) = .ok (cm1, m1)
        ∧ FramerState mt sc H B blocks1 m1 ∧ (∀ x ∈ blocks1, x.length = B)
        ∧ ChunkState B rest1 cm1
        ∧ blocks1.flatten ++ rest1 = blocks.flatten ++ rest ++ b.drop i := by
  induction fuel with
  | zero =>
    intro i blocks rest cm m hi hf hm hb hc
    have : i = b.length := by omega
    subst this
    refine ⟨blocks, rest, cm, m, ?_, hm, hb, hc, by simp⟩
    simp [ChunkManager.writeLoop]
  | succ n ih =>
    intro i blocks rest cm m hi hf hm hb hc
    by_cases hil : i = b.length
    · subst hil
      refine ⟨blocks, rest, cm, m, ?_, hm, hb, hc, by simp⟩
      simp [ChunkManager.writeLoop]
    · have hlt : i < b.length := by omega
      obtain ⟨cs, ck, cur, fl⟩ := cm
      obtain ⟨h1, h2, h3, h4, h5, h6⟩ := hc
      simp only at h1 h2 h3 h4 h6
      subst h1 h3 h4
      have hl : (b.length : Int) - i > 0 := by omega
      have hne : ¬ ((b.length : Int) - i = 0) := by omega
      unfold ChunkManager.writeLoop
      simp only [hl, hne, if_true, if_false]
      simp only [MessageChunkManager.listener_before_chunk, Outcome.bind_ok, ite_self]
      obtain ⟨nb, hmin, hnb1, hnbi, hnbr, _⟩ : ∃ nb : Nat,
          min ((b.length : Int) - i) ((B : Int) - rest.length) = nb ∧ 1 ≤ nb
            ∧ i + nb ≤ b.length ∧ rest.length + nb ≤ B
            ∧ (i + nb = b.length ∨ rest.length + nb = B) :=
        ⟨min (b.length - i) (B - rest.length), by omega, by omega, by omega, by omega, by omega⟩
      simp only [hmin]
      rw [Buffer.copy_window b ck rest.length i nb hnb1 hnbi (by omega)]
      simp only [Outcome.bind_ok, h6]
      have e1 : (b.length : Int) - i - nb = (b.length : Int) - ((i + nb : Nat) : Int) := by
        push_cast; ring
      have e2 : (i : Int) + nb = ((i + nb : Nat) : Int) := by push_cast; ring
      have hx : ((b.take (i + nb)).drop i).length = nb := by
        simp only [List.length_drop, List.length_take]; omega
      have hdrop : (b.take (i + nb)).drop i ++ b.drop (i + nb) = b.drop i := by
        have h := List.take_append_drop (i + nb) b
        conv_rhs => rw [← h]
        rw [List.drop_append_of_le_length (by simp; omega)]
      by_cases hfull : rest.length + nb = B
      · have hge : (rest.length : Int) + nb ≥ (B : Int) := by omega
        have heq : (rest.length : Int) + nb = (B : Int) := by omega
        simp only [heq, ge_iff_le, le_refl, if_true]
        have hck : ck.drop (rest.length + nb) = [] := by
          apply List.drop_of_length_le; omega
        rw [hck, List.append_nil]
        obtain ⟨m1, hm1, hfs⟩ := MessageChunkManager.listener_chunk_framed P blocks
          { chunk_size := B, chunk := rest ++ (b.take (i + nb)).drop i, cursor := B,
            _in_before_chunk := false } m hm (rest ++ (b.take (i + nb)).drop i)
          (by simp only [List.length_append, hx]; omega)
        rw [hm1]
        simp only [Outcome.bind_ok, e1, e2]
        obtain ⟨blocks1, rest1, cm1, m2, g1, g2, g3, g4, g5⟩ := ih (i + nb)
          (blocks ++ [rest ++ (b.take (i + nb)).drop i]) []
          { chunk_size := B, chunk := rest ++ (b.take (i + nb)).drop i, cursor := 0,
            _in_before_chunk := false } m1 hnbi (by omega) hfs
          (by
            intro x hxm
            rcases List.mem_append.mp hxm with hxm | hxm
            · exact hb x hxm
            · simp only [List.mem_singleton] at hxm
              subst hxm
              simp only [List.length_append, hx]; omega)
          { size := rfl, len := by simp only [List.length_append, hx]; omega, flag := rfl,
            cursor := by simp, room := by simp; have := P.body; omega, filled := by simp }
        refine ⟨blocks1, rest1, cm1, m2, g1, g2, g3, g4, ?_⟩
        rw [g5]
        simp only [List.flatten_append, List.flatten_cons, List.flatten_nil, List.append_nil,
          List.append_assoc, hdrop]
      · have hge : ¬ ((rest.length : Int) + nb ≥ (B : Int)) := by omega
        simp only [hge, if_false, Outcome.bind_ok, e1, e2]
        obtain ⟨blocks1, rest1, cm1, m2, g1, g2, g3, g4, g5⟩ := ih (i + nb)
          blocks (rest ++ (b.take (i + nb)).drop i)
          { chunk_size := B,
            chunk := rest ++ (b.take (i + nb)).drop i ++ ck.drop (rest.length + nb),
            cursor := (rest.length : Int) + nb,
            _in_before_chunk := false } m hnbi (by omega) hm hb
          { size := rfl,
            len := by simp only [List.length_append, hx, List.length_drop]; omega,
            flag := rfl,
            cursor := by simp only [List.length_append, hx]; push_cast; rfl,
            room := by simp only [List.length_append, hx]; omega,
            filled := by
              rw [List.take_append_of_le_length (by simp)]
              simp }
        refine ⟨blocks1, rest1, cm1, m2, g1, g2, g3, g4, ?_⟩
        rw [g5]
        simp only [List.append_assoc, hdrop]

theorem FramerState.repack {mt : JsString} {sc H B : Nat} {blocks : List Buffer}
    {cm : ChunkManager} {m : MessageChunkManager} (h : FramerState mt sc H B blocks m) :
    FramerState mt sc H B blocks (MessageChunkManager.repack (cm, m)) :=
  { msgType := h.msgType, channel := h.channel, header := h.header, size := h.size,
    emitted := h.emitted, pending := h.pending, sizes := h.sizes }

theorem FramerState.unpack {mt : JsString} {sc H B : Nat} {blocks : List Buffer}
    {m : MessageChunkManager} (h : FramerState mt sc H B blocks m) (e : List Buffer)
    (p : Option Buffer) (he : e = m.emitted) (hp : p = m.pendingChunk) :
    FramerState mt sc H B blocks { m with emitted := e, pendingChunk := p } := by
  subst he hp
  exact h

/-- One `write` of a non-empty buffer, with `length` the buffer's length. -/
theorem MessageChunkManager.write_framed {mt : JsString} {sc H B : Nat}
    (P : FramerParams mt sc H B) (b : Buffer) (hb : b ≠ []) (blocks : List Buffer)
    (rest : Buffer) (m : MessageChunkManager) (h : Framed mt sc H B blocks rest m) :
    ∃ blocks1 rest1 m1, MessageChunkManager.write (some b) b.length m = .ok m1
      ∧ Framed mt sc H B blocks1 rest1 m1
      ∧ blocks1.flatten ++ rest1 = blocks.flatten ++ rest ++ b := by
  have hpos : 0 < b.length := List.length_pos.mpr hb
  obtain ⟨blocks1, rest1, cm1, m1, g1, g2, g3, g4, g5⟩ :=
    ChunkManager.writeLoop_framed P b b.length 0 blocks rest m.chunkManager m (by omega)
      (by omega) h.framer h.full h.chunk
  refine ⟨blocks1, rest1, MessageChunkManager.repack (cm1, m1), ?_, ⟨g2.repack, g3, g4⟩, ?_⟩
  · unfold MessageChunkManager.write ChunkManager.write
    have hne : ¬ ((b.length : Int) = 0) := by omega
    simp only [hne, if_false, Int.toNat_ofNat]
    simp only [Nat.cast_zero, sub_zero] at g1
    rw [g1]
    rfl
  · simpa using g5

/-- A sequence of writes of non-empty buffers. -/
theorem MessageChunkManager.writeAll_framed {mt : JsString} {sc H B : Nat}
    (P : FramerParams mt sc H B) (pieces : List Buffer) :
    ∀ (blocks : List Buffer) (rest : Buffer) (m : MessageChunkManager),
      (∀ p ∈ pieces, p ≠ []) → Framed mt sc H B blocks rest m →
      ∃ blocks1 rest1 m1, MessageChunkManager.writeAll pieces m = .ok m1
        ∧ Framed mt sc H B blocks1 rest1 m1
        ∧ blocks1.flatten ++ rest1 = blocks.flatten ++ rest ++ pieces.flatten := by
  induction pieces with
  | nil =>
    intro blocks rest m _ h
    exact ⟨blocks, rest, m, rfl, h, by simp⟩
  | cons b tl ih =>
    intro blocks rest m hp h
    obtain ⟨blocks1, rest1, m1, g1, g2, g3⟩ :=
      MessageChunkManager.write_framed P b (hp b (List.mem_cons_self _ _)) blocks rest m h
    obtain ⟨blocks2, rest2, m2, k1, k2, k3⟩ :=
      ih blocks1 rest1 m1 (fun p hpm => hp p (List.mem_cons_of_mem _ hpm)) g2
    refine ⟨blocks2, rest2, m2, ?_, k2, ?_⟩
    · simp only [MessageChunkManager.writeAll, g1, Outcome.bind_ok, k1]
    · rw [k3, g3]
      simp

/-- A freshly constructed manager has written nothing. -/
theorem MessageChunkManager.new_framed (messageSize : Int) (msgType : JsString)
    (sc e B : Nat) (hmt : msgType.length = 3) (hbytes : ∀ c ∈ msgType, c ≤ 255)
    (hsc : sc < 2 ^ 32) (hsize : messageSize < 2 ^ 32)
    (hB : messageSize = ((12 + e + B : Nat) : Int)) (hB1 : 1 ≤ B) :
    FramerParams msgType sc (12 + e) B ∧
    ∃ m, MessageChunkManager.new messageSize msgType sc e = .ok m
      ∧ Framed msgType sc (12 + e) B [] [] m := by
  have hne : msgType ≠ [] := by
    intro h; rw [h] at hmt; simp at hmt
  have hB0 : ¬ (((12 + e + B : Nat) : Int) - ((12 + e : Nat) : Int) = 0) := by
    push_cast; omega
  have hBv : ((12 + e + B : Nat) : Int) - ((12 + e : Nat) : Int) = (B : Int) := by
    push_cast; omega
  refine ⟨⟨hmt, hbytes, by omega, hsc, hB1, by omega⟩, ?_⟩
  subst hB
  refine ⟨{ messageSize := ((12 + e + B : Nat) : Int), msgType := msgType,
            secureChannelId := sc, sizeOfHeader := 12 + e,
            bodySize := ((12 + e + B : Nat) : Int) - ((12 + e : Nat) : Int),
            chunkManager := ChunkManager.new (((12 + e + B : Nat) : Int) - ((12 + e : Nat) : Int)),
            pendingChunk := none, emitted := [] }, ?_, ?_⟩
  · unfold MessageChunkManager.new
    have : ((12 + e + B : Nat) : Int) > 12 := by push_cast; omega
    simp only [hne, if_false, hmt, ne_eq, not_true_eq_false, this]
  · refine ⟨?_, by simp, ?_⟩
    · exact { msgType := rfl, channel := rfl, header := rfl, size := rfl, emitted := rfl,
              pending := rfl, sizes := by simp }
    · simp only [hBv]
      have hB0 : ¬ ((B : Int) = 0) := by omega
      refine { size := ?_, len := ?_, flag := ?_, cursor := ?_, room := ?_, filled := ?_ }
      all_goals simp [ChunkManager.new, Buffer.alloc, hB0]
      omega

/-- The call `this.chunkManager.end()` made by `end()` and `abort()`. -/
theorem MessageChunkManager.end_accumulator_framed {mt : JsString} {sc H B : Nat}
    (P : FramerParams mt sc H B) (blocks : List Buffer) (rest : Buffer)
    (m : MessageChunkManager) (h : Framed mt sc H B blocks rest m) :
    ∃ m1, (ChunkManager.end_ MessageChunkManager.listener (m.chunkManager, m)).map
        MessageChunkManager.repack = .ok m1
      ∧ FramerState mt sc H B (allBlocks blocks rest) m1
      ∧ m1.chunkManager.cursor = 0 := by
  obtain ⟨hf, _, hc⟩ := h
  unfold ChunkManager.end_ allBlocks
  by_cases hr : rest = []
  · subst hr
    have h0 : ¬ (m.chunkManager.cursor > 0) := by rw [hc.cursor]; simp
    simp only [h0, if_false, Outcome.map_ok, if_true, List.append_nil]
    refine ⟨_, rfl, hf.repack, ?_⟩
    simpa [MessageChunkManager.repack] using hc.cursor
  · have hpos : 0 < rest.length := List.length_pos.mpr hr
    have h0 : m.chunkManager.cursor > 0 := by rw [hc.cursor]; omega
    simp only [h0, if_true, fill_padding, Bool.false_eq_true, if_false, Outcome.bind_ok, hr]
    rw [hc.cursor, Buffer.slice_zero, hc.filled]
    obtain ⟨m1, hm1, hfs⟩ := MessageChunkManager.listener_chunk_framed P blocks
      m.chunkManager m hf rest (by have := hc.room; omega)
    rw [hm1]
    simp only [Outcome.bind_ok, Outcome.map_ok]
    exact ⟨_, rfl, hfs.repack, rfl⟩

/-- Flushing the last pending chunk with chunk type `t`. -/
theorem MessageChunkManager.send_last_framed {mt : JsString} {sc H B : Nat}
    (P : FramerParams mt sc H B) (init : List Buffer) (last : Buffer)
    (m : MessageChunkManager) (t : Nat) (ht : t ≤ 255)
    (h : FramerState mt sc H B (init ++ [last]) m) :
    ∃ m1, MessageChunkManager._sendPendingChunk [t] m = .ok m1
      ∧ m1.emitted = init.map (framedChunk mt sc H 67) ++ [framedChunk mt sc H t last]
      ∧ m1.pendingChunk = none ∧ m1.chunkManager = m.chunkManager := by
  have hp : m.pendingChunk = some (List.replicate H 0xEF ++ last) := by
    simpa using h.pending
  have hlast : last.length ≤ B := h.sizes last (by simp)
  rw [MessageChunkManager.sendPendingChunk_framed P m t ht last hlast h.msgType h.channel
    h.header hp]
  refine ⟨_, rfl, ?_, rfl, rfl⟩
  have := h.emitted
  simp only [List.dropLast_concat] at this
  simp [this]

/-- The chunks a framer emits for a message: construct it, write the non-empty buffers
`pieces`, then call `end()` (`t = 70`, 'F') or `abort()` (`t = 65`, 'A').  The body is cut
into blocks of `B` bytes, the last one holding between 1 and `B` bytes; every block but
the last is sent as a 'C' chunk and the last with chunk type `t`. -/
theorem MessageChunkManager.framer_output (messageSize : Int) (msgType : JsString)
    (sc e B : Nat) (pieces : List Buffer)
    (hmt : msgType.length = 3) (hbytes : ∀ c ∈ msgType, c ≤ 255)
    (hsc : sc < 2 ^ 32) (hsize : messageSize < 2 ^ 32)
    (hB : messageSize = ((12 + e + B : Nat) : Int)) (hB1 : 1 ≤ B)
    (hpieces : ∀ p ∈ pieces, p ≠ []) (hn : 1 ≤ pieces.flatten.length) :
    ∃ m init last, MessageChunkManager.new messageSize msgType sc e = .ok m
      ∧ (init ++ [last]).flatten = pieces.flatten
      ∧ (∀ x ∈ init, x.length = B) ∧ 1 ≤ last.length ∧ last.length ≤ B
      ∧ (∃ m1, (MessageChunkManager.writeAll pieces m).bind MessageChunkManager.end_ = .ok m1
          ∧ m1.emitted = init.map (framedChunk msgType sc (12 + e) 67)
              ++ [framedChunk msgType sc (12 + e) 70 last]
          ∧ m1.pendingChunk = none ∧ m1.chunkManager.cursor = 0)
      ∧ (∃ m2, (MessageChunkManager.writeAll pieces m).bind MessageChunkManager.abort = .ok m2
          ∧ m2.emitted = init.map (framedChunk msgType sc (12 + e) 67)
              ++ [framedChunk msgType sc (12 + e) 65 last]
          ∧ m2.pendingChunk = none ∧ m2.chunkManager.cursor = 0)
      ∧ (∃ m3, MessageChunkManager.writeAll pieces m = .ok m3
          ∧ ∃ k, m3.emitted = (init.take k).map (framedChunk msgType sc (12 + e) 67)) := by
  obtain ⟨P, m, hnew, hfr⟩ := MessageChunkManager.new_framed messageSize msgType sc e B hmt
    hbytes hsc hsize hB hB1
  obtain ⟨blocks, rest, m3, hw, hfr3, hflat⟩ :=
    MessageChunkManager.writeAll_framed P pieces [] [] m hpieces hfr
  simp only [List.flatten_nil, List.nil_append] at hflat
  obtain ⟨m4, hend, hfs4, hcur4⟩ :=
    MessageChunkManager.end_accumulator_framed P blocks rest m3 hfr3
  have hall : (allBlocks blocks rest).flatten = pieces.flatten := by
    rw [← hflat]
    unfold allBlocks
    by_cases hr : rest = [] <;> simp [hr]
  have hne : allBlocks blocks rest ≠ [] := by
    intro h0
    rw [h0] at hall
    rw [← hall] at hn
    simp at hn
  obtain ⟨init, last, hil⟩ : ∃ init last, allBlocks blocks rest = init ++ [last] := by
    rcases List.eq_nil_or_concat (allBlocks blocks rest) with h0 | h0
    · exact absurd h0 hne
    · obtain ⟨L, b, hLb⟩ := h0
      exact ⟨L, b, by rw [hLb, List.concat_eq_append]⟩
  have hinit : (∀ x ∈ init, x.length = B) ∧ 1 ≤ last.length ∧ last.length ≤ B
      ∧ ∃ k, blocks.dropLast = init.take k := by
    unfold allBlocks at hil
    by_cases hr : rest = []
    · simp only [hr, if_true, List.append_nil] at hil
      subst hil
      refine ⟨fun x hx => hfr3.full x (by simp [hx]), ?_, ?_, ⟨init.length, by simp⟩⟩
      · have := hfr3.full last (by simp); omega
      · have := hfr3.full last (by simp); omega
    · simp only [hr, if_false] at hil
      obtain ⟨h1, h2⟩ := List.append_inj' hil rfl
      simp only [List.cons.injEq, and_true] at h2
      subst h1 h2
      refine ⟨hfr3.full, List.length_pos.mpr hr, ?_, ⟨blocks.length - 1, ?_⟩⟩
      · have := hfr3.chunk.room; omega
      · rw [List.dropLast_eq_take]
  obtain ⟨hi1, hi2, hi3, k, hk⟩ := hinit
  rw [hil] at hfs4 hall
  obtain ⟨m1, hs1, he1, hp1, hc1⟩ :=
    MessageChunkManager.send_last_framed P init last m4 70 (by omega) hfs4
  obtain ⟨m2, hs2, he2, hp2, hc2⟩ :=
    MessageChunkManager.send_last_framed P init last m4 65 (by omega) hfs4
  refine ⟨m, init, last, hnew, hall, hi1, hi2, hi3, ⟨m1, ?_, he1, hp1, ?_⟩,
    ⟨m2, ?_, he2, hp2, ?_⟩, ⟨m3, hw, k, ?_⟩⟩
  · rw [hw, Outcome.bind_ok]
    unfold MessageChunkManager.end_
    rw [hend, Outcome.bind_ok]
    exact hs1
  · rw [hc1]; exact hcur4
  · rw [hw, Outcome.bind_ok]
    unfold MessageChunkManager.abort
    rw [hend, Outcome.bind_ok]
    exact hs2
  · rw [hc2]; exact hcur4
  · rw [hfr3.framer.emitted, hk]

/-! ## Claims on the framer and the round trip -/

theorem framedChunk_length (mt : JsString) (sc H t : Nat) (body : Buffer)
    (hmt : mt.length = 3) (hH : 12 ≤ H) :
    (framedChunk mt sc H t body).length = H + body.length := by
  simp only [framedChunk, le32, List.length_append, hmt, List.length_singleton,
    List.length_cons, List.length_nil, List.length_replicate]
  omega

theorem framedChunk_type (mt : JsString) (sc H t : Nat) (body : Buffer)
    (hmt : mt.length = 3) : (framedChunk mt sc H t body).getD 3 0 = t := by
  rcases mt with _ | ⟨m0, _ | ⟨m1, _ | ⟨m2, _ | ⟨m3, mtl⟩⟩⟩⟩ <;> simp at hmt
  simp [framedChunk]

theorem framedChunk_field (mt : JsString) (sc H t : Nat) (body : Buffer)
    (hmt : mt.length = 3) (hH : 12 ≤ H) (hlen : H + body.length < 2 ^ 32) :
    Buffer.readUInt32LE (framedChunk mt sc H t body) 4
      = some (framedChunk mt sc H t body).length := by
  rw [framedChunk_length mt sc H t body hmt hH]
  rcases mt with _ | ⟨m0, _ | ⟨m1, _ | ⟨m2, _ | ⟨m3, mtl⟩⟩⟩⟩ <;> simp at hmt
  simp only [framedChunk, le32, Buffer.readUInt32LE, List.cons_append, List.nil_append,
    List.length_cons, List.length_append, List.length_replicate]
  rw [if_pos (by omega)]
  simp only [List.getD_cons_succ, List.getD_cons_zero, Option.some.injEq]
  omega

theorem framedChunk_drop (mt : JsString) (sc H t : Nat) (body : Buffer)
    (hmt : mt.length = 3) (hH : 12 ≤ H) :
    (framedChunk mt sc H t body).drop H = body := by
  have h : (mt ++ [t] ++ le32 (H + body.length) ++ le32 sc
      ++ List.replicate (H - 12) 0xEF).length = H := by
    simp only [le32, List.length_append, hmt, List.length_singleton, List.length_cons,
      List.length_nil, List.length_replicate]
    omega
  unfold framedChunk
  rw [List.drop_append_of_le_length (by omega), List.drop_of_length_le (by omega)]
  rfl

theorem framedChunk_wellFormed (mt : JsString) (sc e t : Nat) (body : Buffer)
    (hmt : mt.length = 3) (hlen : 12 + e + body.length < 2 ^ 32) :
    WellFormedChunk e t (framedChunk mt sc (12 + e) t body) :=
  ⟨by rw [framedChunk_length mt sc (12 + e) t body hmt (by omega)]; omega,
   framedChunk_type mt sc (12 + e) t body hmt,
   framedChunk_field mt sc (12 + e) t body hmt (by omega) hlen⟩

theorem flatten_length_of_uniform (B : Nat) (init : List Buffer)
    (h : ∀ x ∈ init, x.length = B) : init.flatten.length = B * init.length := by
  induction init with
  | nil => simp
  | cons x tl ih =>
    have hx := h x (List.mem_cons_self _ _)
    have := ih (fun y hy => h y (List.mem_cons_of_mem _ hy))
    simp only [List.flatten_cons, List.length_append, List.length_cons, hx, this]
    ring

/-- Counting the blocks of a body of `n` bytes cut into blocks of `B` bytes. -/
theorem block_count (B k r n : Nat) (hr1 : 1 ≤ r) (hrB : r ≤ B) (hn : n = B * k + r) :
    (n + B - 1) / B = k + 1 ∧ (if n % B = 0 then B else n % B) = r := by
  subst hn
  have hB : 0 < B := by omega
  constructor
  · have : B * k + r + B - 1 = (r - 1) + B * (k + 1) := by
      have : B * (k + 1) = B * k + B := by ring
      omega
    rw [this, Nat.add_mul_div_left _ _ hB, Nat.div_eq_of_lt (by omega)]
    omega
  · rw [Nat.mul_add_mod]
    by_cases h : r = B
    · subst h; simp
    · have hlt : r < B := by omega
      rw [Nat.mod_eq_of_lt hlt]
      have : r ≠ 0 := by omega
      simp [this]

theorem MessageBuilderBase.feedAll_append (hooks : BuilderHooks) (xs ys : List Buffer)
    (s : MessageBuilderBase) :
    MessageBuilderBase.feedAll hooks (xs ++ ys) s
      = (MessageBuilderBase.feedAll hooks xs s).bind (MessageBuilderBase.feedAll hooks ys) := by
  induction xs generalizing s with
  | nil => rfl
  | cons x tl ih =>
    simp only [List.cons_append, MessageBuilderBase.feedAll]
    cases MessageBuilderBase.feed hooks x s with
    | ok s1 => simp [ih]
    | threw m s1 => rfl
    | diverged s1 => rfl

/-- C3. For every body of `n ≥ 1` bytes written, in any number of non-empty writes, to a
`MessageChunkManager` of body capacity `B = messageSize - 12 - extraHeaderSize ≥ 1`
(message type of 3 byte-sized character codes, channel id and message size below 2^32)
and followed by `end()`: exactly `ceil(n / B)` chunks are emitted, every chunk except the
last has total length `12 + extraHeaderSize + B`, that is body length exactly `B`, and
the last chunk has body length `n mod B`, or `B` when `n` is a multiple of `B`. -/
theorem C3_chunk_count_and_sizes (messageSize : Int) (msgType : JsString)
    (sc e B : Nat) (pieces : List Buffer)
    (hmt : msgType.length = 3) (hbytes : ∀ c ∈ msgType, c ≤ 255)
    (hsc : sc < 2 ^ 32) (hsize : messageSize < 2 ^ 32)
    (hB : messageSize = ((12 + e + B : Nat) : Int)) (hB1 : 1 ≤ B)
    (hpieces : ∀ p ∈ pieces, p ≠ []) (hn : 1 ≤ pieces.flatten.length) :
    ∃ m m1, MessageChunkManager.new messageSize msgType sc e = .ok m
      ∧ (MessageChunkManager.writeAll pieces m).bind MessageChunkManager.end_ = .ok m1
      ∧ m1.emitted.length = (pieces.flatten.length + B - 1) / B
      ∧ (∀ c ∈ m1.emitted.dropLast, c.length = 12 + e + B)
      ∧ ∃ c, m1.emitted.getLast? = some c
          ∧ c.length = 12 + e
              + (if pieces.flatten.length % B = 0 then B else pieces.flatten.length % B) := by
  obtain ⟨m, init, last, hnew, hflat, hinit, hl1, hlB, ⟨m1, hend, hem, _, _⟩, _, _⟩ :=
    MessageChunkManager.framer_output messageSize msgType sc e B pieces hmt hbytes hsc hsize
      hB hB1 hpieces hn
  have hcount : pieces.flatten.length = B * init.length + last.length := by
    rw [← hflat]
    simp only [List.flatten_append, List.length_append, List.flatten_cons, List.flatten_nil,
      List.append_nil, flatten_length_of_uniform B init hinit]
  obtain ⟨hc1, hc2⟩ := block_count B init.length last.length pieces.flatten.length hl1 hlB
    hcount
  refine ⟨m, m1, hnew, hend, ?_, ?_, ?_⟩
  · rw [hem, hc1]
    simp
  · rw [hem, List.dropLast_concat]
    intro c hc
    obtain ⟨x, hx, rfl⟩ := List.mem_map.mp hc
    rw [framedChunk_length msgType sc (12 + e) 67 x hmt (by omega), hinit x hx]
  · refine ⟨framedChunk msgType sc (12 + e) 70 last, by rw [hem]; simp, ?_⟩
    rw [framedChunk_length msgType sc (12 + e) 70 last hmt (by omega), hc2]

/-- Witness for C3: five bytes in two writes, body capacity 3. -/
theorem C3_chunk_count_and_sizes_witness :
    ∃ m m1, MessageChunkManager.new 15 HEL 7 0 = .ok m
      ∧ (MessageChunkManager.writeAll [[1, 2], [3, 4, 5]] m).bind MessageChunkManager.end_
          = .ok m1
      ∧ m1.emitted.length = (([[1, 2], [3, 4, 5]] : List Buffer).flatten.length + 3 - 1) / 3
      ∧ (∀ c ∈ m1.emitted.dropLast, c.length = 12 + 0 + 3)
      ∧ ∃ c, m1.emitted.getLast? = some c
          ∧ c.length = 12 + 0
              + (if ([[1, 2], [3, 4, 5]] : List Buffer).flatten.length % 3 = 0 then 3
                 else ([[1, 2], [3, 4, 5]] : List Buffer).flatten.length % 3) :=
  C3_chunk_count_and_sizes 15 HEL 7 0 3 [[1, 2], [3, 4, 5]] (by decide) (by decide)
    (by norm_num) (by norm_num) (by norm_num) (by norm_num) (by decide) (by decide)

/-- C4. For every body of `n ≥ 1` bytes written, in any number of non-empty writes, to a
`MessageChunkManager` (body capacity at least 1, message type of 3 byte-sized character
codes, channel id and message size below 2^32) and followed by `end()`: byte 3 of every
emitted chunk except the last is 'C' (67), byte 3 of the last emitted chunk is 'F' (70),
and every chunk emitted during the writes is marked 'C', none 'F' or 'A' (65). -/
theorem C4_chunk_types (messageSize : Int) (msgType : JsString)
    (sc e B : Nat) (pieces : List Buffer)
    (hmt : msgType.length = 3) (hbytes : ∀ c ∈ msgType, c ≤ 255)
    (hsc : sc < 2 ^ 32) (hsize : messageSize < 2 ^ 32)
    (hB : messageSize = ((12 + e + B : Nat) : Int)) (hB1 : 1 ≤ B)
    (hpieces : ∀ p ∈ pieces, p ≠ []) (hn : 1 ≤ pieces.flatten.length) :
    ∃ m m3 m1, MessageChunkManager.new messageSize msgType sc e = .ok m
      ∧ MessageChunkManager.writeAll pieces m = .ok m3
      ∧ MessageChunkManager.end_ m3 = .ok m1
      ∧ (∀ c ∈ m1.emitted.dropLast, c.getD 3 0 = 67)
      ∧ (∃ c, m1.emitted.getLast? = some c ∧ c.getD 3 0 = 70)
      ∧ (∀ c ∈ m3.emitted, c.getD 3 0 = 67 ∧ c.getD 3 0 ≠ 70 ∧ c.getD 3 0 ≠ 65) := by
  obtain ⟨m, init, last, hnew, _, _, _, _, ⟨m1, hend, hem, _, _⟩, _, ⟨m3, hw, k, hk⟩⟩ :=
    MessageChunkManager.framer_output messageSize msgType sc e B pieces hmt hbytes hsc hsize
      hB hB1 hpieces hn
  rw [hw, Outcome.bind_ok] at hend
  refine ⟨m, m3, m1, hnew, hw, hend, ?_, ?_, ?_⟩
  · rw [hem, List.dropLast_concat]
    intro c hc
    obtain ⟨x, _, rfl⟩ := List.mem_map.mp hc
    exact framedChunk_type msgType sc (12 + e) 67 x hmt
  · exact ⟨framedChunk msgType sc (12 + e) 70 last, by rw [hem]; simp,
      framedChunk_type msgType sc (12 + e) 70 last hmt⟩
  · rw [hk]
    intro c hc
    obtain ⟨x, _, rfl⟩ := List.mem_map.mp hc
    rw [framedChunk_type msgType sc (12 + e) 67 x hmt]
    decide

/-- Witness for C4: five bytes in two writes, body capacity 3. -/
theorem C4_chunk_types_witness :
    ∃ m m3 m1, MessageChunkManager.new 15 HEL 7 0 = .ok m
      ∧ MessageChunkManager.writeAll [[1, 2], [3, 4, 5]] m = .ok m3
      ∧ MessageChunkManager.end_ m3 = .ok m1
      ∧ (∀ c ∈ m1.emitted.dropLast, c.getD 3 0 = 67)
      ∧ (∃ c, m1.emitted.getLast? = some c ∧ c.getD 3 0 = 70)
      ∧ (∀ c ∈ m3.emitted, c.getD 3 0 = 67 ∧ c.getD 3 0 ≠ 70 ∧ c.getD 3 0 ≠ 65) :=
  C4_chunk_types 15 HEL 7 0 3 [[1, 2], [3, 4, 5]] (by decide) (by decide)
    (by norm_num) (by norm_num) (by norm_num) (by norm_num) (by decide) (by decide)

/-- C6. Abort semantics: for every body of `n ≥ 1` bytes written, in any number of
non-empty writes, to a `MessageChunkManager` (body capacity at least 1, message type of
3 byte-sized character codes, channel id and message size below 2^32) and followed by
`abort()`: the last chunk emitted is marked 'A' (65), it is the only chunk marked 'A',
every earlier chunk is marked 'C' (67), and no chunk is marked 'F' (70). -/
theorem C6_abort_semantics (messageSize : Int) (msgType : JsString)
    (sc e B : Nat) (pieces : List Buffer)
    (hmt : msgType.length = 3) (hbytes : ∀ c ∈ msgType, c ≤ 255)
    (hsc : sc < 2 ^ 32) (hsize : messageSize < 2 ^ 32)
    (hB : messageSize = ((12 + e + B : Nat) : Int)) (hB1 : 1 ≤ B)
    (hpieces : ∀ p ∈ pieces, p ≠ []) (hn : 1 ≤ pieces.flatten.length) :
    ∃ m m2, MessageChunkManager.new messageSize msgType sc e = .ok m
      ∧ (MessageChunkManager.writeAll pieces m).bind MessageChunkManager.abort = .ok m2
      ∧ (∃ c, m2.emitted.getLast? = some c ∧ c.getD 3 0 = 65)
      ∧ (∀ c ∈ m2.emitted.dropLast, c.getD 3 0 = 67)
      ∧ m2.emitted.countP (fun c => c.getD 3 0 = 65) = 1
      ∧ (∀ c ∈ m2.emitted, c.getD 3 0 ≠ 70) := by
  obtain ⟨m, init, last, hnew, _, _, _, _, _, ⟨m2, habort, hem, _, _⟩, _⟩ :=
    MessageChunkManager.framer_output messageSize msgType sc e B pieces hmt hbytes hsc hsize
      hB hB1 hpieces hn
  have hC : ∀ c ∈ init.map (framedChunk msgType sc (12 + e) 67), c.getD 3 0 = 67 := by
    intro c hc
    obtain ⟨x, _, rfl⟩ := List.mem_map.mp hc
    exact framedChunk_type msgType sc (12 + e) 67 x hmt
  have hA := framedChunk_type msgType sc (12 + e) 65 last hmt
  refine ⟨m, m2, hnew, habort, ?_, ?_, ?_, ?_⟩
  · exact ⟨framedChunk msgType sc (12 + e) 65 last, by rw [hem]; simp, hA⟩
  · rw [hem, List.dropLast_concat]
    exact hC
  · rw [hem, List.countP_append]
    have h0 : (init.map (framedChunk msgType sc (12 + e) 67)).countP
        (fun c => c.getD 3 0 = 65) = 0 := by
      rw [List.countP_eq_zero]
      intro c hc
      have := hC c hc
      simp only [decide_eq_true_eq]
      omega
    rw [h0]
    simp only [List.countP_cons, List.countP_nil, hA, decide_True, if_true]
  · rw [hem]
    intro c hc
    rcases List.mem_append.mp hc with hc | hc
    · rw [hC c hc]; decide
    · simp only [List.mem_singleton] at hc
      subst hc
      rw [hA]; decide

/-- Witness for C6: five bytes in two writes, body capacity 3. -/
theorem C6_abort_semantics_witness :
    ∃ m m2, MessageChunkManager.new 15 HEL 7 0 = .ok m
      ∧ (MessageChunkManager.writeAll [[1, 2], [3, 4, 5]] m).bind MessageChunkManager.abort
          = .ok m2
      ∧ (∃ c, m2.emitted.getLast? = some c ∧ c.getD 3 0 = 65)
      ∧ (∀ c ∈ m2.emitted.dropLast, c.getD 3 0 = 67)
      ∧ m2.emitted.countP (fun c => c.getD 3 0 = 65) = 1
      ∧ (∀ c ∈ m2.emitted, c.getD 3 0 ≠ 70) :=
  C6_abort_semantics 15 HEL 7 0 3 [[1, 2], [3, 4, 5]] (by decide) (by decide)
    (by norm_num) (by norm_num) (by norm_num) (by norm_num) (by decide) (by decide)

/-- C1. Round trip: for every non-empty body, every `MessageChunkManager` built with
`messageSize > 12` and body capacity `B = messageSize - 12 - extraHeaderSize ≥ 1` (message
type of 3 byte-sized character codes, channel id and message size below 2^32), and every
way of splitting the body into non-empty buffers `pieces` written one after the other
(each with `length` equal to its buffer's length): writing the body, calling `end()`, and
feeding the emitted chunks in order to a fresh `MessageBuilderBase` (with no
`_read_headers` method when `extraHeaderSize = 0`, with one that advances the stream by
exactly `extraHeaderSize` bytes otherwise) makes the reassembler emit exactly one
raw_buffer, and that buffer is the body. -/
theorem C1_round_trip (messageSize : Int) (msgType : JsString)
    (sc e B : Nat) (pieces : List Buffer) (on_raw_buffer error_listener : Bool)
    (hmt : msgType.length = 3) (hbytes : ∀ c ∈ msgType, c ≤ 255)
    (hsc : sc < 2 ^ 32) (hsize : messageSize < 2 ^ 32)
    (hB : messageSize = ((12 + e + B : Nat) : Int)) (hB1 : 1 ≤ B)
    (hpieces : ∀ p ∈ pieces, p ≠ []) (hn : pieces.flatten ≠ []) :
    ∃ m m1 s, MessageChunkManager.new messageSize msgType sc e = .ok m
      ∧ (MessageChunkManager.writeAll pieces m).bind MessageChunkManager.end_ = .ok m1
      ∧ MessageBuilderBase.feedAll (skipHooks e on_raw_buffer error_listener) m1.emitted
          MessageBuilderBase.new = .ok s
      ∧ rawBuffers s.events = [pieces.flatten] := by
  obtain ⟨m, init, last, hnew, hflat, hinit, hl1, hlB, ⟨m1, hend, hem, _, _⟩, _, _⟩ :=
    MessageChunkManager.framer_output messageSize msgType sc e B pieces hmt hbytes hsc hsize
      hB hB1 hpieces (List.length_pos.mpr hn)
  have hbound : 12 + e + B < 2 ^ 32 := by omega
  have hwfC : ∀ c ∈ init.map (framedChunk msgType sc (12 + e) 67), WellFormedChunk e 67 c := by
    intro c hc
    obtain ⟨x, hx, rfl⟩ := List.mem_map.mp hc
    exact framedChunk_wellFormed msgType sc e 67 x hmt (by rw [hinit x hx]; omega)
  have hwfF : WellFormedChunk e 70 (framedChunk msgType sc (12 + e) 70 last) :=
    framedChunk_wellFormed msgType sc e 70 last hmt (by omega)
  obtain ⟨s1, f1, f2, f3, f4⟩ := MessageBuilderBase.feedAll_C e on_raw_buffer error_listener
    _ hwfC MessageBuilderBase.new
  obtain ⟨s2, g1, _, g3⟩ := MessageBuilderBase.feed_F e on_raw_buffer error_listener _ hwfF s1
    (f4 rfl)
  refine ⟨m, m1, s2, hnew, hend, ?_, ?_⟩
  · rw [hem, MessageBuilderBase.feedAll_append, f1, Outcome.bind_ok]
    simp only [MessageBuilderBase.feedAll, g1, Outcome.bind_ok]
  · rw [g3, f3, f2, ← hflat]
    have hmap : (init.map (framedChunk msgType sc (12 + e) 67)).map (List.drop (12 + e))
        = init := by
      rw [List.map_map]
      conv_rhs => rw [← List.map_id init]
      apply List.map_congr_left
      intro x _
      exact framedChunk_drop msgType sc (12 + e) 67 x hmt (by omega)
    rw [hmap, framedChunk_drop msgType sc (12 + e) 70 last hmt (by omega)]
    simp [MessageBuilderBase.new, rawBuffers]

/-- Witness for C1: five bytes in two writes, body capacity 3, extra header of 2 bytes. -/
theorem C1_round_trip_witness :
    ∃ m m1 s, MessageChunkManager.new 17 HEL 7 2 = .ok m
      ∧ (MessageChunkManager.writeAll [[1, 2], [3, 4, 5]] m).bind MessageChunkManager.end_
          = .ok m1
      ∧ MessageBuilderBase.feedAll (skipHooks 2 false false) m1.emitted
          MessageBuilderBase.new = .ok s
      ∧ rawBuffers s.events = [([[1, 2], [3, 4, 5]] : List Buffer).flatten] :=
  C1_round_trip 17 HEL 7 2 3 [[1, 2], [3, 4, 5]] false false (by decide) (by decide)
    (by norm_num) (by norm_num) (by norm_num) (by norm_num) (by decide) (by decide)

/-! ## Validator, constructor, zero-length write, inbound lifecycle -/

/-- C11. For every buffer long enough to hold the header fields that are read (8 bytes,
so every buffer holding the 12-byte common header), `verify_message_chunk` throws if and
only if the total-length field of the header (the little-endian u32 at offset 4) differs
from the buffer's length; when the two are equal it returns without error.  The function
is pure: it has no other effect. -/
theorem C11_verify_message_chunk (chunk : Buffer) (h8 : 8 ≤ chunk.length) :
    ∃ header, readMessageHeader (BinaryStream.new chunk) = some header
      ∧ Buffer.readUInt32LE chunk 4 = some header.length
      ∧ ((∃ msg, verify_message_chunk chunk = .error msg) ↔ header.length ≠ chunk.length)
      ∧ (header.length = chunk.length → verify_message_chunk chunk = .ok ()) := by
  refine ⟨_, readMessageHeader_eq chunk h8, ?_, ?_, ?_⟩
  · simp [Buffer.readUInt32LE, h8]
  · unfold verify_message_chunk
    rw [readMessageHeader_eq chunk h8]
    simp only
    constructor
    · rintro ⟨msg, hmsg⟩ heq
      rw [if_neg (fun h => h heq.symm)] at hmsg
      cases hmsg
    · intro hne
      rw [if_pos (fun h => hne h.symm)]
      exact ⟨_, rfl⟩
  · intro heq
    unfold verify_message_chunk
    rw [readMessageHeader_eq chunk h8]
    simp only
    rw [if_neg (fun h => h heq.symm)]

/-- Witness for C11: a 13-byte chunk announcing 13 bytes. -/
theorem C11_verify_message_chunk_witness :
    ∃ header, readMessageHeader (BinaryStream.new [72, 69, 76, 70, 13, 0, 0, 0, 0, 0, 0, 0, 5])
        = some header
      ∧ Buffer.readUInt32LE [72, 69, 76, 70, 13, 0, 0, 0, 0, 0, 0, 0, 5] 4 = some header.length
      ∧ ((∃ msg, verify_message_chunk [72, 69, 76, 70, 13, 0, 0, 0, 0, 0, 0, 0, 5]
            = .error msg)
          ↔ header.length ≠ ([72, 69, 76, 70, 13, 0, 0, 0, 0, 0, 0, 0, 5] : Buffer).length)
      ∧ (header.length = ([72, 69, 76, 70, 13, 0, 0, 0, 0, 0, 0, 0, 5] : Buffer).length →
          verify_message_chunk [72, 69, 76, 70, 13, 0, 0, 0, 0, 0, 0, 0, 5] = .ok ()) :=
  C11_verify_message_chunk _ (by decide)

set_option maxRecDepth 100000 in
/-- C14, the code at the failing input: with `messageSize = 13` and `extraHeaderSize = 1`
the body capacity is 0, yet the constructor returns a manager, whose accumulator has
taken the default block size 1024; the first block this manager completes trips the
handler's assertion on the message size, and nothing is emitted. -/
theorem C14_zero_capacity_accepted :
    ∃ m, MessageChunkManager.new 13 HEL 0 1 = .ok m
      ∧ m.bodySize = 0 ∧ m.chunkManager.chunk_size = 1024
      ∧ ∃ s, (MessageChunkManager.writeAll [[1]] m).bind MessageChunkManager.end_
          = .threw "assert(self.messageSize >= chunk.length + offsetBody)" s
        ∧ s.emitted = [] :=
  ⟨_, rfl, rfl, rfl, _, rfl, rfl⟩

/-- The constructor checks the message type and `messageSize > 12`, nothing else: it
succeeds whatever the extra header size, also when no room is left for a body. -/
theorem MessageChunkManager.new_succeeds (messageSize : Int) (msgType : JsString)
    (sc e : Nat) (hmt : msgType.length = 3) (h12 : 12 < messageSize) :
    ∃ m, MessageChunkManager.new messageSize msgType sc e = .ok m
      ∧ m.bodySize = messageSize - ((12 + e : Nat) : Int) := by
  have hne : msgType ≠ [] := by
    intro h; rw [h] at hmt; simp at hmt
  unfold MessageChunkManager.new
  simp only [hne, if_false, hmt, ne_eq, not_true_eq_false, gt_iff_lt, h12]
  exact ⟨_, rfl, rfl⟩

/-- C15. Constructing a `MessageChunkManager` with `messageSize ≤ 12` fails for every
message type, channel id and extra header size; with `messageSize > 12`, a 3-character
message type and `extraHeaderSize = 0` it succeeds, with body capacity
`messageSize - 12` (the `bodySize` field, and the block size of its accumulator). -/
theorem C15_constructor_message_size (messageSize : Int) (msgType : JsString) (sc e : Nat) :
    (messageSize ≤ 12 → ∃ msg, MessageChunkManager.new messageSize msgType sc e = .error msg)
    ∧ (12 < messageSize → msgType.length = 3 →
        ∃ m, MessageChunkManager.new messageSize msgType sc 0 = .ok m
          ∧ m.bodySize = messageSize - 12
          ∧ m.chunkManager.chunk_size = messageSize - 12
          ∧ m.chunkManager.chunk.length = (messageSize - 12).toNat) := by
  constructor
  · intro h
    unfold MessageChunkManager.new
    have h12 : ¬ (messageSize > 12) := by omega
    by_cases h3 : (if msgType = [] then HEL else msgType).length = 3
    · simp only [h3, ne_eq, not_true_eq_false, if_false, h12, not_false_eq_true, if_true]
      exact ⟨_, rfl⟩
    · simp only [ne_eq, h3, not_false_eq_true, if_true]
      exact ⟨_, rfl⟩
  · intro h12 hmt
    have hne : msgType ≠ [] := by
      intro h; rw [h] at hmt; simp at hmt
    have h0 : ¬ (messageSize - 12 = 0) := by omega
    unfold MessageChunkManager.new
    simp only [hne, if_false, hmt, ne_eq, not_true_eq_false, gt_iff_lt, h12]
    refine ⟨_, rfl, ?_, ?_, ?_⟩
    · simp
    · simp [ChunkManager.new, h0]
    · simp [ChunkManager.new, h0, Buffer.alloc]

/-- The inner manager stored back into its owner unchanged gives the owner. -/
theorem MessageChunkManager.repack_self (m : MessageChunkManager) :
    MessageChunkManager.repack (m.chunkManager, m) = m := rfl

/-- C16. Zero-length write: `ChunkManager.write` and `MessageChunkManager.write` called
with length 0 raise an exception, whatever the buffer and the listeners; the state the
exception leaves is the state before the call, listeners' state included: no
notification was delivered, and the cursor, the block and the pending chunk are as they
were. -/
theorem C16_zero_length_write (L : Type) (emit : ChunkListener L) (buffer : Option Buffer)
    (w : ChunkManager × L) (m : MessageChunkManager) :
    ChunkManager.write emit buffer 0 w = .threw "assert(length != 0)" w
    ∧ MessageChunkManager.write buffer 0 m = .threw "assert(length != 0)" m := by
  constructor
  · simp [ChunkManager.write]
  · simp [MessageChunkManager.write, ChunkManager.write, MessageChunkManager.repack_self]

/-- C20, as stated, fails: after a final chunk with body `[1, 2]` the block sequence still
holds that body and the running total is 2, and a second message with body `[3]` fed to
the same instance is emitted as `[1, 2, 3]`. -/
theorem C20_counterexample :
    (MessageBuilderBase.feed
        { _read_headers := none, _on_raw_buffer := false, error_listener := false }
        [72, 69, 76, 70, 14, 0, 0, 0, 0, 0, 0, 0, 1, 2] MessageBuilderBase.new).state.blocks
      = [[1, 2]]
    ∧ (MessageBuilderBase.feed
        { _read_headers := none, _on_raw_buffer := false, error_listener := false }
        [72, 69, 76, 70, 14, 0, 0, 0, 0, 0, 0, 0, 1, 2] MessageBuilderBase.new).state.total_size
      = 2
    ∧ rawBuffers (MessageBuilderBase.feedAll
        { _read_headers := none, _on_raw_buffer := false, error_listener := false }
        [[72, 69, 76, 70, 14, 0, 0, 0, 0, 0, 0, 0, 1, 2],
         [72, 69, 76, 70, 13, 0, 0, 0, 0, 0, 0, 0, 3]] MessageBuilderBase.new).state.events
      = [[1, 2], [1, 2, 3]] := by
  refine ⟨rfl, rfl, rfl⟩

/-- C20, amended. Inbound lifecycle: consuming a terminal chunk does not reset a
`MessageBuilderBase`.  After the 'F' chunk of a first message the block sequence holds
every body block of that message and the running total is their total length; an 'A'
chunk leaves blocks and total as they were; so feeding the chunks of a second message
to the same instance emits a raw_buffer equal to the blocks accumulated from the first
message followed by the second message's body. -/
theorem C20_no_reset (e : Nat) (on_raw_buffer error_listener : Bool)
    (cs1 cs2 : List Buffer) (f1 f2 a : Buffer)
    (h1 : ∀ c ∈ cs1, WellFormedChunk e 67 c) (hf1 : WellFormedChunk e 70 f1)
    (h2 : ∀ c ∈ cs2, WellFormedChunk e 67 c) (hf2 : WellFormedChunk e 70 f2)
    (ha : 8 ≤ a.length ∧ a.getD 3 0 = 65) :
    (∃ s1 s2, MessageBuilderBase.feedAll (skipHooks e on_raw_buffer error_listener)
          (cs1 ++ [f1]) MessageBuilderBase.new = .ok s1
        ∧ s1.blocks = (cs1 ++ [f1]).map (List.drop (12 + e))
        ∧ s1.total_size = (((cs1 ++ [f1]).map (List.drop (12 + e))).flatten.length : Int)
        ∧ MessageBuilderBase.feedAll (skipHooks e on_raw_buffer error_listener)
          (cs2 ++ [f2]) s1 = .ok s2
        ∧ rawBuffers s2.events
          = [((cs1 ++ [f1]).map (List.drop (12 + e))).flatten,
             ((cs1 ++ [f1]).map (List.drop (12 + e))).flatten
               ++ ((cs2 ++ [f2]).map (List.drop (12 + e))).flatten])
    ∧ ∀ s : MessageBuilderBase,
        (MessageBuilderBase.feed (skipHooks e on_raw_buffer error_listener) a s).state.blocks
          = s.blocks
        ∧ (MessageBuilderBase.feed (skipHooks e on_raw_buffer error_listener) a
            s).state.total_size = s.total_size := by
  constructor
  · obtain ⟨t1, p1, p2, p3, p4⟩ := MessageBuilderBase.feedAll_C e on_raw_buffer error_listener
      cs1 h1 MessageBuilderBase.new
    obtain ⟨s1, q1, q2, q3⟩ := MessageBuilderBase.feed_F e on_raw_buffer error_listener f1 hf1
      t1 (p4 rfl)
    have hs1b : s1.blocks = (cs1 ++ [f1]).map (List.drop (12 + e)) := by
      rw [q2, p2]; simp [MessageBuilderBase.new]
    have hs1t : (s1.blocks.flatten.length : Int) = s1.total_size := by
      have hfeed : MessageBuilderBase.feedAll (skipHooks e on_raw_buffer error_listener)
          [] s1 = .ok s1 := rfl
      have hF := q1
      unfold MessageBuilderBase.feed at hF
      rw [readMessageHeader_eq f1 (by have := hf1.1; omega)] at hF
      simp only [hf1.2.1, if_true,
        MessageBuilderBase.append_wellformed e on_raw_buffer error_listener f1 hf1.1 hf1.2.2,
        Outcome.bind_ok] at hF
      split at hF
      · cases hF
      · rename_i hsz
        simp only [ne_eq, Decidable.not_not] at hsz
        split at hF <;> (simp only [Outcome.ok.injEq] at hF; subst hF; simpa using hsz)
    obtain ⟨t2, r1, r2, r3, r4⟩ := MessageBuilderBase.feedAll_C e on_raw_buffer error_listener
      cs2 h2 s1
    obtain ⟨s2, u1, u2, u3⟩ := MessageBuilderBase.feed_F e on_raw_buffer error_listener f2 hf2
      t2 (r4 hs1t)
    refine ⟨s1, s2, ?_, hs1b, ?_, ?_, ?_⟩
    · rw [MessageBuilderBase.feedAll_append, p1, Outcome.bind_ok]
      simp only [MessageBuilderBase.feedAll, q1, Outcome.bind_ok]
    · rw [← hs1t, hs1b]
    · rw [MessageBuilderBase.feedAll_append, r1, Outcome.bind_ok]
      simp only [MessageBuilderBase.feedAll, u1, Outcome.bind_ok]
    · rw [u3, r3, q3, p3, r2, hs1b, p2]
      simp [MessageBuilderBase.new, rawBuffers]
  · intro s
    unfold MessageBuilderBase.feed
    rw [readMessageHeader_eq a ha.1]
    simp only [ha.2]
    cases error_listener <;> simp [skipHooks]

/-- Witness for C20: two one-chunk messages and an abort chunk. -/
theorem C20_no_reset_witness :
    (∃ s1 s2, MessageBuilderBase.feedAll (skipHooks 0 false false)
          ([] ++ [[72, 69, 76, 70, 14, 0, 0, 0, 0, 0, 0, 0, 1, 2]]) MessageBuilderBase.new
          = .ok s1
        ∧ s1.blocks = (([] : List Buffer) ++ [[72, 69, 76, 70, 14, 0, 0, 0, 0, 0, 0, 0, 1, 2]]).map
            (List.drop (12 + 0))
        ∧ s1.total_size = (((([] : List Buffer)
            ++ [[72, 69, 76, 70, 14, 0, 0, 0, 0, 0, 0, 0, 1, 2]]).map
              (List.drop (12 + 0))).flatten.length : Int)
        ∧ MessageBuilderBase.feedAll (skipHooks 0 false false)
          ([] ++ [[72, 69, 76, 70, 13, 0, 0, 0, 0, 0, 0, 0, 3]]) s1 = .ok s2
        ∧ rawBuffers s2.events
          = [((([] : List Buffer) ++ [[72, 69, 76, 70, 14, 0, 0, 0, 0, 0, 0, 0, 1, 2]]).map
                (List.drop (12 + 0))).flatten,
             ((([] : List Buffer) ++ [[72, 69, 76, 70, 14, 0, 0, 0, 0, 0, 0, 0, 1, 2]]).map
                (List.drop (12 + 0))).flatten
               ++ ((([] : List Buffer) ++ [[72, 69, 76, 70, 13, 0, 0, 0, 0, 0, 0, 0, 3]]).map
                (List.drop (12 + 0))).flatten])
    ∧ ∀ s : MessageBuilderBase,
        (MessageBuilderBase.feed (skipHooks 0 false false)
          [72, 69, 76, 65, 12, 0, 0, 0, 0, 0, 0, 0] s).state.blocks = s.blocks
        ∧ (MessageBuilderBase.feed (skipHooks 0 false false)
          [72, 69, 76, 65, 12, 0, 0, 0, 0, 0, 0, 0] s).state.total_size = s.total_size :=
  C20_no_reset 0 false false [] [] _ _ _ (by simp) (by decide) (by simp) (by decide)
    (by decide)

/-! ## Header layout of emitted chunks -/

theorem writeCharCode_eq_ok_char {buf : Buffer} {s : JsString} {i offset : Nat} {v : Buffer}
    (h : writeCharCode buf s i offset = .ok v) :
    ∃ c, s[i]? = some c ∧ v = buf.set offset c := by
  unfold writeCharCode at h
  cases hs : s[i]? with
  | none => simp [hs] at h
  | some c =>
    simp only [hs] at h
    have := Outcome.ofExcept_eq_ok h
    unfold Buffer.writeUInt8 at this
    split at this
    · simp at this
    · split at this
      · simp at this
      · exact ⟨c, rfl, by simpa using this.symm⟩

/-- A header written without error is laid out as the wire format says. -/
theorem MessageChunkManager.write_header_and_footer_layout {self : MessageChunkManager}
    {finalC : JsString} {buf : Buffer} {length : Nat} {v : Buffer} {t : Nat}
    (hmt : self.msgType.length = 3) (hfinal : finalC = [t])
    (h : self.write_header_and_footer finalC buf length = .ok v) :
    12 ≤ v.length ∧ v.take 3 = self.msgType ∧ v.getD 3 0 = t
      ∧ (v.drop 8).take 4 = le32 self.secureChannelId ∧ self.secureChannelId < 2 ^ 32 := by
  subst hfinal
  unfold MessageChunkManager.write_header_and_footer at h
  split at h
  · simp at h
  · obtain ⟨b1, h1, h⟩ := Outcome.bind_eq_ok h
    obtain ⟨b2, h2, h⟩ := Outcome.bind_eq_ok h
    obtain ⟨b3, h3, h⟩ := Outcome.bind_eq_ok h
    obtain ⟨b4, h4, h⟩ := Outcome.bind_eq_ok h
    obtain ⟨b5, h5, h⟩ := Outcome.bind_eq_ok h
    obtain ⟨c1, e1, rfl⟩ := writeCharCode_eq_ok_char h1
    obtain ⟨c2, e2, rfl⟩ := writeCharCode_eq_ok_char h2
    obtain ⟨c3, e3, rfl⟩ := writeCharCode_eq_ok_char h3
    obtain ⟨c4, e4, rfl⟩ := writeCharCode_eq_ok_char h4
    obtain ⟨_, hl, rfl⟩ := writeUInt32LE_eq_ok (Outcome.ofExcept_eq_ok h5)
    obtain ⟨hsc, hl2, rfl⟩ := writeUInt32LE_eq_ok (Outcome.ofExcept_eq_ok h)
    simp only [List.length_set] at hl hl2
    obtain ⟨a0, a1, a2, a3, a4, a5, a6, a7, a8, a9, a10, a11, hbuf⟩ :=
      list_twelve buf (by omega)
    generalize buf.drop 12 = tl at hbuf
    subst hbuf
    rcases hm : self.msgType with _ | ⟨m0, _ | ⟨m1, _ | ⟨m2, _ | ⟨m3, mtl⟩⟩⟩⟩ <;>
      rw [hm] at hmt <;> simp at hmt
    rw [hm] at e1 e2 e3
    simp only [List.getElem?_cons_zero, List.getElem?_cons_succ, Option.some.injEq] at e1 e2 e3 e4
    subst e1 e2 e3 e4
    refine ⟨by simp, by simp, by simp, by simp [le32], hsc⟩

/-- A property of the framer that flushing keeps, and that does not depend on the pending
chunk or on the accumulator, holds after every call. -/
theorem MessageChunkManager.call_preserves (Q : MessageChunkManager → Prop)
    (hsend : ∀ finalC m, finalC = charC ∨ finalC = charF ∨ finalC = charA → Q m →
      Q (MessageChunkManager._sendPendingChunk finalC m).state)
    (hpend : ∀ m p, Q m → Q { m with pendingChunk := p })
    (hcm : ∀ m cm, Q m → Q { m with chunkManager := cm })
    (c : FramerCall) (self : MessageChunkManager) (h : Q self) :
    Q (MessageChunkManager.call c self).state := by
  have hlistener : ∀ (ev : ChunkEvent) (w : ChunkManager × MessageChunkManager), Q w.2 →
      Q (MessageChunkManager.listener ev w).state.2 := by
    intro ev w hw
    cases ev with
    | before_chunk c => exact hw
    | chunk c =>
      unfold MessageChunkManager.listener
      simp only
      split
      · exact hw
      · refine Outcome.bind_state_inv
          (fun w : ChunkManager × MessageChunkManager => Q w.2) _ _ ?_ ?_ <;> beta_reduce
        · rw [Outcome.map_state]
          exact hsend _ _ (Or.inl rfl) hw
        · intro w1 hw1
          split
          · exact hw1
          · split
            · exact hpend _ _ hw1
            · exact hpend _ _ hw1
  have hrepack : ∀ w : ChunkManager × MessageChunkManager, Q w.2 →
      Q (MessageChunkManager.repack w) := fun w hw => hcm _ _ hw
  cases c with
  | write buffer length =>
    simp only [MessageChunkManager.call, MessageChunkManager.write, Outcome.map_state]
    exact hrepack _ (ChunkManager.write_inv Q _ hlistener buffer length
      (self.chunkManager, self) h)
  | end_ =>
    simp only [MessageChunkManager.call, MessageChunkManager.end_]
    refine Outcome.bind_state_inv Q _ _ ?_ ?_ <;> beta_reduce
    · rw [Outcome.map_state]
      exact hrepack _ (ChunkManager.end_inv Q _ hlistener (self.chunkManager, self) h)
    · intro s hs
      exact hsend _ _ (Or.inr (Or.inl rfl)) hs
  | abort =>
    simp only [MessageChunkManager.call, MessageChunkManager.abort]
    refine Outcome.bind_state_inv Q _ _ ?_ ?_ <;> beta_reduce
    · rw [Outcome.map_state]
      exact hrepack _ (ChunkManager.end_inv Q _ hlistener (self.chunkManager, self) h)
    · intro s hs
      exact hsend _ _ (Or.inr (Or.inr rfl)) hs

theorem MessageChunkManager.run_preserves (Q : MessageChunkManager → Prop)
    (hsend : ∀ finalC m, finalC = charC ∨ finalC = charF ∨ finalC = charA → Q m →
      Q (MessageChunkManager._sendPendingChunk finalC m).state)
    (hpend : ∀ m p, Q m → Q { m with pendingChunk := p })
    (hcm : ∀ m cm, Q m → Q { m with chunkManager := cm })
    (calls : List FramerCall) :
    ∀ self : MessageChunkManager, Q self → Q (MessageChunkManager.run calls self).state := by
  induction calls with
  | nil => intro self h; exact h
  | cons c rest ih =>
    intro self h
    have hc := MessageChunkManager.call_preserves Q hsend hpend hcm c self h
    unfold MessageChunkManager.run
    cases hr : MessageChunkManager.call c self with
    | ok s => rw [hr] at hc; exact ih s hc
    | threw m s =>
      rw [hr] at hc
      simp only
      split
      · exact hc
      · exact ih s hc
    | diverged s => rw [hr] at hc; exact hc

theorem MessageChunkManager.sendPendingChunk_layout (mt : JsString) (sc : Nat)
    (finalC : JsString) (m : MessageChunkManager)
    (hf : finalC = charC ∨ finalC = charF ∨ finalC = charA) (h : LayoutInv mt sc m) :
    LayoutInv mt sc (MessageChunkManager._sendPendingChunk finalC m).state := by
  obtain ⟨h1, h2, h3, h4⟩ := h
  have ht : ∃ t, finalC = [t] ∧ (t = 67 ∨ t = 70 ∨ t = 65) := by
    rcases hf with hf | hf | hf
    · exact ⟨67, hf, Or.inl rfl⟩
    · exact ⟨70, hf, Or.inr (Or.inl rfl)⟩
    · exact ⟨65, hf, Or.inr (Or.inr rfl)⟩
  obtain ⟨t, hft, htv⟩ := ht
  unfold MessageChunkManager._sendPendingChunk
  split
  · exact ⟨h1, h2, h3, h4⟩
  · cases hp : m.pendingChunk with
    | none => exact ⟨h1, h2, h3, h4⟩
    | some p =>
      simp only
      cases hw : m.write_header_and_footer finalC (Buffer.slice p 0 m.sizeOfHeader)
          p.length with
      | threw msg v => exact ⟨h1, h2, h3, h4⟩
      | diverged v => exact ⟨h1, h2, h3, h4⟩
      | ok v =>
        obtain ⟨g1, g2, g3, g4, g5⟩ :=
          MessageChunkManager.write_header_and_footer_layout (h1 ▸ h2) hft hw
        refine ⟨h1, h2, h3, ?_⟩
        intro c hc
        simp only [Outcome.state_ok, List.mem_append, List.mem_singleton] at hc
        rcases hc with hc | hc
        · exact h4 c hc
        · subst hc
          refine ⟨by simp only [List.length_append]; omega, ?_, ?_, ?_, h3 ▸ g5⟩
          · rw [List.take_append_of_le_length (by omega), g2, h1]
          · have : (v ++ List.drop (Buffer.slice p 0 m.sizeOfHeader).length p).getD 3 0
                = v.getD 3 0 := by
              simp only [List.getD_eq_getElem?_getD]
              rw [List.getElem?_append_left (by omega)]
            rw [this, g3]
            exact htv
          · rw [List.drop_append_of_le_length (by omega),
              List.take_append_of_le_length (by simp only [List.length_drop]; omega), g4, h3]

/-- C12. Header layout.  For a constructed `MessageChunkManager` and every sequence of
write, end and abort calls, every chunk emitted has bytes 0..2 equal to the character
codes of the configured message type, byte 3 equal to 'C' (67), 'F' (70) or 'A' (65),
and bytes 8..11 equal to the configured channel id in little-endian order (a chunk is
only ever emitted when the channel id is below 2^32).  And when a body is written to a
manager of body capacity `B ≥ 1` and the message is ended or aborted, the bytes of the
emitted chunks from offset `headerSize = 12 + extraHeaderSize` onward are exactly the
body blocks: blocks of `B` bytes and a last one of 1 to `B` bytes whose concatenation
is the body. -/
theorem C12_header_layout (messageSize : Int) (msgType : JsString) (sc e : Nat)
    (m : MessageChunkManager)
    (hnew : MessageChunkManager.new messageSize msgType sc e = .ok m) :
    (∀ calls : List FramerCall, ∀ c ∈ (MessageChunkManager.run calls m).state.emitted,
        c.take 3 = m.msgType
        ∧ (c.getD 3 0 = 67 ∨ c.getD 3 0 = 70 ∨ c.getD 3 0 = 65)
        ∧ (c.drop 8).take 4 = le32 sc ∧ sc < 2 ^ 32)
    ∧ (∀ (B : Nat) (pieces : List Buffer),
        msgType.length = 3 → (∀ c ∈ msgType, c ≤ 255) → sc < 2 ^ 32 → messageSize < 2 ^ 32 →
        messageSize = ((12 + e + B : Nat) : Int) → 1 ≤ B →
        (∀ p ∈ pieces, p ≠ []) → 1 ≤ pieces.flatten.length →
        ∃ init last m1 m2, (init ++ [last]).flatten = pieces.flatten
          ∧ (∀ x ∈ init, x.length = B) ∧ 1 ≤ last.length ∧ last.length ≤ B
          ∧ (MessageChunkManager.writeAll pieces m).bind MessageChunkManager.end_ = .ok m1
          ∧ m1.emitted.map (List.drop (12 + e)) = init ++ [last]
          ∧ (MessageChunkManager.writeAll pieces m).bind MessageChunkManager.abort = .ok m2
          ∧ m2.emitted.map (List.drop (12 + e)) = init ++ [last]) := by
  constructor
  · intro calls c hc
    obtain ⟨h3, _, hm⟩ := MessageChunkManager.new_ok hnew
    have h0 : LayoutInv m.msgType sc m := by
      refine ⟨rfl, ?_, ?_, ?_⟩
      · rw [hm]; exact h3
      · rw [hm]
      · intro c hc
        rw [(MessageChunkManager.new_emitted hnew).1] at hc
        simp at hc
    have hfin := MessageChunkManager.run_preserves (LayoutInv m.msgType sc)
      (fun finalC m1 hf h => MessageChunkManager.sendPendingChunk_layout _ _ finalC m1 hf h)
      (fun _ _ h => h) (fun _ _ h => h) calls m h0
    obtain ⟨_, h2, h4, h5, h6⟩ := hfin.2.2.2 c hc
    exact ⟨h2, h4, h5, h6⟩
  · intro B pieces hmt hbytes hsc hsize hB hB1 hpieces hn
    obtain ⟨m0, init, last, hnew0, hflat, hinit, hl1, hlB, ⟨m1, hend, hem1, _, _⟩,
        ⟨m2, habort, hem2, _, _⟩, _⟩ :=
      MessageChunkManager.framer_output messageSize msgType sc e B pieces hmt hbytes hsc
        hsize hB hB1 hpieces hn
    have hmm : m0 = m := by
      rw [hnew] at hnew0
      exact (Except.ok.inj hnew0).symm
    subst hmm
    have hmapC : (init.map (framedChunk msgType sc (12 + e) 67)).map (List.drop (12 + e))
        = init := by
      rw [List.map_map]
      conv_rhs => rw [← List.map_id init]
      apply List.map_congr_left
      intro x _
      exact framedChunk_drop msgType sc (12 + e) 67 x hmt (by omega)
    refine ⟨init, last, m1, m2, hflat, hinit, hl1, hlB, hend, ?_, habort, ?_⟩
    · rw [hem1, List.map_append, hmapC]
      simp [framedChunk_drop msgType sc (12 + e) 70 last hmt (by omega)]
    · rw [hem2, List.map_append, hmapC]
      simp [framedChunk_drop msgType sc (12 + e) 65 last hmt (by omega)]

/-- Witness for C12: the manager of message size 15 (body capacity 3). -/
theorem C12_header_layout_witness :
    (∀ calls : List FramerCall, ∀ c ∈ (MessageChunkManager.run calls
          { messageSize := 15, msgType := HEL, secureChannelId := 7, sizeOfHeader := 12,
            bodySize := 3, chunkManager := ChunkManager.new 3, pendingChunk := none,
            emitted := [] }).state.emitted,
        c.take 3 = HEL
        ∧ (c.getD 3 0 = 67 ∨ c.getD 3 0 = 70 ∨ c.getD 3 0 = 65)
        ∧ (c.drop 8).take 4 = le32 7 ∧ 7 < 2 ^ 32)
    ∧ (∀ (B : Nat) (pieces : List Buffer),
        HEL.length = 3 → (∀ c ∈ HEL, c ≤ 255) → 7 < 2 ^ 32 → (15 : Int) < 2 ^ 32 →
        (15 : Int) = ((12 + 0 + B : Nat) : Int) → 1 ≤ B →
        (∀ p ∈ pieces, p ≠ []) → 1 ≤ pieces.flatten.length →
        ∃ init last m1 m2, (init ++ [last]).flatten = pieces.flatten
          ∧ (∀ x ∈ init, x.length = B) ∧ 1 ≤ last.length ∧ last.length ≤ B
          ∧ (MessageChunkManager.writeAll pieces
              { messageSize := 15, msgType := HEL, secureChannelId := 7, sizeOfHeader := 12,
                bodySize := 3, chunkManager := ChunkManager.new 3, pendingChunk := none,
                emitted := [] }).bind MessageChunkManager.end_ = .ok m1
          ∧ m1.emitted.map (List.drop (12 + 0)) = init ++ [last]
          ∧ (MessageChunkManager.writeAll pieces
              { messageSize := 15, msgType := HEL, secureChannelId := 7, sizeOfHeader := 12,
                bodySize := 3, chunkManager := ChunkManager.new 3, pendingChunk := none,
                emitted := [] }).bind MessageChunkManager.abort = .ok m2
          ∧ m2.emitted.map (List.drop (12 + 0)) = init ++ [last]) :=
  C12_header_layout 15 HEL 7 0 _ rfl

/-! ## The accumulator with recording listeners -/

theorem chunkEvents_append (xs ys : List ChunkEvent) :
    chunkEvents (xs ++ ys) = chunkEvents xs ++ chunkEvents ys := by
  induction xs with
  | nil => rfl
  | cons x rest ih => cases x <;> simp [chunkEvents, ih]

theorem beforeEvents_append (xs ys : List ChunkEvent) :
    beforeEvents (xs ++ ys) = beforeEvents xs ++ beforeEvents ys := by
  induction xs with
  | nil => rfl
  | cons x rest ih => cases x <;> simp [beforeEvents, ih]

theorem expectedLog_start (prev : Buffer) (blocks : List Buffer) :
    expectedLog prev blocks false ++ [.before_chunk (blocks.getLast?.getD prev)]
      = expectedLog prev blocks true := by
  induction blocks generalizing prev with
  | nil => simp [expectedLog]
  | cons b bs ih =>
    have h : (b :: bs).getLast?.getD prev = bs.getLast?.getD b := by
      cases bs with
      | nil => simp
      | cons b2 bs2 =>
        rw [List.getLast?_cons_cons]
        obtain ⟨x, hx⟩ : ∃ x, (b2 :: bs2).getLast? = some x :=
          ⟨_, List.getLast?_eq_getLast _ (List.cons_ne_nil _ _)⟩
        simp [hx]
    simp only [expectedLog, List.cons_append, h, ih]

theorem expectedLog_complete (prev : Buffer) (blocks : List Buffer) (b : Buffer) :
    expectedLog prev blocks true ++ [.chunk b] = expectedLog prev (blocks ++ [b]) false := by
  induction blocks generalizing prev with
  | nil => simp [expectedLog]
  | cons b2 bs ih =>
    rw [List.cons_append]
    simp only [expectedLog, List.cons_append, ih]

theorem chunkEvents_expectedLog (prev : Buffer) (blocks : List Buffer) (started : Bool) :
    chunkEvents (expectedLog prev blocks started) = blocks := by
  induction blocks generalizing prev with
  | nil => cases started <;> simp [expectedLog, chunkEvents]
  | cons b bs ih => simp [expectedLog, chunkEvents, ih]

theorem beforeEvents_expectedLog (prev : Buffer) (blocks : List Buffer) (started : Bool) :
    beforeEvents (expectedLog prev blocks started)
      = (prev :: blocks).take (blocks.length + (if started then 1 else 0)) := by
  induction blocks generalizing prev with
  | nil => cases started <;> simp [expectedLog, beforeEvents]
  | cons b bs ih =>
    simp only [expectedLog, beforeEvents, ih, List.length_cons]
    have : bs.length + 1 + (if started = true then 1 else 0)
        = (bs.length + (if started = true then 1 else 0)) + 1 := by omega
    rw [this, List.take_succ_cons]

/-- One iteration of the write loop, in two parts. -/
theorem ChunkManager.writeLoop_succ {L : Type} (emit : ChunkListener L)
    (buffer : Option Buffer) (length : Int) (fuel : Nat) (l input_cursor : Int)
    (w : ChunkManager × L) :
    ChunkManager.writeLoop emit buffer length (fuel + 1) l input_cursor w
      = if l > 0 then
          if length - input_cursor = 0 then
            .threw "assert(length - input_cursor !== 0)" w
          else (ChunkManager.announce emit w).bind
            (ChunkManager.fillStep emit buffer length fuel l input_cursor)
        else .ok w := rfl

theorem ChunkManager.writeLoop_done {L : Type} (emit : ChunkListener L)
    (buffer : Option Buffer) (length : Int) (fuel : Nat) (l input_cursor : Int)
    (w : ChunkManager × L) (hl : ¬ l > 0) :
    ChunkManager.writeLoop emit buffer length fuel l input_cursor w = .ok w := by
  cases fuel <;> simp [ChunkManager.writeLoop, hl]

theorem RecState.prev_length {c : Nat} {init : Buffer} {blocks : List Buffer} {rest : Buffer}
    {w : ChunkManager × List ChunkEvent} (h : RecState c init blocks rest w) :
    (blocks.getLast?.getD init).length = c := by
  rcases List.eq_nil_or_concat blocks with h0 | ⟨bs, b, h0⟩
  · subst h0; simpa using h.init_len
  · subst h0
    simpa using h.full b (by simp)

/-- The announcement made by a recording accumulator. -/
theorem ChunkManager.announce_recorded {c : Nat} {init : Buffer} {blocks : List Buffer}
    {rest : Buffer} {w : ChunkManager × List ChunkEvent} (h : RecState c init blocks rest w) :
    ChunkManager.announce recorder w = .ok (w.1, expectedLog init blocks true) := by
  obtain ⟨⟨cs, ck, cur, fl⟩, log⟩ := w
  obtain ⟨h1, h2, h3, h4, h5, h6, h7, h8⟩ := h
  simp only at h1 h2 h3 h7 h8
  subst h1 h2 h3 h8
  unfold ChunkManager.announce
  by_cases hr : rest = []
  · subst hr
    simp only [List.length_nil, List.drop_zero, List.nil_append] at h7
    subst h7
    simp [recorder, expectedLog_start]
  · have hpos : 0 < rest.length := List.length_pos.mpr hr
    have : ¬ ((rest.length : Int) = 0) := by omega
    simp [this, hr]

/-- The write loop of a recording accumulator on the first `len` bytes of `b`, from input
position `i`: it returns, having accumulated the bytes `(b.take len).drop i`. -/
theorem ChunkManager.writeLoop_recorded (c : Nat) (init b : Buffer) (len : Nat)
    (hlen : len ≤ b.length) (fuel : Nat) :
    ∀ (i : Nat) (blocks : List Buffer) (rest : Buffer) (w : ChunkManager × List ChunkEvent),
      i ≤ len → len - i ≤ fuel → RecState c init blocks rest w →
      ∃ blocks1 rest1 w1,
        ChunkManager.writeLoop recorder (some b) len fuel ((len : Int) - i) i w = .ok w1
        ∧ RecState c init blocks1 rest1 w1
        ∧ blocks1.flatten ++ rest1 = blocks.flatten ++ rest ++ (b.take len).drop i := by
  induction fuel with
  | zero =>
    intro i blocks rest w hi hf hw
    have : i = len := by omega
    subst this
    refine ⟨blocks, rest, w, ?_, hw, by simp⟩
    exact ChunkManager.writeLoop_done _ _ _ _ _ _ _ (by omega)
  | succ n ih =>
    intro i blocks rest w hi hf hw
    by_cases hil : i = len
    · subst hil
      refine ⟨blocks, rest, w, ?_, hw, by simp⟩
      exact ChunkManager.writeLoop_done _ _ _ _ _ _ _ (by omega)
    · have hlt : i < len := by omega
      have hl : (len : Int) - i > 0 := by omega
      have hne : ¬ ((len : Int) - i = 0) := by omega
      rw [ChunkManager.writeLoop_succ, if_pos hl, if_neg hne,
        ChunkManager.announce_recorded hw, Outcome.bind_ok]
      have hprev := hw.prev_length
      obtain ⟨⟨cs, ck, cur, fl⟩, log⟩ := w
      obtain ⟨h1, h2, h3, h4, h5, h6, h7, h8⟩ := hw
      simp only at h1 h2 h3 h7 h8
      subst h1 h2 h3 h8
      have hcklen : ck.length = c := by
        rw [h7]
        simp only [List.length_append, List.length_drop, hprev]
        omega
      have hcktake : ck.take rest.length = rest := by
        rw [h7, List.take_append_of_le_length (by simp)]
        simp
      unfold ChunkManager.fillStep
      obtain ⟨nb, hmin, hnb1, hnbi, hnbr, _⟩ : ∃ nb : Nat,
          min ((len : Int) - i) ((c : Int) - rest.length) = nb ∧ 1 ≤ nb
            ∧ i + nb ≤ len ∧ rest.length + nb ≤ c
            ∧ (i + nb = len ∨ rest.length + nb = c) :=
        ⟨min (len - i) (c - rest.length), by omega, by omega, by omega, by omega, by omega⟩
      simp only [hmin]
      rw [Buffer.copy_window b ck rest.length i nb hnb1 (by omega) (by omega)]
      simp only [Outcome.bind_ok, hcktake]
      have e1 : (len : Int) - i - nb = (len : Int) - ((i + nb : Nat) : Int) := by
        push_cast; ring
      have e2 : (i : Int) + nb = ((i + nb : Nat) : Int) := by push_cast; ring
      have hx : ((b.take (i + nb)).drop i).length = nb := by
        simp only [List.length_drop, List.length_take]; omega
      have hdrop : (b.take (i + nb)).drop i ++ (b.take len).drop (i + nb)
          = (b.take len).drop i := by
        have h := List.take_append_drop (i + nb) (b.take len)
        have htt : (b.take len).take (i + nb) = b.take (i + nb) := by
          rw [List.take_take]; congr 1; omega
        rw [htt] at h
        conv_rhs => rw [← h]
        rw [List.drop_append_of_le_length (by simp; omega)]
      have hckdrop : ck.drop (rest.length + nb)
          = (blocks.getLast?.getD init).drop (rest.length + nb) := by
        rw [h7, List.drop_append_eq_append_drop]
        simp only [List.drop_drop]
        rw [List.drop_of_length_le (by omega), List.nil_append]
        congr 1
        omega
      by_cases hfull : rest.length + nb = c
      · have heq : (rest.length : Int) + nb = (c : Int) := by omega
        simp only [heq, ge_iff_le, le_refl, if_true]
        have hck0 : ck.drop (rest.length + nb) = [] := by
          apply List.drop_of_length_le; omega
        rw [hck0, List.append_nil]
        simp only [recorder, Outcome.bind_ok, e1, e2]
        obtain ⟨blocks1, rest1, w1, g1, g2, g3⟩ := ih (i + nb)
          (blocks ++ [rest ++ (b.take (i + nb)).drop i]) []
          ({ chunk_size := c, chunk := rest ++ (b.take (i + nb)).drop i, cursor := 0,
             _in_before_chunk := false },
            expectedLog init blocks true ++ [.chunk (rest ++ (b.take (i + nb)).drop i)])
          hnbi (by omega)
          { size := rfl, flag := rfl, cursor := by simp, room := by simp; omega,
            init_len := h5,
            full := by
              intro x hxm
              rcases List.mem_append.mp hxm with hxm | hxm
              · exact h6 x hxm
              · simp only [List.mem_singleton] at hxm
                subst hxm
                simp only [List.length_append, hx]; omega,
            content := by simp,
            log := by simp [expectedLog_complete] }
        refine ⟨blocks1, rest1, w1, g1, g2, ?_⟩
        rw [g3]
        simp only [List.flatten_append, List.flatten_cons, List.flatten_nil, List.append_nil,
          List.append_assoc, hdrop]
      · have hge : ¬ ((rest.length : Int) + nb ≥ (c : Int)) := by omega
        simp only [hge, if_false, Outcome.bind_ok, e1, e2]
        have hrne : rest ++ (b.take (i + nb)).drop i ≠ [] := by
          intro h0
          have := congrArg List.length h0
          simp only [List.length_append, hx, List.length_nil] at this
          omega
        obtain ⟨blocks1, rest1, w1, g1, g2, g3⟩ := ih (i + nb)
          blocks (rest ++ (b.take (i + nb)).drop i)
          ({ chunk_size := c,
             chunk := rest ++ (b.take (i + nb)).drop i ++ ck.drop (rest.length + nb),
             cursor := (rest.length : Int) + nb,
             _in_before_chunk := false }, expectedLog init blocks true)
          hnbi (by omega)
          { size := rfl, flag := rfl,
            cursor := by simp only [List.length_append, hx]; push_cast; rfl,
            room := by simp only [List.length_append, hx]; omega,
            init_len := h5, full := h6,
            content := by
              simp only [List.length_append, hx, hckdrop],
            log := by simp [hrne] }
        refine ⟨blocks1, rest1, w1, g1, g2, ?_⟩
        rw [g3]
        simp only [List.append_assoc, hdrop]

/-- One `write` of the first `len ≥ 1` bytes of a buffer to a recording accumulator. -/
theorem ChunkManager.write_recorded (c : Nat) (init b : Buffer) (len : Nat)
    (hlen : len ≤ b.length) (hpos : 1 ≤ len) (blocks : List Buffer) (rest : Buffer)
    (w : ChunkManager × List ChunkEvent) (hw : RecState c init blocks rest w) :
    ∃ blocks1 rest1 w1, ChunkManager.write recorder (some b) len w = .ok w1
      ∧ RecState c init blocks1 rest1 w1
      ∧ blocks1.flatten ++ rest1 = blocks.flatten ++ rest ++ b.take len := by
  obtain ⟨blocks1, rest1, w1, g1, g2, g3⟩ :=
    ChunkManager.writeLoop_recorded c init b len hlen len 0 blocks rest w (by omega)
      (by omega) hw
  refine ⟨blocks1, rest1, w1, ?_, g2, by simpa using g3⟩
  unfold ChunkManager.write
  have hne : ¬ ((len : Int) = 0) := by omega
  simp only [hne, if_false, Int.toNat_ofNat]
  simpa using g1

/-- A sequence of writes of non-empty buffers to a recording accumulator. -/
theorem ChunkManager.writeAll_recorded (c : Nat) (init : Buffer) (pieces : List Buffer) :
    ∀ (blocks : List Buffer) (rest : Buffer) (w : ChunkManager × List ChunkEvent),
      (∀ p ∈ pieces, p ≠ []) → RecState c init blocks rest w →
      ∃ blocks1 rest1 w1, ChunkManager.writeAll recorder pieces w = .ok w1
        ∧ RecState c init blocks1 rest1 w1
        ∧ blocks1.flatten ++ rest1 = blocks.flatten ++ rest ++ pieces.flatten := by
  induction pieces with
  | nil =>
    intro blocks rest w _ h
    exact ⟨blocks, rest, w, rfl, h, by simp⟩
  | cons b tl ih =>
    intro blocks rest w hp h
    have hb : 1 ≤ b.length := List.length_pos.mpr (hp b (List.mem_cons_self _ _))
    obtain ⟨blocks1, rest1, w1, g1, g2, g3⟩ :=
      ChunkManager.write_recorded c init b b.length (le_refl _) hb blocks rest w h
    rw [List.take_length] at g3
    obtain ⟨blocks2, rest2, w2, k1, k2, k3⟩ :=
      ih blocks1 rest1 w1 (fun p hpm => hp p (List.mem_cons_of_mem _ hpm)) g2
    refine ⟨blocks2, rest2, w2, ?_, k2, ?_⟩
    · simp only [ChunkManager.writeAll, g1, Outcome.bind_ok, k1]
    · rw [k3, g3]
      simp

/-- A fresh accumulator of capacity `c ≥ 1` with recording listeners. -/
theorem ChunkManager.new_recorded (c : Nat) (hc : 1 ≤ c) :
    RecState c (Buffer.alloc c) [] [] (ChunkManager.new c, []) := by
  have h0 : ¬ ((c : Int) = 0) := by omega
  refine { size := ?_, flag := ?_, cursor := ?_, room := ?_, init_len := ?_, full := ?_,
           content := ?_, log := ?_ }
  all_goals simp [ChunkManager.new, Buffer.alloc, h0, expectedLog]
  omega

/-- A byte sequence is cut into blocks of `c` bytes and a shorter rest in one way only. -/
theorem blocks_unique (c : Nat) :
    ∀ (bs1 bs2 : List Buffer) (r1 r2 : Buffer),
      (∀ x ∈ bs1, x.length = c) → (∀ x ∈ bs2, x.length = c) → r1.length < c → r2.length < c →
      bs1.flatten ++ r1 = bs2.flatten ++ r2 → bs1 = bs2 ∧ r1 = r2 := by
  intro bs1
  induction bs1 with
  | nil =>
    intro bs2 r1 r2 _ h2 hr1 _ heq
    cases bs2 with
    | nil => exact ⟨rfl, by simpa using heq⟩
    | cons b2 t2 =>
      exfalso
      have := congrArg List.length heq
      have hb2 := h2 b2 (List.mem_cons_self _ _)
      simp only [List.flatten_nil, List.nil_append, List.flatten_cons, List.length_append,
        hb2] at this
      omega
  | cons b1 t1 ih =>
    intro bs2 r1 r2 h1 h2 hr1 hr2 heq
    have hb1 := h1 b1 (List.mem_cons_self _ _)
    cases bs2 with
    | nil =>
      exfalso
      have := congrArg List.length heq
      simp only [List.flatten_nil, List.nil_append, List.flatten_cons, List.length_append,
        hb1] at this
      omega
    | cons b2 t2 =>
      have hb2 := h2 b2 (List.mem_cons_self _ _)
      simp only [List.flatten_cons, List.append_assoc] at heq
      obtain ⟨e1, e2⟩ := List.append_inj heq (by omega)
      obtain ⟨e3, e4⟩ := ih t2 r1 r2 (fun x hx => h1 x (List.mem_cons_of_mem _ hx))
        (fun x hx => h2 x (List.mem_cons_of_mem _ hx)) hr1 hr2 e2
      exact ⟨by rw [e1, e3], e4⟩

/-- The `i`-th block of a byte sequence cut into blocks of `c` bytes is its bytes
`[i * c, (i + 1) * c)`. -/
theorem block_at (c : Nat) :
    ∀ (blocks : List Buffer) (rest : Buffer) (i : Nat),
      (∀ x ∈ blocks, x.length = c) → i < blocks.length →
      blocks[i]? = some (((blocks.flatten ++ rest).drop (i * c)).take c) := by
  intro blocks
  induction blocks with
  | nil => intro rest i _ hi; simp at hi
  | cons b tl ih =>
    intro rest i h hi
    have hb := h b (List.mem_cons_self _ _)
    cases i with
    | zero =>
      simp only [List.getElem?_cons_zero, Nat.zero_mul, List.drop_zero, List.flatten_cons,
        List.append_assoc, Option.some.injEq]
      rw [List.take_append_of_le_length (by omega), List.take_of_length_le (by omega)]
    | succ j =>
      have hj : j < tl.length := by simpa using hi
      rw [List.getElem?_cons_succ, ih rest j (fun x hx => h x (List.mem_cons_of_mem _ hx)) hj]
      have : (j + 1) * c = b.length + j * c := by rw [hb]; ring
      simp only [List.flatten_cons, List.append_assoc, this, List.drop_append]

/-- Number of blocks and length of the rest of `n` bytes cut into blocks of `c` bytes. -/
theorem blocks_count (c k r n : Nat) (hr : r < c) (hn : n = c * k + r) :
    n / c = k ∧ n % c = r ∧ (n + c - 1) / c = k + (if r = 0 then 0 else 1) := by
  subst hn
  have hc : 0 < c := by omega
  refine ⟨?_, ?_, ?_⟩
  · rw [Nat.mul_add_div hc, Nat.div_eq_of_lt hr]; rfl
  · rw [Nat.mul_add_mod, Nat.mod_eq_of_lt hr]
  · by_cases h0 : r = 0
    · subst h0
      simp only [Nat.add_zero, if_true]
      have : c * k + c - 1 = (c - 1) + c * k := by omega
      rw [this, Nat.add_mul_div_left _ _ hc, Nat.div_eq_of_lt (by omega)]
      omega
    · simp only [h0, if_false]
      have : c * k + r + c - 1 = (r - 1) + c * (k + 1) := by
        have : c * (k + 1) = c * k + c := by ring
        omega
      rw [this, Nat.add_mul_div_left _ _ hc, Nat.div_eq_of_lt (by omega)]
      omega

/-- The state of a recording accumulator is determined by the blocks and the rest. -/
theorem RecState.unique {c : Nat} {init : Buffer} {blocks : List Buffer} {rest : Buffer}
    {w w1 : ChunkManager × List ChunkEvent} (h : RecState c init blocks rest w)
    (h1 : RecState c init blocks rest w1) : w = w1 := by
  obtain ⟨⟨cs, ck, cur, fl⟩, log⟩ := w
  obtain ⟨⟨cs1, ck1, cur1, fl1⟩, log1⟩ := w1
  obtain ⟨a1, a2, a3, _, _, _, a7, a8⟩ := h
  obtain ⟨b1, b2, b3, _, _, _, b7, b8⟩ := h1
  simp only at a1 a2 a3 a7 a8 b1 b2 b3 b7 b8
  subst a1 a2 a3 a7 a8 b1 b2 b3 b7 b8
  rfl

/-- The call `end()` on a recording accumulator: the incomplete block, if it holds any
byte, is emitted unpadded, and the cursor is reset. -/
theorem ChunkManager.end_recorded {c : Nat} {init : Buffer} {blocks : List Buffer}
    {rest : Buffer} {w : ChunkManager × List ChunkEvent} (h : RecState c init blocks rest w) :
    ∃ cm2, ChunkManager.end_ recorder w
        = .ok (cm2, w.2 ++ (if rest = [] then [] else [.chunk rest]))
      ∧ cm2.cursor = 0 := by
  obtain ⟨⟨cs, ck, cur, fl⟩, log⟩ := w
  obtain ⟨h1, h2, h3, h4, h5, h6, h7, h8⟩ := h
  simp only at h1 h2 h3 h7 h8
  subst h1 h2 h3 h8
  unfold ChunkManager.end_
  by_cases hr : rest = []
  · subst hr
    simp
  · have hpos : 0 < rest.length := List.length_pos.mpr hr
    have h0 : (rest.length : Int) > 0 := by omega
    have htake : ck.take rest.length = rest := by
      rw [h7, List.take_append_of_le_length (by simp)]
      simp
    simp only [h0, if_true, fill_padding, Bool.false_eq_true, if_false, Outcome.bind_ok, hr,
      Buffer.slice_zero, htake, recorder]
    exact ⟨_, rfl, rfl⟩

/-- While an announcement is in progress (`_in_before_chunk` set), the write loop of a
recording accumulator records no "before_chunk". -/
theorem ChunkManager.writeLoop_in_before (buffer : Option Buffer) (length : Int)
    (X : List Buffer) (fuel : Nat) :
    ∀ (l input_cursor : Int) (w : ChunkManager × List ChunkEvent),
      (w.1._in_before_chunk = true ∧ beforeEvents w.2 = X) →
      ((ChunkManager.writeLoop recorder buffer length fuel l input_cursor w).state.1._in_before_chunk
          = true
        ∧ beforeEvents
            (ChunkManager.writeLoop recorder buffer length fuel l input_cursor w).state.2 = X) := by
  induction fuel with
  | zero =>
    intro l ic w hw
    unfold ChunkManager.writeLoop
    split <;> exact hw
  | succ n ih =>
    intro l ic w hw
    rw [ChunkManager.writeLoop_succ]
    split
    · split
      · exact hw
      · have hann : ChunkManager.announce recorder w = .ok w := by
          unfold ChunkManager.announce
          simp [hw.1]
        rw [hann, Outcome.bind_ok]
        unfold ChunkManager.fillStep
        refine Outcome.bind_state_inv
          (fun w : ChunkManager × List ChunkEvent =>
            w.1._in_before_chunk = true ∧ beforeEvents w.2 = X) _ _ ?_ ?_ <;> beta_reduce
        · cases buffer with
          | none => exact hw
          | some b =>
            simp only
            split <;> exact hw
        · intro w3 hw3
          refine Outcome.bind_state_inv
            (fun w : ChunkManager × List ChunkEvent =>
              w.1._in_before_chunk = true ∧ beforeEvents w.2 = X) _ _ ?_ ?_ <;> beta_reduce
          · split
            · split
              · simp only [recorder, Outcome.bind_ok, Outcome.state_ok]
                refine ⟨hw3.1, ?_⟩
                rw [beforeEvents_append, hw3.2]
                simp [beforeEvents]
              · exact hw3
            · exact hw3
          · intro w6 hw6
            exact ih _ _ w6 hw6
    · exact hw

/-! ## Claims on the accumulator -/

/-- C18. Accumulator blocks: for a `ChunkManager` of capacity `c ≥ 1` with recording
listeners and any sequence of writes from non-empty Buffers (length equal to each
buffer's length) totalling `n` bytes, the writes return and emit exactly `n / c` "chunk"
notifications, each of `c` bytes, the `i`-th (from 0) being bytes `[i*c, (i+1)*c)` of
the concatenated input, and leave the cursor at `n mod c`; `end()` then emits one more
block holding the remaining `n mod c` bytes (unpadded) when that is non-zero, emits
nothing when it is zero, and resets the cursor to 0. -/
theorem C18_accumulator_blocks (c : Nat) (pieces : List Buffer) (hc : 1 ≤ c)
    (hpieces : ∀ p ∈ pieces, p ≠ []) :
    ∃ cm log, ChunkManager.writeAll recorder pieces (ChunkManager.new c, []) = .ok (cm, log)
      ∧ (chunkEvents log).length = pieces.flatten.length / c
      ∧ (∀ x ∈ chunkEvents log, x.length = c)
      ∧ (∀ i, i < pieces.flatten.length / c →
          (chunkEvents log)[i]? = some ((pieces.flatten.drop (i * c)).take c))
      ∧ cm.cursor = ((pieces.flatten.length % c : Nat) : Int)
      ∧ ∃ cm2 log2, ChunkManager.end_ recorder (cm, log) = .ok (cm2, log2)
          ∧ cm2.cursor = 0
          ∧ log2 = log ++
              (if pieces.flatten.length % c = 0 then []
               else [ChunkEvent.chunk (pieces.flatten.drop
                      (pieces.flatten.length - pieces.flatten.length % c))]) := by
  obtain ⟨blocks, rest, ⟨cm, log⟩, hw, hs, hflat⟩ :=
    ChunkManager.writeAll_recorded c (Buffer.alloc c) pieces [] [] (ChunkManager.new c, [])
      hpieces (ChunkManager.new_recorded c hc)
  simp only [List.flatten_nil, List.nil_append] at hflat
  have hlen : pieces.flatten.length = c * blocks.length + rest.length := by
    rw [← hflat, List.length_append, flatten_length_of_uniform c blocks hs.full]
  obtain ⟨hdiv, hmod, _⟩ := blocks_count c blocks.length rest.length pieces.flatten.length
    hs.room hlen
  have hlog : chunkEvents log = blocks := by
    have := hs.log
    simp only at this
    rw [this, chunkEvents_expectedLog]
  have hrest : pieces.flatten.drop (pieces.flatten.length - rest.length) = rest := by
    rw [← hflat, List.length_append, Nat.add_sub_cancel,
      List.drop_append_of_le_length (le_refl _), List.drop_length, List.nil_append]
  obtain ⟨cm2, hend, hcur⟩ := ChunkManager.end_recorded hs
  refine ⟨cm, log, hw, ?_, ?_, ?_, ?_, cm2, _, hend, hcur, ?_⟩
  · rw [hlog, hdiv]
  · rw [hlog]; exact hs.full
  · intro i hi
    rw [hlog, ← hflat]
    exact block_at c blocks rest i hs.full (by omega)
  · rw [hmod]; exact hs.cursor
  · rw [hmod, hrest]
    by_cases hr : rest = []
    · simp [hr]
    · have : rest.length ≠ 0 := fun h => hr (List.length_eq_zero.mp h)
      rw [if_neg hr, if_neg this]

/-- Witness for C18: seven bytes in two writes, capacity 3. -/
theorem C18_accumulator_blocks_witness :
    ∃ cm log, ChunkManager.writeAll recorder [[1, 2], [3, 4, 5, 6, 7]] (ChunkManager.new 3, [])
        = .ok (cm, log)
      ∧ (chunkEvents log).length = ([[1, 2], [3, 4, 5, 6, 7]] : List Buffer).flatten.length / 3
      ∧ (∀ x ∈ chunkEvents log, x.length = 3)
      ∧ (∀ i, i < ([[1, 2], [3, 4, 5, 6, 7]] : List Buffer).flatten.length / 3 →
          (chunkEvents log)[i]?
            = some ((([[1, 2], [3, 4, 5, 6, 7]] : List Buffer).flatten.drop (i * 3)).take 3))
      ∧ cm.cursor = ((([[1, 2], [3, 4, 5, 6, 7]] : List Buffer).flatten.length % 3 : Nat) : Int)
      ∧ ∃ cm2 log2, ChunkManager.end_ recorder (cm, log) = .ok (cm2, log2)
          ∧ cm2.cursor = 0
          ∧ log2 = log ++
              (if ([[1, 2], [3, 4, 5, 6, 7]] : List Buffer).flatten.length % 3 = 0 then []
               else [ChunkEvent.chunk (([[1, 2], [3, 4, 5, 6, 7]] : List Buffer).flatten.drop
                      (([[1, 2], [3, 4, 5, 6, 7]] : List Buffer).flatten.length
                        - ([[1, 2], [3, 4, 5, 6, 7]] : List Buffer).flatten.length % 3))]) :=
  C18_accumulator_blocks 3 [[1, 2], [3, 4, 5, 6, 7]] (by decide) (by decide)

/-- C19. For a `ChunkManager` of capacity `c ≥ 1` whose listeners only record, after
writes of non-empty Buffers totalling `n` bytes the number of "before_chunk"
notifications is `ceil(n / c)`: one per block begun.  Each is fired before any byte of
its block is copied: it comes in the log before the "chunk" of its block and carries
the contents left by the block before (the fresh buffer for the first).  And a write
issued while a "before_chunk" is being delivered (`_in_before_chunk` set), whatever its
buffer and length, fires no "before_chunk". -/
theorem C19_before_chunk (c : Nat) (pieces : List Buffer) (hc : 1 ≤ c)
    (hpieces : ∀ p ∈ pieces, p ≠ []) :
    (∃ cm log, ChunkManager.writeAll recorder pieces (ChunkManager.new c, []) = .ok (cm, log)
      ∧ (beforeEvents log).length = (pieces.flatten.length + c - 1) / c
      ∧ beforeEvents log
          = (Buffer.alloc c :: chunkEvents log).take ((pieces.flatten.length + c - 1) / c)
      ∧ log = expectedLog (Buffer.alloc c) (chunkEvents log)
          (decide (pieces.flatten.length % c ≠ 0)))
    ∧ (∀ (buffer : Option Buffer) (length : Int) (cm : ChunkManager) (log : List ChunkEvent),
        cm._in_before_chunk = true →
        beforeEvents (ChunkManager.write recorder buffer length (cm, log)).state.2
          = beforeEvents log) := by
  constructor
  · obtain ⟨blocks, rest, ⟨cm, log⟩, hw, hs, hflat⟩ :=
      ChunkManager.writeAll_recorded c (Buffer.alloc c) pieces [] [] (ChunkManager.new c, [])
        hpieces (ChunkManager.new_recorded c hc)
    simp only [List.flatten_nil, List.nil_append] at hflat
    have hlen : pieces.flatten.length = c * blocks.length + rest.length := by
      rw [← hflat, List.length_append, flatten_length_of_uniform c blocks hs.full]
    obtain ⟨_, hmod, hceil⟩ := blocks_count c blocks.length rest.length
      pieces.flatten.length hs.room hlen
    have hlogeq : log = expectedLog (Buffer.alloc c) blocks (decide (rest ≠ [])) := hs.log
    have hlog : chunkEvents log = blocks := by
      rw [hlogeq, chunkEvents_expectedLog]
    have hdec : (decide (rest ≠ [])) = decide (pieces.flatten.length % c ≠ 0) := by
      rw [hmod]
      by_cases hr : rest = []
      · simp [hr]
      · have : rest.length ≠ 0 := fun h => hr (List.length_eq_zero.mp h)
        simp [hr, this]
    have hcount : blocks.length + (if (decide (rest ≠ [])) = true then 1 else 0)
        = (pieces.flatten.length + c - 1) / c := by
      rw [hceil]
      by_cases hr : rest = []
      · simp [hr]
      · have : rest.length ≠ 0 := fun h => hr (List.length_eq_zero.mp h)
        simp [hr, this]
    have hbefore : beforeEvents log
        = (Buffer.alloc c :: blocks).take ((pieces.flatten.length + c - 1) / c) := by
      rw [hlogeq, beforeEvents_expectedLog, hcount]
    refine ⟨cm, log, hw, ?_, ?_, ?_⟩
    · rw [hbefore, List.length_take, List.length_cons, ← hcount]
      split <;> omega
    · rw [hlog]; exact hbefore
    · rw [hlog, ← hdec]; exact hlogeq
  · intro buffer length cm log hflag
    unfold ChunkManager.write
    split
    · rfl
    · exact (ChunkManager.writeLoop_in_before buffer length (beforeEvents log) _ _ _
        (cm, log) ⟨hflag, rfl⟩).2

/-- Witness for C19: seven bytes in two writes, capacity 3. -/
theorem C19_before_chunk_witness :
    (∃ cm log, ChunkManager.writeAll recorder [[1, 2], [3, 4, 5, 6, 7]] (ChunkManager.new 3, [])
        = .ok (cm, log)
      ∧ (beforeEvents log).length
          = (([[1, 2], [3, 4, 5, 6, 7]] : List Buffer).flatten.length + 3 - 1) / 3
      ∧ beforeEvents log
          = (Buffer.alloc 3 :: chunkEvents log).take
              ((([[1, 2], [3, 4, 5, 6, 7]] : List Buffer).flatten.length + 3 - 1) / 3)
      ∧ log = expectedLog (Buffer.alloc 3) (chunkEvents log)
          (decide (([[1, 2], [3, 4, 5, 6, 7]] : List Buffer).flatten.length % 3 ≠ 0)))
    ∧ (∀ (buffer : Option Buffer) (length : Int) (cm : ChunkManager) (log : List ChunkEvent),
        cm._in_before_chunk = true →
        beforeEvents (ChunkManager.write recorder buffer length (cm, log)).state.2
          = beforeEvents log) :=
  C19_before_chunk 3 [[1, 2], [3, 4, 5, 6, 7]] (by decide) (by decide)

/-- C17, as stated, fails: a write with the negative length -2 returns normally, and a
write of a 3-byte Buffer with length 2 returns normally having accumulated 2 bytes. -/
theorem C17_counterexample :
    ChunkManager.write recorder (some [1, 2, 3]) (-2) (ChunkManager.new 4, [])
      = .ok (ChunkManager.new 4, [])
    ∧ ChunkManager.write recorder (some [1, 2, 3]) 2 (ChunkManager.new 4, [])
      = .ok ({ chunk_size := 4, chunk := [1, 2, 0, 0], cursor := 2,
               _in_before_chunk := false }, [ChunkEvent.before_chunk [0, 0, 0, 0]]) := by
  constructor <;> rfl

/-- C17, amended. `ChunkManager.write` does not fail when `length` is negative: whatever
the buffer, the listeners and the state, it returns normally and changes nothing (no
byte accumulated, no notification).  Nor does it fail when `buffer` is a Buffer longer
than the `length` argument: on a fresh accumulator of capacity `c ≥ 1` it returns
normally, exactly as the write of the first `length` bytes of the buffer alone. -/
theorem C17_inconsistent_length_accepted (c : Nat) (b : Buffer) (len : Nat)
    (hc : 1 ≤ c) (hlen1 : 1 ≤ len) (hlen : len ≤ b.length) :
    (∀ (L : Type) (emit : ChunkListener L) (buffer : Option Buffer) (length : Int)
        (w : ChunkManager × L), length < 0 → ChunkManager.write emit buffer length w = .ok w)
    ∧ ∃ w1, ChunkManager.write recorder (some b) len (ChunkManager.new c, []) = .ok w1
        ∧ ChunkManager.write recorder (some (b.take len)) len (ChunkManager.new c, [])
            = .ok w1 := by
  constructor
  · intro L emit buffer length w hneg
    unfold ChunkManager.write
    have h0 : ¬ (length = 0) := by omega
    rw [if_neg h0]
    exact ChunkManager.writeLoop_done _ _ _ _ _ _ _ (by omega)
  · obtain ⟨bs1, r1, w1, g1, g2, g3⟩ := ChunkManager.write_recorded c (Buffer.alloc c) b len
      hlen hlen1 [] [] (ChunkManager.new c, []) (ChunkManager.new_recorded c hc)
    obtain ⟨bs2, r2, w2, k1, k2, k3⟩ := ChunkManager.write_recorded c (Buffer.alloc c)
      (b.take len) len (by simp; omega) hlen1 [] [] (ChunkManager.new c, [])
      (ChunkManager.new_recorded c hc)
    have htt : (b.take len).take len = b.take len := by
      rw [List.take_take]; simp
    rw [htt] at k3
    obtain ⟨e1, e2⟩ := blocks_unique c bs1 bs2 r1 r2 g2.full k2.full g2.room k2.room
      (by rw [g3, k3])
    subst e1 e2
    have : w1 = w2 := g2.unique k2
    subst this
    exact ⟨w1, g1, k1⟩

/-- Witness for C17: a 3-byte buffer written with length 2, capacity 4. -/
theorem C17_inconsistent_length_accepted_witness :
    (∀ (L : Type) (emit : ChunkListener L) (buffer : Option Buffer) (length : Int)
        (w : ChunkManager × L), length < 0 → ChunkManager.write emit buffer length w = .ok w)
    ∧ ∃ w1, ChunkManager.write recorder (some [1, 2, 3]) (2 : Nat) (ChunkManager.new (4 : Nat), [])
          = .ok w1
        ∧ ChunkManager.write recorder (some (([1, 2, 3] : Buffer).take 2)) (2 : Nat)
            (ChunkManager.new (4 : Nat), []) = .ok w1 :=
  C17_inconsistent_length_accepted 4 [1, 2, 3] 2 (by decide) (by decide) (by decide)

/-! ## The single pending-chunk invariant -/

theorem Outcome.map_bind {σ τ : Type} (p : σ → τ) (r : Outcome σ) (f : σ → Outcome σ)
    (g : τ → Outcome τ) (h : ∀ s, (f s).map p = g (p s)) :
    (r.bind f).map p = (r.map p).bind g := by
  cases r with
  | ok s => exact h s
  | threw m s => rfl
  | diverged s => rfl

theorem Outcome.map_map {σ τ υ : Type} (p : σ → τ) (q : τ → υ) (r : Outcome σ) :
    (r.map p).map q = r.map (fun s => q (p s)) := by
  cases r <;> rfl

/-- The write loop does not depend on a counter kept beside the listeners' state. -/
theorem ChunkManager.writeLoop_dropCount {L G : Type} (emit : ChunkListener L)
    (emit2 : ChunkListener (L × G))
    (hsim : ∀ ev w, (emit2 ev w).map dropCount = emit ev (dropCount w))
    (buffer : Option Buffer) (length : Int) (fuel : Nat) :
    ∀ (l input_cursor : Int) (w : ChunkManager × (L × G)),
      (ChunkManager.writeLoop emit2 buffer length fuel l input_cursor w).map dropCount
        = ChunkManager.writeLoop emit buffer length fuel l input_cursor (dropCount w) := by
  induction fuel with
  | zero =>
    intro l ic w
    unfold ChunkManager.writeLoop
    split <;> rfl
  | succ n ih =>
    intro l ic w
    rw [ChunkManager.writeLoop_succ, ChunkManager.writeLoop_succ]
    split
    · split
      · rfl
      · rw [Outcome.map_bind dropCount _ _
          (ChunkManager.fillStep emit buffer length n l ic)]
        · congr 1
          unfold ChunkManager.announce
          by_cases hcond : w.1.cursor = 0 ∧ w.1._in_before_chunk = false
          · have hcond2 : (dropCount w).1.cursor = 0
                ∧ (dropCount w).1._in_before_chunk = false := hcond
            rw [if_pos hcond, if_pos hcond2, Outcome.map_bind dropCount _ _
              (fun w1 => .ok ({ w1.1 with _in_before_chunk := false }, w1.2))]
            · rw [hsim]; rfl
            · intro s; rfl
          · have hcond2 : ¬ ((dropCount w).1.cursor = 0
                ∧ (dropCount w).1._in_before_chunk = false) := hcond
            rw [if_neg hcond, if_neg hcond2]; rfl
        · intro w2
          unfold ChunkManager.fillStep
          simp only
          rw [Outcome.map_bind dropCount]
          · congr 1
            cases buffer with
            | none => rfl
            | some b =>
              simp only [dropCount]
              split <;> rfl
          · intro w3
            rw [Outcome.map_bind dropCount]
            · congr 1
              simp only [dropCount]
              split
              · split
                · rw [Outcome.map_bind dropCount _ _
                    (fun w5 => .ok ({ w5.1 with cursor := 0 }, w5.2))]
                  · rw [hsim]; rfl
                  · intro s; rfl
                · rfl
              · rfl
            · intro w6
              exact ih _ _ w6
    · rfl

theorem Outcome.map_id_fun {σ : Type} (p : σ → σ) (r : Outcome σ) (h : ∀ s, p s = s) :
    r.map p = r := by
  cases r <;> simp [Outcome.map, h]

theorem ChunkManager.write_dropCount {L G : Type} (emit : ChunkListener L)
    (emit2 : ChunkListener (L × G))
    (hsim : ∀ ev w, (emit2 ev w).map dropCount = emit ev (dropCount w))
    (buffer : Option Buffer) (length : Int) (w : ChunkManager × (L × G)) :
    (ChunkManager.write emit2 buffer length w).map dropCount
      = ChunkManager.write emit buffer length (dropCount w) := by
  unfold ChunkManager.write
  split
  · rfl
  · exact ChunkManager.writeLoop_dropCount emit emit2 hsim buffer length _ _ _ w

theorem ChunkManager.end_dropCount {L G : Type} (emit : ChunkListener L)
    (emit2 : ChunkListener (L × G))
    (hsim : ∀ ev w, (emit2 ev w).map dropCount = emit ev (dropCount w))
    (w : ChunkManager × (L × G)) :
    (ChunkManager.end_ emit2 w).map dropCount = ChunkManager.end_ emit (dropCount w) := by
  unfold ChunkManager.end_
  by_cases hcur : w.1.cursor > 0
  · have hcur2 : (dropCount w).1.cursor > 0 := hcur
    rw [if_pos hcur, if_pos hcur2]
    simp only [fill_padding, Bool.false_eq_true, if_false, Outcome.bind_ok]
    rw [Outcome.map_bind dropCount _ _ (fun w2 => .ok ({ w2.1 with cursor := 0 }, w2.2))]
    · rw [hsim]; rfl
    · intro s; rfl
  · have hcur2 : ¬ ((dropCount w).1.cursor > 0) := hcur
    rw [if_neg hcur, if_neg hcur2]; rfl

theorem MessageChunkManager.countingListener_dropCount (ev : ChunkEvent)
    (w : ChunkManager × (MessageChunkManager × Nat)) :
    (MessageChunkManager.countingListener ev w).map dropCount
      = MessageChunkManager.listener ev (dropCount w) := by
  unfold MessageChunkManager.countingListener
  rw [Outcome.map_map]
  exact Outcome.map_id_fun _ _ (fun s => rfl)

/-- Forgetting the counter, a call on the counting framer is the call on the framer. -/
theorem MessageChunkManager.callCounted_fst (c : FramerCall)
    (s : MessageChunkManager × Nat) :
    (MessageChunkManager.callCounted c s).map Prod.fst = MessageChunkManager.call c s.1 := by
  have hrep : ∀ r : Outcome (ChunkManager × (MessageChunkManager × Nat)),
      (r.map MessageChunkManager.repackCounted).map Prod.fst
        = (r.map dropCount).map MessageChunkManager.repack := by
    intro r
    rw [Outcome.map_map, Outcome.map_map]
    rfl
  have hsend : ∀ finalC (s : MessageChunkManager × Nat),
      (MessageChunkManager.sendCounted finalC s).map Prod.fst
        = MessageChunkManager._sendPendingChunk finalC s.1 := by
    intro finalC s
    unfold MessageChunkManager.sendCounted
    rw [Outcome.map_map]
    exact Outcome.map_id_fun _ _ (fun _ => rfl)
  cases c with
  | write buffer length =>
    simp only [MessageChunkManager.callCounted, MessageChunkManager.call,
      MessageChunkManager.write]
    rw [hrep, ChunkManager.write_dropCount MessageChunkManager.listener _
      MessageChunkManager.countingListener_dropCount]
    rfl
  | end_ =>
    simp only [MessageChunkManager.callCounted, MessageChunkManager.call,
      MessageChunkManager.end_]
    rw [Outcome.map_bind Prod.fst _ _ (MessageChunkManager._sendPendingChunk charF)
      (fun s => hsend charF s), hrep,
      ChunkManager.end_dropCount MessageChunkManager.listener _
        MessageChunkManager.countingListener_dropCount]
    rfl
  | abort =>
    simp only [MessageChunkManager.callCounted, MessageChunkManager.call,
      MessageChunkManager.abort]
    rw [Outcome.map_bind Prod.fst _ _ (MessageChunkManager._sendPendingChunk charA)
      (fun s => hsend charA s), hrep,
      ChunkManager.end_dropCount MessageChunkManager.listener _
        MessageChunkManager.countingListener_dropCount]
    rfl

/-- Forgetting the counter, a run of the counting framer is the run of the framer. -/
theorem MessageChunkManager.runCounted_fst (calls : List FramerCall) :
    ∀ s : MessageChunkManager × Nat,
      (MessageChunkManager.runCounted calls s).map Prod.fst
        = MessageChunkManager.run calls s.1 := by
  induction calls with
  | nil => intro s; rfl
  | cons c rest ih =>
    intro s
    have hc := MessageChunkManager.callCounted_fst c s
    unfold MessageChunkManager.runCounted MessageChunkManager.run
    cases hr : MessageChunkManager.callCounted c s with
    | ok s1 =>
      rw [hr] at hc
      rw [← hc]
      exact ih s1
    | threw msg s1 =>
      rw [hr] at hc
      rw [← hc]
      simp only [Outcome.map_threw]
      split
      · rfl
      · exact ih s1
    | diverged s1 =>
      rw [hr] at hc
      rw [← hc]
      rfl

/-- A copy of at least one requested byte to a window inside the target succeeds and
keeps the target's length, whatever the source holds. -/
theorem Buffer.copy_total (src tgt : Buffer) (ts i nb : Nat) (hnb : 1 ≤ nb)
    (ht : ts + nb ≤ tgt.length) :
    ∃ r, Buffer.copy src tgt (ts : Int) (i : Int) ((i : Int) + (nb : Int)) = .ok r
      ∧ r.length = tgt.length := by
  unfold Buffer.copy
  have e1 : (if (ts : Int) ≥ 0 then (ts : Int) else 0) = ts := by simp
  have e2 : (if (i : Int) ≥ 0 then (i : Int) else 0) = i := by simp
  simp only [e1, e2]
  by_cases hlt : (i : Int) + nb < (src.length : Int)
  · have htarget := Buffer.copy_window src tgt ts i nb hnb (by omega) ht
    unfold Buffer.copy at htarget
    simp only [e1, e2] at htarget
    rw [htarget]
    refine ⟨_, rfl, ?_⟩
    simp only [List.length_append, List.length_take, List.length_drop]
    omega
  · simp only [hlt, if_false]
    by_cases hc1 : ((src.length : Int) = (i : Int) ∨ tgt.length = 0 ∨ src.length = 0
        ∨ (i : Int) > (src.length : Int))
    · rw [if_pos hc1]
      exact ⟨_, rfl, rfl⟩
    · rw [if_neg hc1]
      have hsi : i < src.length := by
        by_contra hcon
        apply hc1
        by_cases h : src.length = i
        · left; omega
        · right; right; right; omega
      have c2 : ¬ ((src.length : Int) < (i : Int)) := by omega
      have c3 : ¬ ((ts : Int) ≥ (tgt.length : Int)) := by omega
      have c4 : ¬ ((tgt.length : Int) - (ts : Int) < (src.length : Int) - (i : Int)) := by
        omega
      simp only [c2, c3, c4, if_false, Int.toNat_ofNat]
      refine ⟨_, rfl, ?_⟩
      simp only [List.length_append, List.length_take, List.length_drop]
      omega

/-- Flushing a pending chunk that has room for its header. -/
theorem MessageChunkManager.sendPendingChunk_some {mt : JsString} {sc H B : Nat}
    (P : FramerParams mt sc H B) (m : MessageChunkManager) (t : Nat) (ht : t ≤ 255)
    (p : Buffer) (hp1 : H ≤ p.length) (hp2 : p.length ≤ H + B)
    (h1 : m.msgType = mt) (h2 : m.secureChannelId = sc) (h3 : m.sizeOfHeader = H)
    (hp : m.pendingChunk = some p) :
    ∃ sent, MessageChunkManager._sendPendingChunk [t] m
      = .ok { m with emitted := m.emitted ++ [sent], pendingChunk := none } := by
  unfold MessageChunkManager._sendPendingChunk
  simp only [List.length_singleton, ne_eq, not_true_eq_false, if_false, hp, h3]
  rw [Buffer.slice_zero]
  have hb := P.bound
  have hh := P.header
  rw [MessageChunkManager.write_header_and_footer_eq m t _ _ (h1 ▸ P.mt_len)
    (h1 ▸ P.mt_bytes) (h2 ▸ P.channel) ht (by omega)
    (by simp only [List.length_take]; omega)]
  exact ⟨_, rfl⟩

theorem MessageChunkManager.countingListener_before (c : Buffer)
    (w : ChunkManager × (MessageChunkManager × Nat)) :
    MessageChunkManager.countingListener (.before_chunk c) w = .ok w := rfl

/-- The counting "chunk" handler on a block that fits: it returns, the block is counted
and becomes the pending chunk, the chunk that was pending is emitted. -/
theorem MessageChunkManager.countingListener_chunk {mt : JsString} {sc H B : Nat}
    (P : FramerParams mt sc H B) (cm : ChunkManager) (s : MessageChunkManager × Nat)
    (hs : CountInv mt sc H B s) (chunk : Buffer) (hlen : chunk.length ≤ B) :
    ∃ s1, MessageChunkManager.countingListener (.chunk chunk) (cm, s) = .ok (cm, s1)
      ∧ CountInv mt sc H B s1 := by
  obtain ⟨m, n⟩ := s
  obtain ⟨h1, h2, h3, h4, h5, h6⟩ := hs
  simp only at h1 h2 h3 h4 h5 h6
  have hassert : m.messageSize ≥ (chunk.length : Int) + (m.sizeOfHeader : Int) := by
    rw [h4, h3]; push_cast; omega
  unfold MessageChunkManager.countingListener MessageChunkManager.listener
  simp only [hassert, not_true_eq_false, if_false]
  cases hp : m.pendingChunk with
  | none =>
    rw [show charC = [67] from rfl, MessageChunkManager.sendPendingChunk_none m 67 hp]
    simp only [Outcome.map_ok, Outcome.bind_ok, hp, Option.isSome_none, Bool.false_eq_true,
      if_false, mark_alloc, h3, Buffer.copy_body]
    refine ⟨_, rfl, ?_⟩
    refine { msgType := h1, channel := h2, header := rfl, size := h4, pending := ?_,
             count := ?_ }
    · intro p hpe
      simp only [Option.some.injEq] at hpe
      subst hpe
      simp only [List.length_append, List.length_replicate]
      omega
    · simp only [Option.isSome_some, if_true]
      rw [h6, hp]
      simp
  | some p =>
    obtain ⟨hp1, hp2⟩ := h5 p hp
    obtain ⟨sent, hsent⟩ := MessageChunkManager.sendPendingChunk_some P m 67 (by omega) p
      hp1 hp2 h1 h2 h3 hp
    rw [show charC = [67] from rfl, hsent]
    simp only [Outcome.map_ok, Outcome.bind_ok, Option.isSome_none, Bool.false_eq_true,
      if_false, mark_alloc, h3, Buffer.copy_body]
    refine ⟨_, rfl, ?_⟩
    refine { msgType := h1, channel := h2, header := rfl, size := h4, pending := ?_,
             count := ?_ }
    · intro q hq
      simp only [Option.some.injEq] at hq
      subst hq
      simp only [List.length_append, List.length_replicate]
      omega
    · simp only [Option.isSome_some, if_true, List.length_append, List.length_singleton]
      rw [h6, hp]
      simp

theorem ChunkManager.fillStep_eq {L : Type} (emit : ChunkListener L)
    (buffer : Option Buffer) (length : Int) (fuel : Nat) (l input_cursor : Int)
    (w2 : ChunkManager × L) :
    ChunkManager.fillStep emit buffer length fuel l input_cursor w2
      = (match buffer with
          | some b =>
            match Buffer.copy b w2.1.chunk w2.1.cursor input_cursor
                (input_cursor + min (length - input_cursor)
                  (w2.1.chunk_size - w2.1.cursor)) with
            | .ok c => Outcome.ok ({ w2.1 with chunk := c }, w2.2)
            | .error e => Outcome.threw e w2
          | none => Outcome.ok w2).bind
          (ChunkManager.completeStep emit buffer length fuel l input_cursor
            (min (length - input_cursor) (w2.1.chunk_size - w2.1.cursor))) := rfl

theorem ChunkManager.announce_counted {B : Nat}
    (w : ChunkManager × (MessageChunkManager × Nat)) (h : AccInv B w.1) :
    ChunkManager.announce MessageChunkManager.countingListener w = .ok w := by
  obtain ⟨⟨cs, ck, cur, fl⟩, s⟩ := w
  have hfl : fl = false := h.flag
  subst hfl
  unfold ChunkManager.announce
  split
  · rw [MessageChunkManager.countingListener_before]
    rfl
  · rfl

/-- The write loop of the counting framer, for any buffer argument and any length: it
returns and keeps the invariants. -/
theorem ChunkManager.writeLoop_counted {mt : JsString} {sc H B : Nat}
    (P : FramerParams mt sc H B) (buffer : Option Buffer) (length : Int) (fuel : Nat) :
    ∀ (i : Nat) (w : ChunkManager × (MessageChunkManager × Nat)),
      (length - i).toNat ≤ fuel → AccInv B w.1 → CountInv mt sc H B w.2 →
      ∃ w1, ChunkManager.writeLoop MessageChunkManager.countingListener buffer length fuel
          (length - i) i w = .ok w1
        ∧ AccInv B w1.1 ∧ CountInv mt sc H B w1.2 := by
  induction fuel with
  | zero =>
    intro i w hf ha hs
    exact ⟨w, ChunkManager.writeLoop_done _ _ _ _ _ _ _ (by omega), ha, hs⟩
  | succ n ih =>
    intro i w hf ha hs
    by_cases hl : length - i > 0
    · have hne : ¬ (length - i = 0) := by omega
      rw [ChunkManager.writeLoop_succ, if_pos hl, if_neg hne,
        ChunkManager.announce_counted w ha, Outcome.bind_ok, ChunkManager.fillStep_eq]
      obtain ⟨⟨cs, ck, cur, fl⟩, s⟩ := w
      obtain ⟨a1, a2, a3, k, a4, a5⟩ := ha
      simp only at a1 a2 a3 a4 hs
      subst a1 a3 a4
      obtain ⟨nb, hmin, hnb1, hnbk⟩ : ∃ nb : Nat,
          min (length - (i : Int)) ((B : Int) - (k : Int)) = nb ∧ 1 ≤ nb ∧ k + nb ≤ B :=
        ⟨(min (length - (i : Int)) ((B : Int) - (k : Int))).toNat, by omega, by omega,
          by omega⟩
      simp only [hmin]
      have hcomplete : ∀ ck1 : Buffer, ck1.length = B →
          ∃ w1, ChunkManager.completeStep MessageChunkManager.countingListener buffer length n
              (length - i) i nb
              ({ chunk_size := B, chunk := ck1, cursor := k, _in_before_chunk := false }, s)
              = .ok w1
            ∧ AccInv B w1.1 ∧ CountInv mt sc H B w1.2 := by
        intro ck1 hck1
        unfold ChunkManager.completeStep
        have e1 : length - (i : Int) - nb = length - ((i + nb : Nat) : Int) := by
          push_cast; ring
        have e2 : (i : Int) + nb = ((i + nb : Nat) : Int) := by push_cast; ring
        by_cases hfull : k + nb = B
        · have heq : (k : Int) + nb = (B : Int) := by omega
          simp only [heq, ge_iff_le, le_refl, if_true]
          obtain ⟨s1, hs1, hinv1⟩ := MessageChunkManager.countingListener_chunk P
            { chunk_size := B, chunk := ck1, cursor := B, _in_before_chunk := false } s hs
            ck1 (by omega)
          rw [hs1]
          simp only [Outcome.bind_ok, e1, e2]
          exact ih (i + nb) _ (by omega)
            { csize := rfl, clen := hck1, flag := rfl,
              cursor := ⟨0, by simp, by have := P.body; omega⟩ } hinv1
        · have hge : ¬ ((k : Int) + nb ≥ (B : Int)) := by omega
          simp only [hge, if_false, Outcome.bind_ok, e1, e2]
          exact ih (i + nb) _ (by omega)
            { csize := rfl, clen := hck1, flag := rfl,
              cursor := ⟨k + nb, by push_cast; rfl, by omega⟩ } hs
      cases buffer with
      | none =>
        simp only [Outcome.bind_ok]
        exact hcomplete ck a2
      | some b =>
        obtain ⟨r, hr, hrl⟩ := Buffer.copy_total b ck k i nb hnb1 (by omega)
        simp only [hr, Outcome.bind_ok]
        exact hcomplete r (by omega)
    · exact ⟨w, ChunkManager.writeLoop_done _ _ _ _ _ _ _ hl, ha, hs⟩

theorem CountInv.repackCounted {mt : JsString} {sc H B : Nat}
    {w : ChunkManager × (MessageChunkManager × Nat)} (h : CountInv mt sc H B w.2) :
    CountInv mt sc H B (MessageChunkManager.repackCounted w) :=
  { msgType := h.msgType, channel := h.channel, header := h.header, size := h.size,
    pending := h.pending, count := h.count }

/-- Flushing on the counting framer: it returns, nothing is pending afterwards, and the
counter is the number of chunks emitted. -/
theorem MessageChunkManager.sendCounted_inv {mt : JsString} {sc H B : Nat}
    (P : FramerParams mt sc H B) (t : Nat) (ht : t ≤ 255) (s : MessageChunkManager × Nat)
    (h : PipelineInv mt sc H B s) :
    ∃ s1, MessageChunkManager.sendCounted [t] s = .ok s1 ∧ PipelineInv mt sc H B s1
      ∧ s1.1.pendingChunk = none := by
  obtain ⟨m, n⟩ := s
  obtain ⟨ha, h1, h2, h3, h4, h5, h6⟩ := h
  simp only at ha h1 h2 h3 h4 h5 h6
  unfold MessageChunkManager.sendCounted
  cases hp : m.pendingChunk with
  | none =>
    rw [MessageChunkManager.sendPendingChunk_none m t hp]
    exact ⟨_, rfl, ⟨ha, ⟨h1, h2, h3, h4, h5, h6⟩⟩, hp⟩
  | some p =>
    obtain ⟨hp1, hp2⟩ := h5 p hp
    obtain ⟨sent, hsent⟩ := MessageChunkManager.sendPendingChunk_some P m t ht p hp1 hp2
      h1 h2 h3 hp
    rw [hsent]
    refine ⟨_, rfl, ⟨ha, ?_⟩, rfl⟩
    refine { msgType := h1, channel := h2, header := h3, size := h4, pending := ?_,
             count := ?_ }
    · intro q hq
      simp at hq
    · simp only [Outcome.map_ok, List.length_append, List.length_singleton,
        Option.isSome_none, Bool.false_eq_true, if_false, Nat.add_zero]
      rw [h6, hp]
      simp

/-- The call `this.chunkManager.end()` on the counting framer. -/
theorem MessageChunkManager.end_counted {mt : JsString} {sc H B : Nat}
    (P : FramerParams mt sc H B) (s : MessageChunkManager × Nat)
    (h : PipelineInv mt sc H B s) :
    ∃ s1, (ChunkManager.end_ MessageChunkManager.countingListener (s.1.chunkManager, s)).map
        MessageChunkManager.repackCounted = .ok s1
      ∧ PipelineInv mt sc H B s1 := by
  obtain ⟨ha, hs⟩ := h
  obtain ⟨a1, a2, a3, k, a4, a5⟩ := ha
  unfold ChunkManager.end_
  by_cases hk : k = 0
  · have h0 : ¬ (s.1.chunkManager.cursor > 0) := by rw [a4, hk]; simp
    simp only [h0, if_false, Outcome.map_ok]
    exact ⟨_, rfl, ⟨⟨a1, a2, a3, k, a4, a5⟩, hs.repackCounted⟩⟩
  · have h0 : s.1.chunkManager.cursor > 0 := by rw [a4]; omega
    simp only [h0, if_true, fill_padding, Bool.false_eq_true, if_false, Outcome.bind_ok]
    rw [a4, Buffer.slice_zero]
    obtain ⟨s1, hs1, hinv1⟩ := MessageChunkManager.countingListener_chunk P
      s.1.chunkManager s hs (s.1.chunkManager.chunk.take k)
      (by simp only [List.length_take]; omega)
    rw [hs1]
    simp only [Outcome.bind_ok, Outcome.map_ok]
    refine ⟨_, rfl, ⟨?_, CountInv.repackCounted (w := (_, s1)) hinv1⟩⟩
    exact { csize := a1, clen := a2, flag := a3,
            cursor := ⟨0, rfl, by have := P.body; omega⟩ }

/-- Every call on the counting framer returns, unless it is a write of length 0, which
raises its exception and changes nothing; the invariant is kept. -/
theorem MessageChunkManager.callCounted_inv {mt : JsString} {sc H B : Nat}
    (P : FramerParams mt sc H B) (c : FramerCall) (s : MessageChunkManager × Nat)
    (h : PipelineInv mt sc H B s) :
    (∃ s1, MessageChunkManager.callCounted c s = .ok s1 ∧ PipelineInv mt sc H B s1)
    ∨ MessageChunkManager.callCounted c s = .threw "assert(length != 0)" s := by
  cases c with
  | write buffer length =>
    by_cases h0 : length = 0
    · right
      subst h0
      simp only [MessageChunkManager.callCounted, ChunkManager.write, if_true,
        Outcome.map_threw]
      rfl
    · left
      obtain ⟨w1, hw1, ha1, hs1⟩ := ChunkManager.writeLoop_counted P buffer length
        length.toNat 0 (s.1.chunkManager, s) (by simp) h.acc h.framer
      simp only [Nat.cast_zero, sub_zero] at hw1
      simp only [MessageChunkManager.callCounted, ChunkManager.write, h0, if_false, hw1,
        Outcome.map_ok]
      exact ⟨_, rfl, ⟨ha1, hs1.repackCounted⟩⟩
  | end_ =>
    left
    obtain ⟨s1, hs1, hinv1⟩ := MessageChunkManager.end_counted P s h
    obtain ⟨s2, hs2, hinv2, _⟩ := MessageChunkManager.sendCounted_inv P 70 (by omega) s1 hinv1
    simp only [MessageChunkManager.callCounted, hs1, Outcome.bind_ok]
    exact ⟨s2, hs2, hinv2⟩
  | abort =>
    left
    obtain ⟨s1, hs1, hinv1⟩ := MessageChunkManager.end_counted P s h
    obtain ⟨s2, hs2, hinv2, _⟩ := MessageChunkManager.sendCounted_inv P 65 (by omega) s1 hinv1
    simp only [MessageChunkManager.callCounted, hs1, Outcome.bind_ok]
    exact ⟨s2, hs2, hinv2⟩

theorem MessageChunkManager.runCounted_inv {mt : JsString} {sc H B : Nat}
    (P : FramerParams mt sc H B) (calls : List FramerCall) :
    ∀ s : MessageChunkManager × Nat, PipelineInv mt sc H B s →
      PipelineInv mt sc H B (MessageChunkManager.runCounted calls s).state := by
  induction calls with
  | nil => intro s h; exact h
  | cons c rest ih =>
    intro s h
    unfold MessageChunkManager.runCounted
    rcases MessageChunkManager.callCounted_inv P c s h with ⟨s1, hs1, hinv1⟩ | hthrew
    · rw [hs1]
      exact ih s1 hinv1
    · rw [hthrew]
      simp only
      split
      · exact h
      · exact ih s h

/-- C13. Single pending-chunk invariant.  Take a `MessageChunkManager` of body capacity
`B ≥ 1` (message type of 3 byte-sized character codes, channel id and message size
below 2^32), any sequence `calls` of write (any buffer or null, any length), end and
abort calls, and any further call `c`.  With a counter of the body blocks completed by
the accumulator (its "chunk" events), which does not change what the framer does: after
`calls` the number of completed blocks minus the number of emitted chunks is 0 or 1, it
is 1 exactly when a chunk is pending, and the call `c` does not fail the check
`assert(!self.pendingChunk)`. -/
theorem C13_single_pending_chunk (messageSize : Int) (msgType : JsString)
    (sc e B : Nat) (calls : List FramerCall) (c : FramerCall)
    (hmt : msgType.length = 3) (hbytes : ∀ x ∈ msgType, x ≤ 255)
    (hsc : sc < 2 ^ 32) (hsize : messageSize < 2 ^ 32)
    (hB : messageSize = ((12 + e + B : Nat) : Int)) (hB1 : 1 ≤ B) :
    ∃ m, MessageChunkManager.new messageSize msgType sc e = .ok m
      ∧ (MessageChunkManager.runCounted calls (m, 0)).map Prod.fst
          = MessageChunkManager.run calls m
      ∧ ((MessageChunkManager.runCounted calls (m, 0)).state.2
            = (MessageChunkManager.run calls m).state.emitted.length
          ∨ (MessageChunkManager.runCounted calls (m, 0)).state.2
            = (MessageChunkManager.run calls m).state.emitted.length + 1)
      ∧ ((MessageChunkManager.runCounted calls (m, 0)).state.2
            = (MessageChunkManager.run calls m).state.emitted.length + 1
          ↔ (MessageChunkManager.run calls m).state.pendingChunk.isSome = true)
      ∧ ∀ st, MessageChunkManager.call c (MessageChunkManager.run calls m).state
          ≠ .threw "assert(!self.pendingChunk)" st := by
  obtain ⟨P, m, hnew, hfr⟩ := MessageChunkManager.new_framed messageSize msgType sc e B hmt
    hbytes hsc hsize hB hB1
  have h0 : PipelineInv msgType sc (12 + e) B (m, 0) := by
    obtain ⟨hf, _, hc⟩ := hfr
    refine ⟨?_, ?_⟩
    · exact { csize := hc.size, clen := hc.len, flag := hc.flag,
              cursor := ⟨0, by simpa using hc.cursor, by omega⟩ }
    · have hp : m.pendingChunk = none := by simpa using hf.pending
      have he : m.emitted = [] := by simpa using hf.emitted
      exact { msgType := hf.msgType, channel := hf.channel, header := hf.header,
              size := hf.size,
              pending := (by intro p hpp; rw [hp] at hpp; cases hpp),
              count := (by simp [hp, he]) }
  have hinv := MessageChunkManager.runCounted_inv P calls (m, 0) h0
  have hsim := MessageChunkManager.runCounted_fst calls (m, 0)
  have hstate : (MessageChunkManager.run calls m).state
      = (MessageChunkManager.runCounted calls (m, 0)).state.1 := by
    rw [← hsim, Outcome.map_state]
  have hcount := hinv.framer.count
  refine ⟨m, hnew, hsim, ?_, ?_, ?_⟩
  · rw [hstate, hcount]
    split
    · right; rfl
    · left; rfl
  · rw [hstate, hcount]
    split <;> simp_all
  · intro st hthrew
    rw [hstate, ← MessageChunkManager.callCounted_fst] at hthrew
    rcases MessageChunkManager.callCounted_inv P c _ hinv with ⟨s1, hs1, _⟩ | hz
    · rw [hs1] at hthrew
      cases hthrew
    · rw [hz] at hthrew
      simp only [Outcome.map_threw, Outcome.threw.injEq] at hthrew
      exact absurd hthrew.1 (by decide)

/-- Witness for C13: capacity 3, five bytes, an end, a reserving write, an abort. -/
theorem C13_single_pending_chunk_witness :
    ∃ m, MessageChunkManager.new 15 HEL 7 0 = .ok m
      ∧ (MessageChunkManager.runCounted
            [FramerCall.write (some [1, 2, 3, 4, 5]) 5, FramerCall.end_,
             FramerCall.write none 4, FramerCall.abort] (m, 0)).map Prod.fst
          = MessageChunkManager.run
            [FramerCall.write (some [1, 2, 3, 4, 5]) 5, FramerCall.end_,
             FramerCall.write none 4, FramerCall.abort] m
      ∧ ((MessageChunkManager.runCounted
            [FramerCall.write (some [1, 2, 3, 4, 5]) 5, FramerCall.end_,
             FramerCall.write none 4, FramerCall.abort] (m, 0)).state.2
            = (MessageChunkManager.run
            [FramerCall.write (some [1, 2, 3, 4, 5]) 5, FramerCall.end_,
             FramerCall.write none 4, FramerCall.abort] m).state.emitted.length
          ∨ (MessageChunkManager.runCounted
            [FramerCall.write (some [1, 2, 3, 4, 5]) 5, FramerCall.end_,
             FramerCall.write none 4, FramerCall.abort] (m, 0)).state.2
            = (MessageChunkManager.run
            [FramerCall.write (some [1, 2, 3, 4, 5]) 5, FramerCall.end_,
             FramerCall.write none 4, FramerCall.abort] m).state.emitted.length + 1)
      ∧ ((MessageChunkManager.runCounted
            [FramerCall.write (some [1, 2, 3, 4, 5]) 5, FramerCall.end_,
             FramerCall.write none 4, FramerCall.abort] (m, 0)).state.2
            = (MessageChunkManager.run
            [FramerCall.write (some [1, 2, 3, 4, 5]) 5, FramerCall.end_,
             FramerCall.write none 4, FramerCall.abort] m).state.emitted.length + 1
          ↔ (MessageChunkManager.run
            [FramerCall.write (some [1, 2, 3, 4, 5]) 5, FramerCall.end_,
             FramerCall.write none 4, FramerCall.abort] m).state.pendingChunk.isSome = true)
      ∧ ∀ st, MessageChunkManager.call (FramerCall.write (some [9]) 1)
            (MessageChunkManager.run
            [FramerCall.write (some [1, 2, 3, 4, 5]) 5, FramerCall.end_,
             FramerCall.write none 4, FramerCall.abort] m).state
          ≠ .threw "assert(!self.pendingChunk)" st :=
  C13_single_pending_chunk 15 HEL 7 0 3 _ (FramerCall.write (some [9]) 1) (by decide)
    (by decide) (by norm_num) (by norm_num) (by norm_num) (by norm_num)

/-! ## Outbound lifecycle -/

/-- A flush that returns leaves nothing pending and does not touch the accumulator. -/
theorem MessageChunkManager.sendPendingChunk_result (finalC : JsString)
    (m m1 : MessageChunkManager)
    (h : MessageChunkManager._sendPendingChunk finalC m = .ok m1) :
    m1.pendingChunk = none ∧ m1.chunkManager = m.chunkManager := by
  unfold MessageChunkManager._sendPendingChunk at h
  split at h
  · cases h
  · cases hp : m.pendingChunk with
    | none =>
      rw [hp] at h
      simp only [Outcome.ok.injEq] at h
      subst h
      exact ⟨hp, rfl⟩
    | some p =>
      rw [hp] at h
      simp only at h
      split at h
      · simp only [Outcome.ok.injEq] at h
        subst h
        exact ⟨rfl, rfl⟩
      · cases h
      · cases h

/-- The accumulator's `end()` that returns leaves the cursor at 0, when the cursor was
not negative. -/
theorem ChunkManager.end_cursor {L : Type} (emit : ChunkListener L)
    (w w1 : ChunkManager × L) (h0 : 0 ≤ w.1.cursor)
    (h : ChunkManager.end_ emit w = .ok w1) : w1.1.cursor = 0 := by
  unfold ChunkManager.end_ at h
  by_cases hc : w.1.cursor > 0
  · simp only [hc, if_true, fill_padding, Bool.false_eq_true, if_false,
      Outcome.bind_ok] at h
    obtain ⟨w2, _, h2⟩ := Outcome.bind_eq_ok h
    simp only [Outcome.ok.injEq] at h2
    subst h2
    rfl
  · simp only [hc, if_false, Outcome.ok.injEq] at h
    subst h
    omega

/-- With nothing pending and the cursor at 0, `end()` and `abort()` return at once and
change nothing. -/
theorem MessageChunkManager.call_idle (g : FramerCall) (hg : g = .end_ ∨ g = .abort)
    (m : MessageChunkManager) (hp : m.pendingChunk = none)
    (hc : m.chunkManager.cursor = 0) : MessageChunkManager.call g m = .ok m := by
  have he : ChunkManager.end_ MessageChunkManager.listener (m.chunkManager, m)
      = .ok (m.chunkManager, m) := by
    unfold ChunkManager.end_
    simp [hc]
  rcases hg with rfl | rfl
  · simp only [MessageChunkManager.call, MessageChunkManager.end_, he, Outcome.map_ok,
      Outcome.bind_ok, MessageChunkManager.repack]
    exact MessageChunkManager.sendPendingChunk_none m 70 hp
  · simp only [MessageChunkManager.call, MessageChunkManager.abort, he, Outcome.map_ok,
      Outcome.bind_ok, MessageChunkManager.repack]
    exact MessageChunkManager.sendPendingChunk_none m 65 hp

/-- A returning `end()` or `abort()` leaves nothing pending and the cursor at 0, when
the cursor was not negative. -/
theorem MessageChunkManager.call_final (f : FramerCall) (hf : f = .end_ ∨ f = .abort)
    (m m1 : MessageChunkManager) (h0 : 0 ≤ m.chunkManager.cursor)
    (h : MessageChunkManager.call f m = .ok m1) :
    m1.pendingChunk = none ∧ m1.chunkManager.cursor = 0 := by
  have key : ∀ finalC,
      ((ChunkManager.end_ MessageChunkManager.listener (m.chunkManager, m)).map
        MessageChunkManager.repack).bind (MessageChunkManager._sendPendingChunk finalC)
        = .ok m1 → m1.pendingChunk = none ∧ m1.chunkManager.cursor = 0 := by
    intro finalC hk
    obtain ⟨m2, hm2, hs⟩ := Outcome.bind_eq_ok hk
    obtain ⟨hp, hcm⟩ := MessageChunkManager.sendPendingChunk_result finalC m2 m1 hs
    refine ⟨hp, ?_⟩
    rw [hcm]
    cases he : ChunkManager.end_ MessageChunkManager.listener (m.chunkManager, m) with
    | ok w1 =>
      rw [he] at hm2
      simp only [Outcome.map_ok, Outcome.ok.injEq] at hm2
      subst hm2
      exact ChunkManager.end_cursor _ _ w1 h0 he
    | threw msg w1 => rw [he] at hm2; cases hm2
    | diverged w1 => rw [he] at hm2; cases hm2
  rcases hf with rfl | rfl
  · exact key charF h
  · exact key charA h

/-- C21. Outbound lifecycle.  Take a `MessageChunkManager` of body capacity `B ≥ 1`
(message type of 3 byte-sized character codes, channel id and message size below 2^32)
after any sequence `calls` of write, end and abort calls, and let `f` and `g` each be
`end()` or `abort()`.  Then `f` returns; in the state it leaves no chunk is pending and
the accumulator's cursor is 0; and `g` called immediately afterwards returns leaving the
framer exactly as it was, so it emits no chunk. -/
theorem C21_outbound_lifecycle (messageSize : Int) (msgType : JsString)
    (sc e B : Nat) (calls : List FramerCall) (f g : FramerCall)
    (hmt : msgType.length = 3) (hbytes : ∀ x ∈ msgType, x ≤ 255)
    (hsc : sc < 2 ^ 32) (hsize : messageSize < 2 ^ 32)
    (hB : messageSize = ((12 + e + B : Nat) : Int)) (hB1 : 1 ≤ B)
    (hf : f = .end_ ∨ f = .abort) (hg : g = .end_ ∨ g = .abort) :
    ∃ m m1, MessageChunkManager.new messageSize msgType sc e = .ok m
      ∧ MessageChunkManager.call f (MessageChunkManager.run calls m).state = .ok m1
      ∧ m1.pendingChunk = none
      ∧ m1.chunkManager.cursor = 0
      ∧ MessageChunkManager.call g m1 = .ok m1
      ∧ (MessageChunkManager.run [f, g] (MessageChunkManager.run calls m).state).state.emitted
          = m1.emitted := by
  obtain ⟨P, m, hnew, hfr⟩ := MessageChunkManager.new_framed messageSize msgType sc e B hmt
    hbytes hsc hsize hB hB1
  have h0 : PipelineInv msgType sc (12 + e) B (m, 0) := by
    obtain ⟨hf, _, hc⟩ := hfr
    refine ⟨?_, ?_⟩
    · exact { csize := hc.size, clen := hc.len, flag := hc.flag,
              cursor := ⟨0, by simpa using hc.cursor, by omega⟩ }
    · have hp : m.pendingChunk = none := by simpa using hf.pending
      have he : m.emitted = [] := by simpa using hf.emitted
      exact { msgType := hf.msgType, channel := hf.channel, header := hf.header,
              size := hf.size,
              pending := (by intro p hpp; rw [hp] at hpp; cases hpp),
              count := (by simp [hp, he]) }
  have hinv := MessageChunkManager.runCounted_inv P calls (m, 0) h0
  have hstate : (MessageChunkManager.run calls m).state
      = (MessageChunkManager.runCounted calls (m, 0)).state.1 := by
    rw [← MessageChunkManager.runCounted_fst calls (m, 0), Outcome.map_state]
  have hcur : 0 ≤ (MessageChunkManager.run calls m).state.chunkManager.cursor := by
    rw [hstate]
    obtain ⟨k, hk, _⟩ := hinv.acc.cursor
    rw [hk]
    exact Int.natCast_nonneg k
  have hret : ∃ m1, MessageChunkManager.call f (MessageChunkManager.run calls m).state
      = .ok m1 := by
    rw [hstate, ← MessageChunkManager.callCounted_fst]
    rcases MessageChunkManager.callCounted_inv P f _ hinv with ⟨s1, hs1, _⟩ | hz
    · exact ⟨s1.1, by rw [hs1]; rfl⟩
    · rcases hf with rfl | rfl
      · obtain ⟨s1, hs1, _⟩ : ∃ s1, MessageChunkManager.callCounted .end_
            (MessageChunkManager.runCounted calls (m, 0)).state = .ok s1 ∧ True := by
          obtain ⟨s1, hs1, hinv1⟩ := MessageChunkManager.end_counted P _ hinv
          obtain ⟨s2, hs2, _⟩ := MessageChunkManager.sendCounted_inv P 70 (by omega) s1 hinv1
          refine ⟨s2, ?_, trivial⟩
          simp only [MessageChunkManager.callCounted, hs1, Outcome.bind_ok]
          exact hs2
        rw [hs1] at hz
        cases hz
      · obtain ⟨s1, hs1, _⟩ : ∃ s1, MessageChunkManager.callCounted .abort
            (MessageChunkManager.runCounted calls (m, 0)).state = .ok s1 ∧ True := by
          obtain ⟨s1, hs1, hinv1⟩ := MessageChunkManager.end_counted P _ hinv
          obtain ⟨s2, hs2, _⟩ := MessageChunkManager.sendCounted_inv P 65 (by omega) s1 hinv1
          refine ⟨s2, ?_, trivial⟩
          simp only [MessageChunkManager.callCounted, hs1, Outcome.bind_ok]
          exact hs2
        rw [hs1] at hz
        cases hz
  obtain ⟨m1, hm1⟩ := hret
  obtain ⟨hp, hc⟩ := MessageChunkManager.call_final f hf _ m1 hcur hm1
  have hidle := MessageChunkManager.call_idle g hg m1 hp hc
  refine ⟨m, m1, hnew, hm1, hp, hc, hidle, ?_⟩
  generalize (MessageChunkManager.run calls m).state = st at hm1
  simp only [MessageChunkManager.run, hm1, hidle]
  rfl

/-- Witness for C21: capacity 3, five bytes written, then `end()` followed by
`abort()`. -/
theorem C21_outbound_lifecycle_witness :
    ∃ m m1, MessageChunkManager.new 15 HEL 7 0 = .ok m
      ∧ MessageChunkManager.call FramerCall.end_
          (MessageChunkManager.run [FramerCall.write (some [1, 2, 3, 4, 5]) 5] m).state
          = .ok m1
      ∧ m1.pendingChunk = none
      ∧ m1.chunkManager.cursor = 0
      ∧ MessageChunkManager.call FramerCall.abort m1 = .ok m1
      ∧ (MessageChunkManager.run [FramerCall.end_, FramerCall.abort]
          (MessageChunkManager.run [FramerCall.write (some [1, 2, 3, 4, 5]) 5]
            m).state).state.emitted = m1.emitted :=
  C21_outbound_lifecycle 15 HEL 7 0 3 _ FramerCall.end_ FramerCall.abort (by decide)
    (by decide) (by norm_num) (by norm_num) (by norm_num) (by norm_num) (Or.inl rfl)
    (Or.inr rfl)

/-! ## Termination of the write loop -/

theorem Outcome.andThen_map_bind {σ τ : Type} (proj : τ → σ) (cont : τ → Outcome σ)
    (g : σ → τ) (hg : ∀ x, proj (g x) = x) (r : Outcome σ) (k : τ → Outcome τ) :
    Outcome.andThen proj cont ((r.map g).bind k)
      = r.bind fun x => Outcome.andThen proj cont (k (g x)) := by
  cases r <;> simp [Outcome.andThen, hg]

theorem Outcome.andThen_map {σ τ : Type} (proj : τ → σ) (cont : τ → Outcome σ)
    (g : σ → τ) (hg : ∀ x, proj (g x) = x) (r : Outcome σ) :
    Outcome.andThen proj cont (r.map g) = r.bind fun x => cont (g x) := by
  cases r <;> simp [Outcome.andThen, hg]

/-- The write loop is the iteration of its body. -/
theorem ChunkManager.writeLoop_loopBody {L : Type} (emit : ChunkListener L)
    (buffer : Option Buffer) (length : Int) (fuel : Nat) (l input_cursor : Int)
    (w : ChunkManager × L) :
    ChunkManager.writeLoop emit buffer length (fuel + 1) l input_cursor w
      = if l > 0 then
          match ChunkManager.loopBody emit buffer length
              { l := l, input_cursor := input_cursor, w := w } with
          | .ok s => ChunkManager.writeLoop emit buffer length fuel s.l s.input_cursor s.w
          | .threw m s => .threw m s.w
          | .diverged s => .diverged s.w
        else .ok w := by
  have key : ∀ r : Outcome (LoopState L),
      (match r with
        | .ok s => ChunkManager.writeLoop emit buffer length fuel s.l s.input_cursor s.w
        | .threw m s => .threw m s.w
        | .diverged s => .diverged s.w)
      = Outcome.andThen LoopState.w
          (fun s => ChunkManager.writeLoop emit buffer length fuel s.l s.input_cursor s.w)
          r := by
    intro r
    cases r <;> rfl
  by_cases hl : l > 0
  · rw [ChunkManager.writeLoop, if_pos hl, if_pos hl, key]
    unfold ChunkManager.loopBody ChunkManager.announce ChunkManager.copyStep
      ChunkManager.advance
    by_cases h0 : length - input_cursor = 0
    · simp only [h0, if_true]
      rfl
    · simp only [h0, if_false]
      rw [Outcome.andThen_map_bind _ _ _ (fun _ => rfl)]
      congr 1
      funext w2
      simp only []
      rw [Outcome.andThen_map_bind _ _ _ (fun _ => rfl)]
      congr 1
      funext w3
      simp only []
      rw [Outcome.andThen_map _ _ _ (fun _ => rfl)]
  · rw [ChunkManager.writeLoop_done _ _ _ _ _ _ _ hl, if_neg hl]

/-- The announcement returns and leaves the accumulator as it was, when the listeners
return and do not touch it. -/
theorem ChunkManager.announce_returns {L : Type} (emit : ChunkListener L)
    (hemit : ∀ ev w, ∃ l1, emit ev w = .ok (w.1, l1)) (w : ChunkManager × L)
    (hflag : w.1._in_before_chunk = false) :
    ∃ l1, ChunkManager.announce emit w = .ok (w.1, l1) := by
  obtain ⟨⟨cs, ck, cur, fl⟩, st⟩ := w
  simp only at hflag
  subst hflag
  unfold ChunkManager.announce
  split
  · obtain ⟨l1, h1⟩ := hemit (.before_chunk ck)
      ({ chunk_size := cs, chunk := ck, cursor := cur, _in_before_chunk := true }, st)
    simp only at h1 ⊢
    rw [h1]
    exact ⟨l1, rfl⟩
  · exact ⟨st, rfl⟩

/-- The copy of at least one byte to a window inside the block returns and keeps the
block's length. -/
theorem ChunkManager.copyStep_returns {L : Type} (buffer : Option Buffer) (i nb k : Nat)
    (w : ChunkManager × L) (hk : w.1.cursor = k) (hnb : 1 ≤ nb)
    (hroom : k + nb ≤ w.1.chunk.length) :
    ∃ ck, ChunkManager.copyStep buffer (i : Int) (nb : Int) w
        = .ok ({ w.1 with chunk := ck }, w.2)
      ∧ ck.length = w.1.chunk.length := by
  unfold ChunkManager.copyStep
  cases buffer with
  | none => exact ⟨w.1.chunk, rfl, rfl⟩
  | some b =>
    obtain ⟨r, hr, hrl⟩ := Buffer.copy_total b w.1.chunk k i nb hnb hroom
    simp only [hk, hr]
    exact ⟨r, rfl, hrl⟩

/-- The advance of the cursor inside a block of `c` bytes returns with the cursor below
`c`; the check made on a full block holds. -/
theorem ChunkManager.advance_returns {L : Type} (emit : ChunkListener L)
    (hemit : ∀ ev w, ∃ l1, emit ev w = .ok (w.1, l1)) (c nb k : Nat)
    (w : ChunkManager × L) (hc : w.1.chunk_size = c) (hk : w.1.cursor = k)
    (hnb : 1 ≤ nb) (hroom : k + nb ≤ c) :
    ∃ (k1 : Nat) (l1 : L), ChunkManager.advance emit (nb : Int) w
        = .ok ({ w.1 with cursor := k1 }, l1) ∧ k1 < c := by
  obtain ⟨⟨cs, ck, cur, fl⟩, st⟩ := w
  simp only at hc hk
  subst hc hk
  unfold ChunkManager.advance
  by_cases hfull : k + nb = c
  · have heq : (k : Int) + nb = (c : Int) := by omega
    simp only [heq, ge_iff_le, le_refl, if_true]
    obtain ⟨l1, h1⟩ := hemit (.chunk ck)
      ({ chunk_size := c, chunk := ck, cursor := c, _in_before_chunk := fl }, st)
    simp only at h1
    rw [h1]
    exact ⟨0, l1, rfl, by omega⟩
  · have hge : ¬ ((k : Int) + nb ≥ (c : Int)) := by omega
    simp only [hge, if_false]
    exact ⟨k + nb, st, by push_cast; rfl, by omega⟩

/-- One iteration from a state satisfying the loop invariant with input left: the body
returns, the invariant holds again and at least one byte of input was consumed. -/
theorem ChunkManager.loopBody_step {L : Type} (emit : ChunkListener L)
    (hemit : ∀ ev w, ∃ l1, emit ev w = .ok (w.1, l1)) (buffer : Option Buffer)
    (length : Int) (c : Nat) (s : LoopState L) (h : LoopInv c length s) (hl : s.l > 0) :
    ∃ s1, ChunkManager.loopBody emit buffer length s = .ok s1 ∧ LoopInv c length s1
      ∧ s1.l + 1 ≤ s.l := by
  obtain ⟨l, ic, w⟩ := s
  obtain ⟨⟨a1, a2, a3, k, a4, a5⟩, h2, h3, h4⟩ := h
  simp only at a1 a2 a3 a4 h2 h3 h4 hl
  have hne : ¬ (length - ic = 0) := by omega
  obtain ⟨i, hi⟩ : ∃ i : Nat, ic = i := ⟨ic.toNat, by omega⟩
  subst hi
  obtain ⟨nb, hmin, hnb1, hnbk, hnbl⟩ : ∃ nb : Nat,
      min (length - (i : Int)) (w.1.chunk_size - w.1.cursor) = nb ∧ 1 ≤ nb ∧ k + nb ≤ c
        ∧ (nb : Int) ≤ l :=
    ⟨(min (length - (i : Int)) (w.1.chunk_size - w.1.cursor)).toNat, by omega, by omega,
      by omega, by omega⟩
  obtain ⟨l1, hann⟩ := ChunkManager.announce_returns emit hemit w a3
  obtain ⟨ck, hcopy, hckl⟩ := ChunkManager.copyStep_returns buffer i nb k (w.1, l1) a4 hnb1
    (by simp only; omega)
  obtain ⟨k1, l2, hadv, hk1⟩ := ChunkManager.advance_returns emit hemit c nb k
    ({ w.1 with chunk := ck }, l1) a1 a4 hnb1 hnbk
  unfold ChunkManager.loopBody
  simp only [hne, if_false, hann, Outcome.map_ok, Outcome.bind_ok, hmin, hcopy, hadv]
  refine ⟨_, rfl, ⟨⟨a1, (by simpa using hckl.trans a2), a3, k1, rfl, hk1⟩, ?_, ?_, ?_⟩, ?_⟩
  · simp only; omega
  · simp only; omega
  · simp only; omega
  · simp only; omega

/-- Every state at the start of an iteration satisfies the loop invariant, and the
iteration from it returns having consumed at least one byte. -/
theorem ChunkManager.loopTrace_inv {L : Type} (emit : ChunkListener L)
    (hemit : ∀ ev w, ∃ l1, emit ev w = .ok (w.1, l1)) (buffer : Option Buffer)
    (length : Int) (c : Nat) (fuel : Nat) :
    ∀ s : LoopState L, LoopInv c length s →
      ∀ t ∈ ChunkManager.loopTrace emit buffer length fuel s,
        LoopInv c length t
          ∧ ∃ t1, ChunkManager.loopBody emit buffer length t = .ok t1 ∧ t1.l + 1 ≤ t.l := by
  induction fuel with
  | zero =>
    intro s _ t ht
    simp [ChunkManager.loopTrace] at ht
  | succ n ih =>
    intro s hs t ht
    unfold ChunkManager.loopTrace at ht
    by_cases hl : s.l > 0
    · obtain ⟨s1, hs1, hinv1, hdec⟩ := ChunkManager.loopBody_step emit hemit buffer length c
        s hs hl
      simp only [hl, if_true, hs1, List.mem_cons] at ht
      rcases ht with rfl | ht
      · exact ⟨hs, s1, hs1, hdec⟩
      · exact ih s1 hinv1 t ht
    · simp [hl] at ht

/-- The write loop returns from a state satisfying the loop invariant, given as many
iterations as bytes are left, and leaves the accumulator in order. -/
theorem ChunkManager.writeLoop_returns {L : Type} (emit : ChunkListener L)
    (hemit : ∀ ev w, ∃ l1, emit ev w = .ok (w.1, l1)) (buffer : Option Buffer)
    (length : Int) (c : Nat) (fuel : Nat) :
    ∀ s : LoopState L, LoopInv c length s → s.l ≤ fuel →
      ∃ w1, ChunkManager.writeLoop emit buffer length fuel s.l s.input_cursor s.w = .ok w1
        ∧ AccInv c w1.1 := by
  induction fuel with
  | zero =>
    intro s hs hf
    exact ⟨s.w, ChunkManager.writeLoop_done _ _ _ _ _ _ _ (by simp at hf; omega), hs.acc⟩
  | succ n ih =>
    intro s hs hf
    rw [ChunkManager.writeLoop_loopBody]
    by_cases hl : s.l > 0
    · obtain ⟨s1, hs1, hinv1, hdec⟩ := ChunkManager.loopBody_step emit hemit buffer length c
        s hs hl
      rw [if_pos hl, hs1]
      exact ih s1 hinv1 (by push_cast at hf; omega)
    · rw [if_neg hl]
      exact ⟨s.w, rfl, hs.acc⟩

/-- C28. Termination of `ChunkManager.write`.  Take an accumulator of capacity `c` in
order between two calls (block of `c` bytes, cursor `0 ≤ cursor < c`, hence `c ≥ 1`; a
new `ChunkManager` of capacity `c ≥ 1` is so), listeners that return and do not touch the
accumulator, any buffer argument (or null) and any integer `length ≥ 1`.  Then `write`
returns within `length` iterations, leaving the accumulator in order with
`0 ≤ cursor < c`; and at the start of every iteration the loop performs, the cursor
satisfies `0 ≤ cursor < c`, and the iteration returns, so neither of its assertions
fails, with `l` smaller by at least one. -/
theorem C28_write_terminates {L : Type} (emit : ChunkListener L) (buffer : Option Buffer)
    (length : Int) (c : Nat) (w : ChunkManager × L)
    (hemit : ∀ ev w, ∃ l1, emit ev w = .ok (w.1, l1))
    (hlen : 1 ≤ length) (hw : AccInv c w.1) :
    (∃ w1, ChunkManager.write emit buffer length w = .ok w1 ∧ AccInv c w1.1
        ∧ 0 ≤ w1.1.cursor ∧ w1.1.cursor < w1.1.chunk_size ∧ w1.1.chunk_size = c)
    ∧ ∀ s ∈ ChunkManager.loopTrace emit buffer length length.toNat
          { l := length, input_cursor := 0, w := w },
        0 ≤ s.w.1.cursor ∧ s.w.1.cursor < c
          ∧ ∃ s1, ChunkManager.loopBody emit buffer length s = .ok s1 ∧ s1.l + 1 ≤ s.l := by
  have h0 : LoopInv c length ({ l := length, input_cursor := 0, w := w } : LoopState L) :=
    ⟨hw, by simp, le_refl _, by simp only; omega⟩
  have hbound : ∀ cm : ChunkManager, AccInv c cm →
      0 ≤ cm.cursor ∧ cm.cursor < c := by
    intro cm hcm
    obtain ⟨k, hk, hkc⟩ := hcm.cursor
    rw [hk]
    omega
  constructor
  · obtain ⟨w1, hw1, hacc⟩ := ChunkManager.writeLoop_returns emit hemit buffer length c
      length.toNat _ h0 (by simp only; omega)
    have hne : ¬ (length = 0) := by omega
    refine ⟨w1, ?_, hacc, (hbound _ hacc).1, ?_, hacc.csize⟩
    · unfold ChunkManager.write
      rw [if_neg hne]
      exact hw1
    · rw [hacc.csize]
      exact (hbound _ hacc).2
  · intro s hs
    obtain ⟨hinv, hstep⟩ := ChunkManager.loopTrace_inv emit hemit buffer length c _ _ h0 s hs
    exact ⟨(hbound _ hinv.acc).1, (hbound _ hinv.acc).2, hstep⟩

/-- Witness for C28: five bytes written to a new accumulator of capacity 3 with
recording listeners. -/
theorem C28_write_terminates_witness :
    AccInv 3 (ChunkManager.new 3)
    ∧ (∃ w1, ChunkManager.write recorder (some [1, 2, 3, 4, 5]) 5 (ChunkManager.new 3, [])
          = .ok w1 ∧ AccInv 3 w1.1
        ∧ 0 ≤ w1.1.cursor ∧ w1.1.cursor < w1.1.chunk_size ∧ w1.1.chunk_size = 3)
    ∧ ∀ s ∈ ChunkManager.loopTrace recorder (some [1, 2, 3, 4, 5]) 5 (5 : Int).toNat
          { l := 5, input_cursor := 0, w := (ChunkManager.new 3, []) },
        0 ≤ s.w.1.cursor ∧ s.w.1.cursor < (3 : Nat)
          ∧ ∃ s1, ChunkManager.loopBody recorder (some [1, 2, 3, 4, 5]) 5 s = .ok s1
            ∧ s1.l + 1 ≤ s.l :=
  ⟨⟨rfl, rfl, rfl, 0, rfl, by decide⟩,
    C28_write_terminates recorder (some [1, 2, 3, 4, 5]) 5 3 (ChunkManager.new 3, [])
      (fun _ w => ⟨_, rfl⟩) (by decide) ⟨rfl, rfl, rfl, 0, rfl, by decide⟩⟩

/-! ## Reserve-space mode -/

/-- The announcement made with recording listeners. -/
theorem ChunkManager.announce_recorder (w : ChunkManager × List ChunkEvent)
    (hflag : w.1._in_before_chunk = false) :
    ChunkManager.announce recorder w
      = .ok (w.1, w.2 ++ (if w.1.cursor = 0 then [.before_chunk w.1.chunk] else [])) := by
  obtain ⟨⟨cs, ck, cur, fl⟩, log⟩ := w
  simp only at hflag
  subst hflag
  unfold ChunkManager.announce
  by_cases h0 : cur = 0
  · simp [h0, recorder]
  · simp [h0]

/-- The advance of the cursor with recording listeners. -/
theorem ChunkManager.advance_recorder (c nb k : Nat) (w : ChunkManager × List ChunkEvent)
    (hc : w.1.chunk_size = c) (hk : w.1.cursor = k) (hroom : k + nb ≤ c) :
    ChunkManager.advance recorder (nb : Int) w
      = .ok ({ w.1 with cursor := if w.1.cursor + nb = (c : Int) then 0 else w.1.cursor + nb },
          w.2 ++ (if w.1.cursor + nb = (c : Int) then [.chunk w.1.chunk] else [])) := by
  obtain ⟨⟨cs, ck, cur, fl⟩, log⟩ := w
  simp only at hc hk
  subst hc hk
  unfold ChunkManager.advance
  by_cases hfull : (k : Int) + nb = c
  · simp [hfull, recorder]
  · have hge : ¬ ((k : Int) + nb ≥ (c : Int)) := by omega
    simp [hfull, hge]

/-- One iteration with recording listeners, from a state satisfying the loop invariant
with input left: the state it returns. -/
theorem ChunkManager.loopBody_recorder (buffer : Option Buffer) (length : Int) (c : Nat)
    (s : LoopState (List ChunkEvent)) (h : LoopInv c length s) (hl : s.l > 0) :
    ∃ (nb : Nat) (ck : Buffer), 1 ≤ nb ∧ (nb : Int) ≤ s.l ∧ s.w.1.cursor + nb ≤ c
      ∧ ck.length = c ∧ (buffer = none → ck = s.w.1.chunk)
      ∧ (nb : Int) = min (length - s.input_cursor) ((c : Int) - s.w.1.cursor)
      ∧ ChunkManager.loopBody recorder buffer length s = .ok
          { l := s.l - nb, input_cursor := s.input_cursor + nb,
            w := ({ s.w.1 with
                      chunk := ck,
                      cursor := if s.w.1.cursor + nb = (c : Int) then 0
                        else s.w.1.cursor + nb },
                  s.w.2 ++ (if s.w.1.cursor = 0 then [.before_chunk s.w.1.chunk] else [])
                    ++ (if s.w.1.cursor + nb = (c : Int) then [.chunk ck] else [])) } := by
  obtain ⟨l, ic, w⟩ := s
  obtain ⟨⟨a1, a2, a3, k, a4, a5⟩, h2, h3, h4⟩ := h
  simp only at a1 a2 a3 a4 h2 h3 h4 hl
  have hne : ¬ (length - ic = 0) := by omega
  obtain ⟨i, hi⟩ : ∃ i : Nat, ic = i := ⟨ic.toNat, by omega⟩
  subst hi
  obtain ⟨nb, hmin, hnb1, hnbk, hnbl⟩ : ∃ nb : Nat,
      min (length - (i : Int)) (w.1.chunk_size - w.1.cursor) = nb ∧ 1 ≤ nb ∧ k + nb ≤ c
        ∧ (nb : Int) ≤ l :=
    ⟨(min (length - (i : Int)) (w.1.chunk_size - w.1.cursor)).toNat, by omega, by omega,
      by omega, by omega⟩
  have hann := ChunkManager.announce_recorder w a3
  obtain ⟨ck, hcopy, hckl, hnone⟩ : ∃ ck,
      ChunkManager.copyStep buffer (i : Int) (nb : Int)
          (w.1, w.2 ++ (if w.1.cursor = 0 then [ChunkEvent.before_chunk w.1.chunk] else []))
        = .ok ({ w.1 with chunk := ck },
            w.2 ++ (if w.1.cursor = 0 then [ChunkEvent.before_chunk w.1.chunk] else []))
      ∧ ck.length = c ∧ (buffer = none → ck = w.1.chunk) := by
    cases buffer with
    | none => exact ⟨w.1.chunk, rfl, a2, fun _ => rfl⟩
    | some b =>
      obtain ⟨ck, hck, hckl⟩ := ChunkManager.copyStep_returns (some b) i nb k
        (w.1, w.2 ++ (if w.1.cursor = 0 then [ChunkEvent.before_chunk w.1.chunk] else []))
        a4 hnb1 (by simp only; omega)
      exact ⟨ck, hck, by simpa [a2] using hckl, fun hb => by cases hb⟩
  have hadv := ChunkManager.advance_recorder c nb k
    ({ w.1 with chunk := ck },
      w.2 ++ (if w.1.cursor = 0 then [ChunkEvent.before_chunk w.1.chunk] else []))
    a1 a4 hnbk
  refine ⟨nb, ck, hnb1, hnbl, by simp only; omega, hckl, hnone, ?_, ?_⟩
  · simp only
    rw [← hmin, a1]
  · unfold ChunkManager.loopBody
    simp only [hne, if_false, hann, Outcome.map_ok, Outcome.bind_ok, hmin, hcopy, hadv]

/-- An iteration reserving space and an iteration copying from a buffer, from states of
the same shape: both return, in states of the same shape, and the reserving one leaves
the block as it was. -/
theorem ChunkManager.loopBody_reserve (b : Buffer) (length : Int) (c : Nat)
    (s s1 : LoopState (List ChunkEvent)) (h : LoopInv c length s)
    (h1 : LoopInv c length s1) (hsh : s.shape = s1.shape) (hl : s.l > 0) :
    ∃ t t1, ChunkManager.loopBody recorder none length s = .ok t
      ∧ ChunkManager.loopBody recorder (some b) length s1 = .ok t1
      ∧ t.shape = t1.shape ∧ t.w.1.chunk = s.w.1.chunk
      ∧ LoopInv c length t ∧ LoopInv c length t1 ∧ t.l + 1 ≤ s.l
      ∧ (t.w.1.cursor + t.l) % (c : Int) = (s.w.1.cursor + s.l) % (c : Int) := by
  simp only [LoopState.shape, Prod.mk.injEq] at hsh
  obtain ⟨e1, e2, e3, e4⟩ := hsh
  have hl1 : s1.l > 0 := by rw [← e1]; exact hl
  obtain ⟨nb, ck, n1, n2, n3, n4, n5, n6, n7⟩ :=
    ChunkManager.loopBody_recorder none length c s h hl
  obtain ⟨nb1, ck1, m1, m2, m3, m4, _, m6, m7⟩ :=
    ChunkManager.loopBody_recorder (some b) length c s1 h1 hl1
  have hnb : nb = nb1 := by
    have : (nb : Int) = nb1 := by rw [n6, m6, e2, e3]
    exact_mod_cast this
  subst hnb
  obtain ⟨u, hu, hinv, _⟩ := ChunkManager.loopBody_step recorder (fun _ w => ⟨_, rfl⟩) none
    length c s h hl
  obtain ⟨u1, hu1, hinv1, _⟩ := ChunkManager.loopBody_step recorder (fun _ w => ⟨_, rfl⟩)
    (some b) length c s1 h1 hl1
  rw [n7] at hu
  rw [m7] at hu1
  simp only [Outcome.ok.injEq] at hu hu1
  subst hu hu1
  refine ⟨_, _, n7, m7, ?_, ?_, hinv, hinv1, ?_, ?_⟩
  · simp only [LoopState.shape, Prod.mk.injEq, e1, e2, e3, List.map_append, e4, true_and]
    congr 1
    · congr 1
      split <;> rfl
    · split <;> rfl
  · simp only
    exact n5 rfl
  · simp only
    omega
  · simp only
    by_cases hfull : s.w.1.cursor + nb = (c : Int)
    · rw [if_pos hfull]
      have : s.w.1.cursor + s.l = 0 + (s.l - nb) + (c : Int) := by omega
      rw [this, Int.add_emod_self]
    · rw [if_neg hfull]
      congr 1
      ring

/-- A write that reserves space and a write from a buffer, run from states of the same
shape: the iterations start in states of the same shape, both loops return with the
same cursor and the same event names, and the reserving one leaves the block as it
was, with the cursor advanced by what was left of the input, modulo the capacity. -/
theorem ChunkManager.writeLoop_reserve (b : Buffer) (length : Int) (c : Nat) (fuel : Nat) :
    ∀ s s1 : LoopState (List ChunkEvent), LoopInv c length s → LoopInv c length s1 →
      s.shape = s1.shape → s.l ≤ fuel →
      (ChunkManager.loopTrace recorder none length fuel s).map LoopState.shape
          = (ChunkManager.loopTrace recorder (some b) length fuel s1).map LoopState.shape
      ∧ (∀ t ∈ ChunkManager.loopTrace recorder none length fuel s,
          t.w.1.chunk = s.w.1.chunk)
      ∧ ∃ w0 w1,
          ChunkManager.writeLoop recorder none length fuel s.l s.input_cursor s.w = .ok w0
          ∧ ChunkManager.writeLoop recorder (some b) length fuel s1.l s1.input_cursor s1.w
              = .ok w1
          ∧ w0.1.cursor = w1.1.cursor
          ∧ w0.2.map ChunkEvent.name = w1.2.map ChunkEvent.name
          ∧ w0.1.chunk = s.w.1.chunk
          ∧ w0.1.cursor = (s.w.1.cursor + s.l) % (c : Int) := by
  have hdone : ∀ (n : Nat) (s s1 : LoopState (List ChunkEvent)), LoopInv c length s →
      s.shape = s1.shape → ¬ s.l > 0 →
      ∃ w0 w1,
          ChunkManager.writeLoop recorder none length n s.l s.input_cursor s.w = .ok w0
          ∧ ChunkManager.writeLoop recorder (some b) length n s1.l s1.input_cursor s1.w
              = .ok w1
          ∧ w0.1.cursor = w1.1.cursor
          ∧ w0.2.map ChunkEvent.name = w1.2.map ChunkEvent.name
          ∧ w0.1.chunk = s.w.1.chunk
          ∧ w0.1.cursor = (s.w.1.cursor + s.l) % (c : Int) := by
    intro n s s1 hs hsh hl
    have hsh1 := hsh
    simp only [LoopState.shape, Prod.mk.injEq] at hsh1
    obtain ⟨e1, e2, e3, e4⟩ := hsh1
    refine ⟨s.w, s1.w, ChunkManager.writeLoop_done _ _ _ _ _ _ _ hl,
      ChunkManager.writeLoop_done _ _ _ _ _ _ _ (by rw [← e1]; exact hl), e3, e4, rfl, ?_⟩
    obtain ⟨k, hk, hkc⟩ := hs.acc.cursor
    have hl0 : s.l = 0 := by have := hs.left; omega
    rw [hl0, hk, add_zero]
    exact (Int.emod_eq_of_lt (by omega) (by omega)).symm
  induction fuel with
  | zero =>
    intro s s1 hs hs1 hsh hf
    have hl : ¬ s.l > 0 := by simp at hf; omega
    refine ⟨by simp [ChunkManager.loopTrace], ?_, hdone 0 s s1 hs hsh hl⟩
    intro t ht
    simp [ChunkManager.loopTrace] at ht
  | succ n ih =>
    intro s s1 hs hs1 hsh hf
    have hsh1 := hsh
    simp only [LoopState.shape, Prod.mk.injEq] at hsh1
    obtain ⟨e1, e2, e3, e4⟩ := hsh1
    by_cases hl : s.l > 0
    · have hl1 : s1.l > 0 := by rw [← e1]; exact hl
      obtain ⟨t, t1, ht, ht1, hshape, hchunk, hinv, hinv1, hdec, hcur⟩ :=
        ChunkManager.loopBody_reserve b length c s s1 hs hs1 hsh hl
      obtain ⟨i1, i2, w0, w1, j1, j2, j3, j4, j5, j6⟩ := ih t t1 hinv hinv1 hshape
        (by push_cast at hf; omega)
      refine ⟨?_, ?_, w0, w1, ?_, ?_, j3, j4, j5.trans hchunk, ?_⟩
      · unfold ChunkManager.loopTrace
        simp only [hl, hl1, if_true, ht, ht1, List.map_cons, i1, hsh]
      · intro u hu
        unfold ChunkManager.loopTrace at hu
        simp only [hl, if_true, ht, List.mem_cons] at hu
        rcases hu with rfl | hu
        · rfl
        · exact (i2 u hu).trans hchunk
      · rw [ChunkManager.writeLoop_loopBody, if_pos hl, ht]
        exact j1
      · rw [ChunkManager.writeLoop_loopBody, if_pos hl1, ht1]
        exact j2
      · rw [j6, hcur]
    · have hl1 : ¬ s1.l > 0 := by rw [← e1]; exact hl
      refine ⟨?_, ?_, hdone (n + 1) s s1 hs hsh hl⟩
      · unfold ChunkManager.loopTrace
        simp only [hl, hl1, if_false, List.map_nil]
      · intro u hu
        unfold ChunkManager.loopTrace at hu
        simp [hl] at hu

/-- C25. Reserve-space mode.  Take an accumulator of capacity `c` in order between two
calls (block of `c` bytes, cursor `0 ≤ cursor < c`) with recording listeners, an integer
`length ≥ 1` and any buffer `b`.  Then `write(null, length)` and `write(b, length)` both
return; the reserving write leaves the cursor at `(cursor + length) mod c`, which is
where the write from `b` leaves it; the two writes fire events of the same names in the
same order; their iterations start with the same `l`, `input_cursor`, cursor and event
names fired so far, so the events are fired at the same points; and the reserving write
leaves the block as it was, at the start of every iteration and at the end. -/
theorem C25_reserve_space (c : Nat) (b : Buffer) (length : Int)
    (w : ChunkManager × List ChunkEvent) (hlen : 1 ≤ length) (hw : AccInv c w.1) :
    ∃ w0 w1, ChunkManager.write recorder none length w = .ok w0
      ∧ ChunkManager.write recorder (some b) length w = .ok w1
      ∧ w0.1.cursor = (w.1.cursor + length) % (c : Int)
      ∧ w0.1.cursor = w1.1.cursor
      ∧ w0.2.map ChunkEvent.name = w1.2.map ChunkEvent.name
      ∧ (ChunkManager.loopTrace recorder none length length.toNat
            { l := length, input_cursor := 0, w := w }).map LoopState.shape
          = (ChunkManager.loopTrace recorder (some b) length length.toNat
            { l := length, input_cursor := 0, w := w }).map LoopState.shape
      ∧ w0.1.chunk = w.1.chunk
      ∧ ∀ t ∈ ChunkManager.loopTrace recorder none length length.toNat
            { l := length, input_cursor := 0, w := w }, t.w.1.chunk = w.1.chunk := by
  have h0 : LoopInv c length
      ({ l := length, input_cursor := 0, w := w } : LoopState (List ChunkEvent)) :=
    ⟨hw, by simp, le_refl _, by simp only; omega⟩
  obtain ⟨i1, i2, w0, w1, j1, j2, j3, j4, j5, j6⟩ :=
    ChunkManager.writeLoop_reserve b length c length.toNat _ _ h0 h0 rfl
      (by simp only; omega)
  have hne : ¬ (length = 0) := by omega
  refine ⟨w0, w1, ?_, ?_, j6, j3, j4, i1, j5, i2⟩
  · unfold ChunkManager.write
    rw [if_neg hne]
    exact j1
  · unfold ChunkManager.write
    rw [if_neg hne]
    exact j2

/-- Witness for C25: five bytes reserved in, or written to, a new accumulator of
capacity 3. -/
theorem C25_reserve_space_witness :
    AccInv 3 (ChunkManager.new 3)
    ∧ ∃ w0 w1, ChunkManager.write recorder none 5 (ChunkManager.new 3, []) = .ok w0
      ∧ ChunkManager.write recorder (some [1, 2, 3, 4, 5]) 5 (ChunkManager.new 3, []) = .ok w1
      ∧ w0.1.cursor = ((ChunkManager.new 3).cursor + 5) % ((3 : Nat) : Int)
      ∧ w0.1.cursor = w1.1.cursor
      ∧ w0.2.map ChunkEvent.name = w1.2.map ChunkEvent.name
      ∧ (ChunkManager.loopTrace recorder none 5 (5 : Int).toNat
            { l := 5, input_cursor := 0, w := (ChunkManager.new 3, []) }).map LoopState.shape
          = (ChunkManager.loopTrace recorder (some [1, 2, 3, 4, 5]) 5 (5 : Int).toNat
            { l := 5, input_cursor := 0, w := (ChunkManager.new 3, []) }).map LoopState.shape
      ∧ w0.1.chunk = (ChunkManager.new 3).chunk
      ∧ ∀ t ∈ ChunkManager.loopTrace recorder none 5 (5 : Int).toNat
            { l := 5, input_cursor := 0, w := (ChunkManager.new 3, []) },
          t.w.1.chunk = (ChunkManager.new 3).chunk :=
  ⟨⟨rfl, rfl, rfl, 0, rfl, by decide⟩,
    C25_reserve_space 3 [1, 2, 3, 4, 5] 5 (ChunkManager.new 3, []) (by decide)
      ⟨rfl, rfl, rfl, 0, rfl, by decide⟩⟩

/-! ## Write-splitting independence -/

theorem Outcome.map_eq_ok {σ τ : Type} {g : σ → τ} {r : Outcome σ} {v : τ}
    (h : r.map g = .ok v) : ∃ s, r = .ok s ∧ g s = v := by
  cases r with
  | ok s => exact ⟨s, rfl, by simpa using h⟩
  | threw m s => simp at h
  | diverged s => simp at h

theorem recorder_transparent : Transparent recorder := by
  intro ev w r h
  simp only [recorder, Outcome.ok.injEq] at h
  subst h
  rfl

theorem MessageChunkManager.listener_transparent :
    Transparent MessageChunkManager.listener := by
  intro ev w r h
  cases ev with
  | before_chunk c =>
    simp only [MessageChunkManager.listener, Outcome.ok.injEq] at h
    subst h
    rfl
  | chunk c =>
    unfold MessageChunkManager.listener at h
    simp only at h
    split at h
    · cases h
    · obtain ⟨w1, hw1, h1⟩ := Outcome.bind_eq_ok h
      obtain ⟨s, _, hs⟩ := Outcome.map_eq_ok hw1
      subst hs
      split at h1
      · cases h1
      · split at h1
        · simp only [Outcome.ok.injEq] at h1
          subst h1
          rfl
        · cases h1

/-- The announcement leaves the accumulator as it was. -/
theorem ChunkManager.announce_fst {L : Type} (emit : ChunkListener L)
    (ht : Transparent emit) (w w2 : ChunkManager × L)
    (h : ChunkManager.announce emit w = .ok w2) : w2.1 = w.1 := by
  obtain ⟨⟨cs, ck, cur, fl⟩, st⟩ := w
  unfold ChunkManager.announce at h
  split at h
  · rename_i hcond
    simp only at hcond
    obtain ⟨w1, hw1, h1⟩ := Outcome.bind_eq_ok h
    have := ht _ _ _ hw1
    simp only [Outcome.ok.injEq] at h1
    subst h1
    simp only [this, hcond.2]
  · simp only [Outcome.ok.injEq] at h
    subst h
    rfl

/-- The block after the copy does not depend on the listeners' state. -/
theorem ChunkManager.copyStep_fst {L M : Type} (buffer : Option Buffer)
    (input_cursor nb_to_write : Int) (cm : ChunkManager) (st : L) (st1 : M)
    (w3 : ChunkManager × L) (w3a : ChunkManager × M)
    (h : ChunkManager.copyStep buffer input_cursor nb_to_write (cm, st) = .ok w3)
    (h1 : ChunkManager.copyStep buffer input_cursor nb_to_write (cm, st1) = .ok w3a) :
    w3.1 = w3a.1 := by
  unfold ChunkManager.copyStep at h h1
  cases buffer with
  | none =>
    simp only [Outcome.ok.injEq] at h h1
    subst h h1
    rfl
  | some b =>
    simp only at h h1
    cases hc : Buffer.copy b cm.chunk cm.cursor input_cursor (input_cursor + nb_to_write) with
    | ok c =>
      rw [hc] at h h1
      simp only [Outcome.ok.injEq] at h h1
      subst h h1
      rfl
    | error e =>
      rw [hc] at h
      cases h

/-- The accumulator after the advance of the cursor does not depend on the listeners. -/
theorem ChunkManager.advance_fst {L M : Type} (emit : ChunkListener L)
    (emit1 : ChunkListener M) (ht : Transparent emit) (ht1 : Transparent emit1)
    (nb_to_write : Int) (cm : ChunkManager) (st : L) (st1 : M)
    (w6 : ChunkManager × L) (w6a : ChunkManager × M)
    (h : ChunkManager.advance emit nb_to_write (cm, st) = .ok w6)
    (h1 : ChunkManager.advance emit1 nb_to_write (cm, st1) = .ok w6a) :
    w6.1 = w6a.1 := by
  unfold ChunkManager.advance at h h1
  simp only at h h1
  by_cases hge : cm.cursor + nb_to_write ≥ cm.chunk_size
  · rw [if_pos hge] at h h1
    by_cases heq : cm.cursor + nb_to_write = cm.chunk_size
    · rw [if_pos heq] at h h1
      obtain ⟨w5, hw5, h5⟩ := Outcome.bind_eq_ok h
      obtain ⟨w5a, hw5a, h5a⟩ := Outcome.bind_eq_ok h1
      have e := ht _ _ _ hw5
      have ea := ht1 _ _ _ hw5a
      simp only [Outcome.ok.injEq] at h5 h5a
      subst h5 h5a
      simp only [e, ea]
    · rw [if_neg heq] at h
      cases h
  · rw [if_neg hge] at h h1
    simp only [Outcome.ok.injEq] at h h1
    subst h h1
    rfl

/-- One iteration run with two sets of listeners from the same accumulator: the loop
variables and the accumulator are the same afterwards. -/
theorem ChunkManager.loopBody_fst {L M : Type} (emit : ChunkListener L)
    (emit1 : ChunkListener M) (ht : Transparent emit) (ht1 : Transparent emit1)
    (buffer : Option Buffer) (length l input_cursor : Int) (cm : ChunkManager)
    (st : L) (st1 : M) (s : LoopState L) (sa : LoopState M)
    (h : ChunkManager.loopBody emit buffer length
      { l := l, input_cursor := input_cursor, w := (cm, st) } = .ok s)
    (h1 : ChunkManager.loopBody emit1 buffer length
      { l := l, input_cursor := input_cursor, w := (cm, st1) } = .ok sa) :
    s.l = sa.l ∧ s.input_cursor = sa.input_cursor ∧ s.w.1 = sa.w.1 := by
  unfold ChunkManager.loopBody at h h1
  simp only at h h1
  by_cases h0 : length - input_cursor = 0
  · rw [if_pos h0] at h
    cases h
  · rw [if_neg h0] at h h1
    obtain ⟨s2, hs2, k2⟩ := Outcome.bind_eq_ok h
    obtain ⟨s2a, hs2a, k2a⟩ := Outcome.bind_eq_ok h1
    obtain ⟨w2, hw2, g2⟩ := Outcome.map_eq_ok hs2
    obtain ⟨w2a, hw2a, g2a⟩ := Outcome.map_eq_ok hs2a
    have e2 := ChunkManager.announce_fst emit ht _ _ hw2
    have e2a := ChunkManager.announce_fst emit1 ht1 _ _ hw2a
    subst g2 g2a
    obtain ⟨cm2, st2⟩ := w2
    obtain ⟨cm2a, st2a⟩ := w2a
    simp only at e2 e2a
    subst e2 e2a
    simp only at k2 k2a
    obtain ⟨s3, hs3, k3⟩ := Outcome.bind_eq_ok k2
    obtain ⟨s3a, hs3a, k3a⟩ := Outcome.bind_eq_ok k2a
    obtain ⟨w3, hw3, g3⟩ := Outcome.map_eq_ok hs3
    obtain ⟨w3a, hw3a, g3a⟩ := Outcome.map_eq_ok hs3a
    have e3 := ChunkManager.copyStep_fst buffer _ _ _ _ _ _ _ hw3 hw3a
    subst g3 g3a
    obtain ⟨cm3, st3⟩ := w3
    obtain ⟨cm3a, st3a⟩ := w3a
    simp only at e3
    subst e3
    obtain ⟨w6, hw6, g6⟩ := Outcome.map_eq_ok k3
    obtain ⟨w6a, hw6a, g6a⟩ := Outcome.map_eq_ok k3a
    have e6 := ChunkManager.advance_fst emit emit1 ht ht1 _ _ _ _ _ _ hw6 hw6a
    subst g6 g6a
    exact ⟨rfl, rfl, e6⟩

/-- The write loop run with two sets of listeners from the same accumulator leaves the
same accumulator, when both runs return. -/
theorem ChunkManager.writeLoop_fst {L M : Type} (emit : ChunkListener L)
    (emit1 : ChunkListener M) (ht : Transparent emit) (ht1 : Transparent emit1)
    (buffer : Option Buffer) (length : Int) (fuel : Nat) :
    ∀ (l input_cursor : Int) (cm : ChunkManager) (st : L) (st1 : M)
      (r : ChunkManager × L) (ra : ChunkManager × M),
      ChunkManager.writeLoop emit buffer length fuel l input_cursor (cm, st) = .ok r →
      ChunkManager.writeLoop emit1 buffer length fuel l input_cursor (cm, st1) = .ok ra →
      r.1 = ra.1 := by
  induction fuel with
  | zero =>
    intro l ic cm st st1 r ra h h1
    unfold ChunkManager.writeLoop at h h1
    split at h
    · cases h
    · split at h1
      · cases h1
      · simp only [Outcome.ok.injEq] at h h1
        subst h h1
        rfl
  | succ n ih =>
    intro l ic cm st st1 r ra h h1
    rw [ChunkManager.writeLoop_loopBody] at h h1
    by_cases hl : l > 0
    · rw [if_pos hl] at h h1
      cases hb : ChunkManager.loopBody emit buffer length
          { l := l, input_cursor := ic, w := (cm, st) } with
      | ok s =>
        cases hb1 : ChunkManager.loopBody emit1 buffer length
            { l := l, input_cursor := ic, w := (cm, st1) } with
        | ok sa =>
          rw [hb] at h
          rw [hb1] at h1
          simp only at h h1
          obtain ⟨e1, e2, e3⟩ := ChunkManager.loopBody_fst emit emit1 ht ht1 buffer length
            l ic cm st st1 s sa hb hb1
          obtain ⟨sl, sic, ⟨scm, sst⟩⟩ := s
          obtain ⟨sal, saic, ⟨sacm, sast⟩⟩ := sa
          simp only at e1 e2 e3 h h1
          subst e1 e2 e3
          exact ih _ _ _ _ _ r ra h h1
        | threw m sa => rw [hb1] at h1; cases h1
        | diverged sa => rw [hb1] at h1; cases h1
      | threw m s => rw [hb] at h; cases h
      | diverged s => rw [hb] at h; cases h
    · rw [if_neg hl] at h h1
      simp only [Outcome.ok.injEq] at h h1
      subst h h1
      rfl

/-- The accumulator of a framer after a sequence of writes is the accumulator the same
writes leave with recording listeners. -/
theorem MessageChunkManager.writeAll_manager (pieces : List Buffer) :
    ∀ (m m1 : MessageChunkManager) (log : List ChunkEvent)
      (w1 : ChunkManager × List ChunkEvent),
      MessageChunkManager.writeAll pieces m = .ok m1 →
      ChunkManager.writeAll recorder pieces (m.chunkManager, log) = .ok w1 →
      m1.chunkManager = w1.1 := by
  induction pieces with
  | nil =>
    intro m m1 log w1 h h1
    simp only [MessageChunkManager.writeAll, ChunkManager.writeAll, Outcome.ok.injEq] at h h1
    subst h h1
    rfl
  | cons b rest ih =>
    intro m m1 log w1 h h1
    unfold MessageChunkManager.writeAll at h
    unfold ChunkManager.writeAll at h1
    obtain ⟨m2, hm2, hrest⟩ := Outcome.bind_eq_ok h
    obtain ⟨w2, hw2, hrest1⟩ := Outcome.bind_eq_ok h1
    unfold MessageChunkManager.write at hm2
    obtain ⟨r, hr, hrep⟩ := Outcome.map_eq_ok hm2
    have e : r.1 = w2.1 := by
      unfold ChunkManager.write at hr hw2
      by_cases hz : (b.length : Int) = 0
      · rw [if_pos hz] at hr
        cases hr
      · rw [if_neg hz] at hr hw2
        exact ChunkManager.writeLoop_fst _ _ MessageChunkManager.listener_transparent
            recorder_transparent _ _ _ _ _ _ _ _ _ _ hr hw2
    have e2 : m2.chunkManager = w2.1 := by
      rw [← hrep, ← e]
      rfl
    obtain ⟨cm2, log2⟩ := w2
    simp only at e2
    subst e2
    exact ih m2 m1 log2 w1 hrest hrest1

theorem Outcome.bind_ok_right {σ : Type} (r : Outcome σ) : r.bind Outcome.ok = r := by
  cases r <;> rfl

theorem ChunkManager.writeAll_pair {L : Type} (emit : ChunkListener L) (a b : Buffer)
    (w : ChunkManager × L) :
    ChunkManager.writeAll emit [a, b] w
      = (ChunkManager.write emit (some a) a.length w).bind
          (ChunkManager.write emit (some b) b.length) := by
  simp only [ChunkManager.writeAll]
  congr 1
  funext w1
  exact Outcome.bind_ok_right _

theorem ChunkManager.writeAll_single {L : Type} (emit : ChunkListener L) (a : Buffer)
    (w : ChunkManager × L) :
    ChunkManager.writeAll emit [a] w = ChunkManager.write emit (some a) a.length w := by
  simp only [ChunkManager.writeAll]
  exact Outcome.bind_ok_right _

theorem MessageChunkManager.framer_pair (a b : Buffer) (m : MessageChunkManager) :
    MessageChunkManager.writeAll [a, b] m
      = (MessageChunkManager.write (some a) a.length m).bind
          (MessageChunkManager.write (some b) b.length) := by
  simp only [MessageChunkManager.writeAll]
  congr 1
  funext w1
  exact Outcome.bind_ok_right _

theorem MessageChunkManager.framer_single (a : Buffer) (m : MessageChunkManager) :
    MessageChunkManager.writeAll [a] m = MessageChunkManager.write (some a) a.length m := by
  simp only [MessageChunkManager.writeAll]
  exact Outcome.bind_ok_right _

/-- Two sequences of non-empty writes with the same concatenation leave a recording
accumulator in the same state: same log, same cursor, same block. -/
theorem ChunkManager.writeAll_concat (c : Nat) (init : Buffer) (pieces pieces1 : List Buffer)
    (blocks : List Buffer) (rest : Buffer) (w : ChunkManager × List ChunkEvent)
    (hp : ∀ p ∈ pieces, p ≠ []) (hp1 : ∀ p ∈ pieces1, p ≠ [])
    (hflat : pieces.flatten = pieces1.flatten) (hw : RecState c init blocks rest w) :
    ∃ bs r w1, ChunkManager.writeAll recorder pieces w = .ok w1
      ∧ ChunkManager.writeAll recorder pieces1 w = .ok w1 ∧ RecState c init bs r w1 := by
  obtain ⟨bs, r, w1, g1, g2, g3⟩ :=
    ChunkManager.writeAll_recorded c init pieces blocks rest w hp hw
  obtain ⟨bs1, r1, w2, k1, k2, k3⟩ :=
    ChunkManager.writeAll_recorded c init pieces1 blocks rest w hp1 hw
  obtain ⟨e1, e2⟩ := blocks_unique c bs bs1 r r1 g2.full k2.full g2.room k2.room
    (by rw [g3, k3, hflat])
  subst e1 e2
  have := RecState.unique g2 k2
  subst this
  exact ⟨bs, r, w1, g1, k1, g2⟩

theorem MessageChunkManager.sendPendingChunk_bodySize (finalC : JsString)
    (m : MessageChunkManager) :
    (MessageChunkManager._sendPendingChunk finalC m).state.bodySize = m.bodySize := by
  unfold MessageChunkManager._sendPendingChunk
  split
  · rfl
  · cases m.pendingChunk with
    | none => rfl
    | some p =>
      simp only
      split <;> rfl

theorem MessageChunkManager.listener_bodySize (x : Int) (ev : ChunkEvent)
    (w : ChunkManager × MessageChunkManager) (h : w.2.bodySize = x) :
    (MessageChunkManager.listener ev w).state.2.bodySize = x := by
  cases ev with
  | before_chunk c => exact h
  | chunk c =>
    unfold MessageChunkManager.listener
    simp only
    split
    · exact h
    · refine Outcome.bind_state_inv
        (fun w : ChunkManager × MessageChunkManager => w.2.bodySize = x) _ _ ?_ ?_
        <;> beta_reduce
      · rw [Outcome.map_state]
        simp only
        rw [MessageChunkManager.sendPendingChunk_bodySize]
        exact h
      · intro w1 hw1
        split
        · exact hw1
        · split
          · exact hw1
          · exact hw1

/-- Writes do not change the `bodySize` of the framer. -/
theorem MessageChunkManager.writeAll_bodySize (pieces : List Buffer) :
    ∀ m m1 : MessageChunkManager, MessageChunkManager.writeAll pieces m = .ok m1 →
      m1.bodySize = m.bodySize := by
  induction pieces with
  | nil =>
    intro m m1 h
    simp only [MessageChunkManager.writeAll, Outcome.ok.injEq] at h
    subst h
    rfl
  | cons b rest ih =>
    intro m m1 h
    unfold MessageChunkManager.writeAll at h
    obtain ⟨m2, hm2, hrest⟩ := Outcome.bind_eq_ok h
    unfold MessageChunkManager.write at hm2
    obtain ⟨r, hr, hrep⟩ := Outcome.map_eq_ok hm2
    have hq := ChunkManager.write_inv (fun s : MessageChunkManager => s.bodySize = m.bodySize)
      MessageChunkManager.listener
      (fun ev w hw => MessageChunkManager.listener_bodySize _ ev w hw) (some b) b.length
      (m.chunkManager, m) rfl
    rw [hr] at hq
    simp only [Outcome.state_ok] at hq
    rw [ih m2 m1 hrest, ← hrep]
    exact hq

/-- Two sequences of non-empty writes with the same concatenation leave a framer in the
same state. -/
theorem MessageChunkManager.framer_concat {mt : JsString} {sc H B : Nat}
    (P : FramerParams mt sc H B) (pieces pieces1 : List Buffer) (blocks : List Buffer)
    (rest : Buffer) (m : MessageChunkManager) (init : Buffer) (bsR : List Buffer)
    (rR : Buffer) (log : List ChunkEvent)
    (hp : ∀ p ∈ pieces, p ≠ []) (hp1 : ∀ p ∈ pieces1, p ≠ [])
    (hflat : pieces.flatten = pieces1.flatten) (h : Framed mt sc H B blocks rest m)
    (hrec : RecState B init bsR rR (m.chunkManager, log)) :
    ∃ m1, MessageChunkManager.writeAll pieces m = .ok m1
      ∧ MessageChunkManager.writeAll pieces1 m = .ok m1 := by
  obtain ⟨bs, r, m1, g1, g2, g3⟩ :=
    MessageChunkManager.writeAll_framed P pieces blocks rest m hp h
  obtain ⟨bs1, r1, m2, k1, k2, k3⟩ :=
    MessageChunkManager.writeAll_framed P pieces1 blocks rest m hp1 h
  obtain ⟨e1, e2⟩ := blocks_unique B bs bs1 r r1 g2.full k2.full g2.chunk.room k2.chunk.room
    (by rw [g3, k3, hflat])
  subst e1 e2
  obtain ⟨_, _, w1, q1, q2, _⟩ := ChunkManager.writeAll_concat B init pieces pieces1 bsR rR
    (m.chunkManager, log) hp hp1 hflat hrec
  have c1 := MessageChunkManager.writeAll_manager pieces m m1 log w1 g1 q1
  have c2 := MessageChunkManager.writeAll_manager pieces1 m m2 log w1 k1 q2
  have b1 := MessageChunkManager.writeAll_bodySize pieces m m1 g1
  have b2 := MessageChunkManager.writeAll_bodySize pieces1 m m2 k1
  refine ⟨m1, g1, ?_⟩
  rw [k1]
  congr 1
  obtain ⟨f1, f2, f3, f4, f5, f6, _⟩ := g2.framer
  obtain ⟨d1, d2, d3, d4, d5, d6, _⟩ := k2.framer
  obtain ⟨x1, x2, x3, x4, x5, x6, x7, x8⟩ := m1
  obtain ⟨y1, y2, y3, y4, y5, y6, y7, y8⟩ := m2
  simp only at f1 f2 f3 f4 f5 f6 d1 d2 d3 d4 d5 d6 c1 c2 b1 b2
  subst f1 f2 f3 f4 f5 f6 d1 d2 d3 d4 c1 c2 b1
  simp only [MessageChunkManager.mk.injEq, true_and]
  exact ⟨b2, d6, d5⟩

/-- C27. Write-splitting independence.  Take a capacity `c ≥ 1`, non-empty buffers `a`
and `b`, and any sequence `pre` of earlier writes of non-empty buffers.  For a new
`ChunkManager` of capacity `c` with recording listeners, after `pre`: `write(a)`
followed by `write(b)` returns in the same state as the single `write(a ++ b)`: the same
events with the same buffers in the same order, the same cursor, the same block; and
any two sequences of non-empty writes with the same concatenation leave the same state.
For a new `MessageChunkManager` of body capacity `c` (message type of 3 byte-sized
character codes, channel id and message size below 2^32), likewise: the same chunks
emitted, the same pending chunk, the same accumulator. -/
theorem C27_write_splitting (c : Nat) (pre : List Buffer) (a b : Buffer)
    (messageSize : Int) (msgType : JsString) (sc e : Nat)
    (hc : 1 ≤ c) (hpre : ∀ p ∈ pre, p ≠ []) (ha : a ≠ []) (hb : b ≠ [])
    (hmt : msgType.length = 3) (hbytes : ∀ x ∈ msgType, x ≤ 255)
    (hsc : sc < 2 ^ 32) (hsize : messageSize < 2 ^ 32)
    (hB : messageSize = ((12 + e + c : Nat) : Int)) :
    (∃ w w1, ChunkManager.writeAll recorder pre (ChunkManager.new c, []) = .ok w
        ∧ (ChunkManager.write recorder (some a) a.length w).bind
            (ChunkManager.write recorder (some b) b.length) = .ok w1
        ∧ ChunkManager.write recorder (some (a ++ b)) (a ++ b).length w = .ok w1)
    ∧ (∀ pieces pieces1 : List Buffer, (∀ p ∈ pieces, p ≠ []) → (∀ p ∈ pieces1, p ≠ []) →
        pieces.flatten = pieces1.flatten →
        ∃ w1, ChunkManager.writeAll recorder pieces (ChunkManager.new c, []) = .ok w1
          ∧ ChunkManager.writeAll recorder pieces1 (ChunkManager.new c, []) = .ok w1)
    ∧ (∃ m m0 m1, MessageChunkManager.new messageSize msgType sc e = .ok m
        ∧ MessageChunkManager.writeAll pre m = .ok m0
        ∧ (MessageChunkManager.write (some a) a.length m0).bind
            (MessageChunkManager.write (some b) b.length) = .ok m1
        ∧ MessageChunkManager.write (some (a ++ b)) (a ++ b).length m0 = .ok m1
        ∧ ∀ pieces pieces1 : List Buffer, (∀ p ∈ pieces, p ≠ []) →
            (∀ p ∈ pieces1, p ≠ []) → pieces.flatten = pieces1.flatten →
            ∃ m2, MessageChunkManager.writeAll pieces m = .ok m2
              ∧ MessageChunkManager.writeAll pieces1 m = .ok m2) := by
  have hrec0 := ChunkManager.new_recorded c hc
  have hab : ∀ p ∈ [a, b], p ≠ [] := by
    intro p hp
    simp only [List.mem_cons, List.mem_singleton, List.not_mem_nil, or_false] at hp
    rcases hp with rfl | rfl
    · exact ha
    · exact hb
  have hab1 : ∀ p ∈ [a ++ b], p ≠ [] := by
    intro p hp
    simp only [List.mem_singleton] at hp
    subst hp
    simp [ha]
  have hflat : ([a, b] : List Buffer).flatten = ([a ++ b] : List Buffer).flatten := by simp
  obtain ⟨bs, r, w, hw, hwrec, _⟩ := ChunkManager.writeAll_recorded c (Buffer.alloc c) pre
    [] [] (ChunkManager.new c, []) hpre hrec0
  refine ⟨?_, ?_, ?_⟩
  · obtain ⟨_, _, w1, q1, q2, _⟩ := ChunkManager.writeAll_concat c (Buffer.alloc c) [a, b]
      [a ++ b] bs r w hab hab1 hflat hwrec
    rw [ChunkManager.writeAll_pair] at q1
    rw [ChunkManager.writeAll_single] at q2
    exact ⟨w, w1, hw, q1, q2⟩
  · intro pieces pieces1 hp hp1 hf
    obtain ⟨_, _, w1, q1, q2, _⟩ := ChunkManager.writeAll_concat c (Buffer.alloc c) pieces
      pieces1 [] [] (ChunkManager.new c, []) hp hp1 hf hrec0
    exact ⟨w1, q1, q2⟩
  · obtain ⟨P, m, hnew, hfr⟩ := MessageChunkManager.new_framed messageSize msgType sc e c
      hmt hbytes hsc hsize hB hc
    have hcm : m.chunkManager = ChunkManager.new c := by
      obtain ⟨_, _, hm⟩ := MessageChunkManager.new_ok hnew
      rw [hm, hB]
      simp only
      congr 1
      push_cast
      ring
    rw [← hcm] at hrec0 hw
    obtain ⟨bs0, r0, m0, hm0, hfr0, _⟩ :=
      MessageChunkManager.writeAll_framed P pre [] [] m hpre hfr
    have hcm0 := MessageChunkManager.writeAll_manager pre m m0 [] w hm0 hw
    have hwrec0 : RecState c (Buffer.alloc c) bs r (m0.chunkManager, w.2) := by
      rw [hcm0]
      exact hwrec
    obtain ⟨m1, q1, q2⟩ := MessageChunkManager.framer_concat P [a, b] [a ++ b] bs0 r0 m0
      (Buffer.alloc c) bs r w.2 hab hab1 hflat hfr0 hwrec0
    rw [MessageChunkManager.framer_pair] at q1
    rw [MessageChunkManager.framer_single] at q2
    refine ⟨m, m0, m1, hnew, hm0, q1, q2, ?_⟩
    intro pieces pieces1 hp hp1 hf
    exact MessageChunkManager.framer_concat P pieces pieces1 [] [] m (Buffer.alloc c) [] []
      [] hp hp1 hf hfr hrec0

/-- Witness for C27: capacity 3, after a write of two bytes, the writes of `[3, 4]` and
`[5, 6, 7]` against the single write of `[3, 4, 5, 6, 7]`. -/
theorem C27_write_splitting_witness :
    (∃ w w1, ChunkManager.writeAll recorder [[1, 2]] (ChunkManager.new (3 : Nat), []) = .ok w
        ∧ (ChunkManager.write recorder (some [3, 4]) ([3, 4] : Buffer).length w).bind
            (ChunkManager.write recorder (some [5, 6, 7]) ([5, 6, 7] : Buffer).length) = .ok w1
        ∧ ChunkManager.write recorder (some ([3, 4] ++ [5, 6, 7]))
            (([3, 4] : Buffer) ++ [5, 6, 7]).length w = .ok w1)
    ∧ (∀ pieces pieces1 : List Buffer, (∀ p ∈ pieces, p ≠ []) → (∀ p ∈ pieces1, p ≠ []) →
        pieces.flatten = pieces1.flatten →
        ∃ w1, ChunkManager.writeAll recorder pieces (ChunkManager.new (3 : Nat), []) = .ok w1
          ∧ ChunkManager.writeAll recorder pieces1 (ChunkManager.new (3 : Nat), []) = .ok w1)
    ∧ (∃ m m0 m1, MessageChunkManager.new 15 HEL 7 0 = .ok m
        ∧ MessageChunkManager.writeAll [[1, 2]] m = .ok m0
        ∧ (MessageChunkManager.write (some [3, 4]) ([3, 4] : Buffer).length m0).bind
            (MessageChunkManager.write (some [5, 6, 7]) ([5, 6, 7] : Buffer).length) = .ok m1
        ∧ MessageChunkManager.write (some ([3, 4] ++ [5, 6, 7]))
            (([3, 4] : Buffer) ++ [5, 6, 7]).length m0 = .ok m1
        ∧ ∀ pieces pieces1 : List Buffer, (∀ p ∈ pieces, p ≠ []) →
            (∀ p ∈ pieces1, p ≠ []) → pieces.flatten = pieces1.flatten →
            ∃ m2, MessageChunkManager.writeAll pieces m = .ok m2
              ∧ MessageChunkManager.writeAll pieces1 m = .ok m2) :=
  C27_write_splitting 3 [[1, 2]] [3, 4] [5, 6, 7] 15 HEL 7 0 (by decide) (by decide)
    (by decide) (by decide) (by decide) (by decide) (by norm_num) (by norm_num)
    (by norm_num)

/-! ## Extension header on the read path and the running total -/

/-- The method `slice(start)` drops the first `start` bytes, all of them when `start`
is past the end. -/
theorem Buffer.slice_from_any (b : Buffer) (n : Nat) :
    Buffer.slice b n b.length = b.drop n := by
  by_cases h : n ≤ b.length
  · exact Buffer.slice_from b n h
  · unfold Buffer.slice Buffer.clamp
    have h1 : (n : Int) ≥ (b.length : Int) := by omega
    simp only [ge_iff_le, le_refl, if_true, h1, List.take_length]
    rw [List.drop_length, List.drop_eq_nil_of_le (by omega)]

/-- What `_append` does to a chunk of at least 12 bytes whose length field is right,
when a `_read_headers` method is installed: the method is called on the stream at
position 12, and the position it leaves decides. -/
theorem MessageBuilderBase.append_hook (hooks : BuilderHooks)
    (h : BinaryStream → Outcome BinaryStream) (hh : hooks._read_headers = some h)
    (chunk : Buffer) (hlen : 12 ≤ chunk.length)
    (hfield : Buffer.readUInt32LE chunk 4 = some chunk.length) (s : MessageBuilderBase) :
    MessageBuilderBase._append hooks chunk s =
      match h { _buffer := chunk, length := 12 } with
      | .ok st =>
        if st.length > 12 then
          .ok { s with
            total_size := s.total_size + ((chunk.length : Int) - (st.length : Int)),
            offsetBodyStart := some st.length,
            blocks := s.blocks ++ [chunk.drop st.length] }
        else .threw "assert(binaryStream.length > 12)" s
      | .threw m _ => .threw m s
      | .diverged _ => .diverged s := by
  have h0 : Buffer.readUInt32LE chunk 0 ≠ none := by
    simp [Buffer.readUInt32LE]; omega
  have h8 : Buffer.readUInt32LE chunk 8 ≠ none := by
    simp [Buffer.readUInt32LE]; omega
  obtain ⟨v0, hv0⟩ := Option.ne_none_iff_exists'.mp h0
  obtain ⟨v8, hv8⟩ := Option.ne_none_iff_exists'.mp h8
  unfold MessageBuilderBase._append
  simp only [BinaryStream.readUInt32, BinaryStream.new, hv0, Option.map_some', hfield, hv8,
    zero_add]
  simp only [ne_eq, not_true_eq_false, if_false]
  unfold MessageBuilderBase.read_headers_step
  simp only [hh]
  cases h { _buffer := chunk, length := 12 } with
  | ok st =>
    simp only [Outcome.bind_ok]
    by_cases hp : st.length > 12
    · simp only [hp, if_true]
      rw [Buffer.slice_from_any, Buffer.copy_clone]
    · simp only [hp, if_false]
  | threw m st => rfl
  | diverged st => rfl

/-- What `_append` does when no `_read_headers` method is installed: it raises an
exception and leaves the object as it was, or appends the bytes after the 12-byte
header and adds their number to `total_size`. -/
theorem MessageBuilderBase.append_nohook (hooks : BuilderHooks)
    (hh : hooks._read_headers = none) (chunk : Buffer) (s : MessageBuilderBase) :
    (∃ m, m ≠ "assert(buf.length == this.total_size)"
        ∧ MessageBuilderBase._append hooks chunk s = .threw m s)
    ∨ (12 ≤ chunk.length ∧ MessageBuilderBase._append hooks chunk s =
        .ok { s with
          total_size := s.total_size + ((chunk.length : Int) - 12),
          offsetBodyStart := some 12,
          blocks := s.blocks ++ [chunk.drop 12] }) := by
  unfold MessageBuilderBase._append
  simp only [BinaryStream.readUInt32, BinaryStream.new, Buffer.readUInt32LE, zero_add]
  by_cases h12 : 12 ≤ chunk.length
  · have a1 : 4 ≤ chunk.length := by omega
    have a2 : 4 + 4 ≤ chunk.length := by omega
    have a3 : 4 + 4 + 4 ≤ chunk.length := by omega
    simp only [a1, a2, a3, if_true, Option.map_some']
    split
    · exact Or.inl ⟨_, by decide, rfl⟩
    · rename_i hsize
      simp only [ne_eq, Decidable.not_not] at hsize
      right
      refine ⟨trivial, ?_⟩
      unfold MessageBuilderBase.read_headers_step
      simp only [hh, ne_eq, not_true_eq_false, if_false, hsize]
      rw [show ((4 + 4 + 4 : Nat) : Int) = ((12 : Nat) : Int) from rfl,
        Buffer.slice_from_any, Buffer.copy_clone]
      rfl
  · left
    by_cases a1 : 4 ≤ chunk.length
    · by_cases a2 : 4 + 4 ≤ chunk.length
      · have a3 : ¬ (4 + 4 + 4 ≤ chunk.length) := by omega
        simp only [a1, a2, a3, if_true, if_false, Option.map_some', Option.map_none']
        exact ⟨_, by decide, rfl⟩
      · simp only [a1, a2, if_true, if_false, Option.map_some', Option.map_none']
        exact ⟨_, by decide, rfl⟩
    · simp only [a1, if_false, Option.map_none']
      exact ⟨_, by decide, rfl⟩

/-- Without a `_read_headers` method, `feed` keeps `total_size` equal to the number of
bytes held in `blocks`, whatever its outcome, and its total-size assertion holds. -/
theorem MessageBuilderBase.feed_total (hooks : BuilderHooks)
    (hh : hooks._read_headers = none) (chunk : Buffer) (s : MessageBuilderBase)
    (hinv : (s.blocks.flatten.length : Int) = s.total_size) :
    (((MessageBuilderBase.feed hooks chunk s).state.blocks.flatten.length : Int)
        = (MessageBuilderBase.feed hooks chunk s).state.total_size)
    ∧ ∀ st, MessageBuilderBase.feed hooks chunk s
        ≠ .threw "assert(buf.length == this.total_size)" st := by
  have hgrow : 12 ≤ chunk.length →
      (((s.blocks ++ [chunk.drop 12]).flatten.length : Int)
        = s.total_size + ((chunk.length : Int) - 12)) := by
    intro h12
    simp only [List.flatten_append, List.flatten_cons, List.flatten_nil, List.append_nil,
      List.length_append, List.length_drop]
    push_cast
    rw [hinv]
    omega
  unfold MessageBuilderBase.feed
  cases readMessageHeader (BinaryStream.new chunk) with
  | none =>
    refine ⟨hinv, fun st hst => ?_⟩
    simp only [Outcome.threw.injEq] at hst
    exact absurd hst.1 (by decide)
  | some hdr =>
    simp only
    by_cases h70 : hdr.isFinal = 70
    · simp only [h70, if_true]
      rcases MessageBuilderBase.append_nohook hooks hh chunk s with ⟨m, hm, happ⟩ | ⟨h12, happ⟩
      · rw [happ]
        refine ⟨hinv, fun st hst => ?_⟩
        simp only [Outcome.bind_threw, Outcome.threw.injEq] at hst
        exact hm hst.1
      · rw [happ]
        simp only [Outcome.bind_ok, hgrow h12, ne_eq, not_true_eq_false, if_false]
        split
        · exact ⟨hgrow h12, fun st hst => by cases hst⟩
        · exact ⟨hgrow h12, fun st hst => by cases hst⟩
    · simp only [h70, if_false]
      by_cases h65 : hdr.isFinal = 65
      · simp only [h65, if_true]
        split
        · exact ⟨hinv, fun st hst => by cases hst⟩
        · refine ⟨hinv, fun st hst => ?_⟩
          simp only [Outcome.threw.injEq] at hst
          exact absurd hst.1 (by decide)
      · simp only [h65, if_false]
        by_cases h67 : hdr.isFinal = 67
        · simp only [h67, if_true]
          rcases MessageBuilderBase.append_nohook hooks hh chunk s with
            ⟨m, hm, happ⟩ | ⟨h12, happ⟩
          · rw [happ]
            refine ⟨hinv, fun st hst => ?_⟩
            simp only [Outcome.threw.injEq] at hst
            exact hm hst.1
          · rw [happ]
            exact ⟨hgrow h12, fun st hst => by cases hst⟩
        · simp only [h67, if_false]
          exact ⟨hinv, fun st hst => by cases hst⟩

theorem MessageBuilderBase.feedEach_total (hooks : BuilderHooks)
    (hh : hooks._read_headers = none) (chunks : List Buffer) :
    ∀ s : MessageBuilderBase, (s.blocks.flatten.length : Int) = s.total_size →
      ((MessageBuilderBase.feedEach hooks chunks s).blocks.flatten.length : Int)
        = (MessageBuilderBase.feedEach hooks chunks s).total_size := by
  induction chunks with
  | nil => intro s h; exact h
  | cons c rest ih =>
    intro s h
    exact ih _ (MessageBuilderBase.feed_total hooks hh c s h).1

/-- C26. Running-total invariant.  Take a `MessageBuilderBase` with no `_read_headers`
method and any sequence `chunks` of buffers fed to it one after the other, each call
starting from the state the call before left, whether it returned or raised an
exception.  Afterwards `total_size` is the sum of the lengths of the buffers in
`blocks`, which is the length of their concatenation; and whatever buffer is fed next,
the assertion `buf.length == this.total_size` does not fail. -/
theorem C26_running_total (hooks : BuilderHooks) (chunks : List Buffer) (chunk : Buffer)
    (hh : hooks._read_headers = none) :
    (MessageBuilderBase.feedEach hooks chunks MessageBuilderBase.new).total_size
        = (((MessageBuilderBase.feedEach hooks chunks MessageBuilderBase.new).blocks.map
            List.length).sum : Nat)
    ∧ (MessageBuilderBase.feedEach hooks chunks MessageBuilderBase.new).total_size
        = ((MessageBuilderBase.feedEach hooks chunks
            MessageBuilderBase.new).blocks.flatten.length : Nat)
    ∧ ∀ st, MessageBuilderBase.feed hooks chunk
          (MessageBuilderBase.feedEach hooks chunks MessageBuilderBase.new)
        ≠ .threw "assert(buf.length == this.total_size)" st := by
  have hinv := MessageBuilderBase.feedEach_total hooks hh chunks MessageBuilderBase.new rfl
  refine ⟨?_, hinv.symm, (MessageBuilderBase.feed_total hooks hh chunk _ hinv).2⟩
  rw [← hinv, List.length_flatten]

/-- Witness for C26: a continuation chunk, a chunk whose length field is wrong, an
abort chunk with no "error" listener, a final chunk; then one more final chunk. -/
theorem C26_running_total_witness :
    (MessageBuilderBase.feedEach
        { _read_headers := none, _on_raw_buffer := false, error_listener := false }
        [[77, 83, 71, 67, 14, 0, 0, 0, 1, 0, 0, 0, 5, 6],
         [77, 83, 71, 67, 99, 0, 0, 0, 1, 0, 0, 0, 7],
         [77, 83, 71, 65, 12, 0, 0, 0, 1, 0, 0, 0],
         [77, 83, 71, 70, 13, 0, 0, 0, 1, 0, 0, 0, 8]]
        MessageBuilderBase.new).total_size
      = (((MessageBuilderBase.feedEach
        { _read_headers := none, _on_raw_buffer := false, error_listener := false }
        [[77, 83, 71, 67, 14, 0, 0, 0, 1, 0, 0, 0, 5, 6],
         [77, 83, 71, 67, 99, 0, 0, 0, 1, 0, 0, 0, 7],
         [77, 83, 71, 65, 12, 0, 0, 0, 1, 0, 0, 0],
         [77, 83, 71, 70, 13, 0, 0, 0, 1, 0, 0, 0, 8]]
        MessageBuilderBase.new).blocks.map List.length).sum : Nat)
    ∧ (MessageBuilderBase.feedEach
        { _read_headers := none, _on_raw_buffer := false, error_listener := false }
        [[77, 83, 71, 67, 14, 0, 0, 0, 1, 0, 0, 0, 5, 6],
         [77, 83, 71, 67, 99, 0, 0, 0, 1, 0, 0, 0, 7],
         [77, 83, 71, 65, 12, 0, 0, 0, 1, 0, 0, 0],
         [77, 83, 71, 70, 13, 0, 0, 0, 1, 0, 0, 0, 8]]
        MessageBuilderBase.new).total_size
      = ((MessageBuilderBase.feedEach
        { _read_headers := none, _on_raw_buffer := false, error_listener := false }
        [[77, 83, 71, 67, 14, 0, 0, 0, 1, 0, 0, 0, 5, 6],
         [77, 83, 71, 67, 99, 0, 0, 0, 1, 0, 0, 0, 7],
         [77, 83, 71, 65, 12, 0, 0, 0, 1, 0, 0, 0],
         [77, 83, 71, 70, 13, 0, 0, 0, 1, 0, 0, 0, 8]]
        MessageBuilderBase.new).blocks.flatten.length : Nat)
    ∧ ∀ st, MessageBuilderBase.feed
          { _read_headers := none, _on_raw_buffer := false, error_listener := false }
          [77, 83, 71, 70, 14, 0, 0, 0, 1, 0, 0, 0, 9, 9]
          (MessageBuilderBase.feedEach
            { _read_headers := none, _on_raw_buffer := false, error_listener := false }
            [[77, 83, 71, 67, 14, 0, 0, 0, 1, 0, 0, 0, 5, 6],
             [77, 83, 71, 67, 99, 0, 0, 0, 1, 0, 0, 0, 7],
             [77, 83, 71, 65, 12, 0, 0, 0, 1, 0, 0, 0],
             [77, 83, 71, 70, 13, 0, 0, 0, 1, 0, 0, 0, 8]]
            MessageBuilderBase.new)
        ≠ .threw "assert(buf.length == this.total_size)" st :=
  C26_running_total
    { _read_headers := none, _on_raw_buffer := false, error_listener := false } _ _ rfl

/-- C24, as stated, fails: a `_read_headers` method that leaves the stream at position
16 of a 12-byte continuation chunk over-consumes, yet `feed` returns, having appended an
empty block and lowered `total_size` by 4. -/
theorem C24_counterexample :
    ([77, 83, 71, 67, 12, 0, 0, 0, 1, 0, 0, 0] : Buffer).length = 12
    ∧ advanceBy 4 { _buffer := [77, 83, 71, 67, 12, 0, 0, 0, 1, 0, 0, 0], length := 12 }
        = .ok { _buffer := [77, 83, 71, 67, 12, 0, 0, 0, 1, 0, 0, 0], length := 16 }
    ∧ MessageBuilderBase.feed
        { _read_headers := some (advanceBy 4), _on_raw_buffer := false,
          error_listener := false }
        [77, 83, 71, 67, 12, 0, 0, 0, 1, 0, 0, 0] MessageBuilderBase.new
      = .ok { total_size := -4, blocks := [[]], offsetBodyStart := some 16, events := [] } := by
  refine ⟨rfl, rfl, ?_⟩
  decide

/-- C24, amended.  Take a `MessageBuilderBase` with a `_read_headers` method `h` and a
chunk of at least 12 bytes whose length field is its length.  `_append` calls `h` with
the stream positioned at offset 12 of the chunk; when `h` returns leaving the stream at
position `p > 12`, the body appended is the chunk's bytes from `p` to the chunk's end
(none when `p` is past the end) and `total_size` grows by the chunk's length minus `p`;
when `h` returns with `p ≤ 12`, `_append` fails and leaves the object as it was, and so
does `feed` of a continuation or final chunk; an exception of `h` leaves the object as
it was; and `feed` of a continuation chunk with `p > 12` returns what `_append` does. -/
theorem C24_read_headers (hooks : BuilderHooks) (h : BinaryStream → Outcome BinaryStream)
    (chunk : Buffer) (self : MessageBuilderBase)
    (hh : hooks._read_headers = some h) (hlen : 12 ≤ chunk.length)
    (hfield : Buffer.readUInt32LE chunk 4 = some chunk.length) :
    (MessageBuilderBase._append hooks chunk self =
      match h { _buffer := chunk, length := 12 } with
      | .ok st =>
        if st.length > 12 then
          .ok { self with
            total_size := self.total_size + ((chunk.length : Int) - (st.length : Int)),
            offsetBodyStart := some st.length,
            blocks := self.blocks ++ [chunk.drop st.length] }
        else .threw "assert(binaryStream.length > 12)" self
      | .threw m _ => .threw m self
      | .diverged _ => .diverged self)
    ∧ (∀ st, h { _buffer := chunk, length := 12 } = .ok st → st.length ≤ 12 →
        chunk.getD 3 0 = 67 ∨ chunk.getD 3 0 = 70 →
        MessageBuilderBase.feed hooks chunk self
          = .threw "assert(binaryStream.length > 12)" self)
    ∧ (∀ st, h { _buffer := chunk, length := 12 } = .ok st → 12 < st.length →
        chunk.getD 3 0 = 67 →
        MessageBuilderBase.feed hooks chunk self
          = .ok { self with
              total_size := self.total_size + ((chunk.length : Int) - (st.length : Int)),
              offsetBodyStart := some st.length,
              blocks := self.blocks ++ [chunk.drop st.length] }) := by
  have happ := MessageBuilderBase.append_hook hooks h hh chunk hlen hfield self
  refine ⟨happ, ?_, ?_⟩
  · intro st hst hp ht
    have hnot : ¬ (st.length > 12) := by omega
    rw [hst] at happ
    simp only [hnot, if_false] at happ
    unfold MessageBuilderBase.feed
    rw [readMessageHeader_eq chunk (by omega)]
    rcases ht with ht | ht
    · simp only [ht]
      simp [happ]
    · simp only [ht]
      simp [happ]
  · intro st hst hp ht
    rw [hst] at happ
    simp only [gt_iff_lt, hp, if_true] at happ
    unfold MessageBuilderBase.feed
    rw [readMessageHeader_eq chunk (by omega)]
    simp only [ht]
    simp [happ]

/-- Witness for C24: a 14-byte continuation chunk and a method that skips one byte. -/
theorem C24_read_headers_witness :
    (MessageBuilderBase._append (skipHooks 1 false false)
        [77, 83, 71, 67, 14, 0, 0, 0, 1, 0, 0, 0, 5, 6] MessageBuilderBase.new =
      match advanceBy 1 { _buffer := [77, 83, 71, 67, 14, 0, 0, 0, 1, 0, 0, 0, 5, 6],
                          length := 12 } with
      | .ok st =>
        if st.length > 12 then
          .ok { MessageBuilderBase.new with
            total_size := MessageBuilderBase.new.total_size
              + ((([77, 83, 71, 67, 14, 0, 0, 0, 1, 0, 0, 0, 5, 6] : Buffer).length : Int)
                  - (st.length : Int)),
            offsetBodyStart := some st.length,
            blocks := MessageBuilderBase.new.blocks
              ++ [([77, 83, 71, 67, 14, 0, 0, 0, 1, 0, 0, 0, 5, 6] : Buffer).drop st.length] }
        else .threw "assert(binaryStream.length > 12)" MessageBuilderBase.new
      | .threw m _ => .threw m MessageBuilderBase.new
      | .diverged _ => .diverged MessageBuilderBase.new)
    ∧ (∀ st, advanceBy 1 { _buffer := [77, 83, 71, 67, 14, 0, 0, 0, 1, 0, 0, 0, 5, 6],
                           length := 12 } = .ok st → st.length ≤ 12 →
        ([77, 83, 71, 67, 14, 0, 0, 0, 1, 0, 0, 0, 5, 6] : Buffer).getD 3 0 = 67
          ∨ ([77, 83, 71, 67, 14, 0, 0, 0, 1, 0, 0, 0, 5, 6] : Buffer).getD 3 0 = 70 →
        MessageBuilderBase.feed (skipHooks 1 false false)
            [77, 83, 71, 67, 14, 0, 0, 0, 1, 0, 0, 0, 5, 6] MessageBuilderBase.new
          = .threw "assert(binaryStream.length > 12)" MessageBuilderBase.new)
    ∧ (∀ st, advanceBy 1 { _buffer := [77, 83, 71, 67, 14, 0, 0, 0, 1, 0, 0, 0, 5, 6],
                           length := 12 } = .ok st → 12 < st.length →
        ([77, 83, 71, 67, 14, 0, 0, 0, 1, 0, 0, 0, 5, 6] : Buffer).getD 3 0 = 67 →
        MessageBuilderBase.feed (skipHooks 1 false false)
            [77, 83, 71, 67, 14, 0, 0, 0, 1, 0, 0, 0, 5, 6] MessageBuilderBase.new
          = .ok { MessageBuilderBase.new with
              total_size := MessageBuilderBase.new.total_size
                + ((([77, 83, 71, 67, 14, 0, 0, 0, 1, 0, 0, 0, 5, 6] : Buffer).length : Int)
                    - (st.length : Int)),
              offsetBodyStart := some st.length,
              blocks := MessageBuilderBase.new.blocks
                ++ [([77, 83, 71, 67, 14, 0, 0, 0, 1, 0, 0, 0, 5, 6] : Buffer).drop
                      st.length] }) :=
  C24_read_headers (skipHooks 1 false false) (advanceBy 1)
    [77, 83, 71, 67, 14, 0, 0, 0, 1, 0, 0, 0, 5, 6] MessageBuilderBase.new rfl (by decide)
    (by decide)

/-! ## Session timeout -/

/-- The session passed to `_on_CreateSessionRequest` gets the timeout computed by the
three assignments. -/
theorem OPCUAServer.createSession_timeout (server : OPCUAServer)
    (request : CreateSessionRequest) (securityMode : MessageSecurityMode) (t : JsValue)
    (s1 : OPCUAServer)
    (h : OPCUAServer._on_CreateSessionRequest server request securityMode = (s1, .created t)) :
    t = revisedSessionTimeout request.requestedSessionTimeout := by
  unfold OPCUAServer._on_CreateSessionRequest at h
  split at h
  · cases h
  · simp only at h
    split at h
    · cases h
    · simp only [Prod.mk.injEq, CreateSessionResult.created.injEq] at h
      exact h.2.symm

/-- C30. Session timeout clamping.  Whatever `requestedSessionTimeout` is (absent, NaN,
an infinity or a finite number), the `revisedSessionTimeout` computed by
`_on_CreateSessionRequest` is a finite number `r` with `10 ≤ r ≤ 300000`; it is the
requested value when that lies in this range, 300000 when the request is larger, 10
when the request is non-zero and below 10, and 1000 when the request is 0 or absent;
and whenever the handler goes on to create a session, it is that value the session and
the response get. -/
theorem C30_session_timeout (requested : JsValue) :
    ∃ r : ℚ, revisedSessionTimeout requested = .num r ∧ 10 ≤ r ∧ r ≤ 300000
      ∧ (∀ x, requested = .num x → 10 ≤ x → x ≤ 300000 → r = x)
      ∧ (∀ x, requested = .num x → 300000 < x → r = 300000)
      ∧ (requested = .posInf → r = 300000)
      ∧ (∀ x, requested = .num x → x ≠ 0 → x < 10 → r = 10)
      ∧ (requested = .negInf → r = 10)
      ∧ (requested = .num 0 ∨ requested = .undefined → r = 1000)
      ∧ ∀ (server s1 : OPCUAServer) (nonce : Option Buffer) (mode : MessageSecurityMode)
          (t : JsValue),
          OPCUAServer._on_CreateSessionRequest server
              { requestedSessionTimeout := requested, clientNonce := nonce } mode
            = (s1, .created t) → t = .num r := by
  have hcreated : ∀ r : ℚ, revisedSessionTimeout requested = .num r →
      ∀ (server s1 : OPCUAServer) (nonce : Option Buffer) (mode : MessageSecurityMode)
        (t : JsValue),
        OPCUAServer._on_CreateSessionRequest server
            { requestedSessionTimeout := requested, clientNonce := nonce } mode
          = (s1, .created t) → t = .num r := by
    intro r hr server s1 nonce mode t h
    rw [OPCUAServer.createSession_timeout server _ mode t s1 h]
    exact hr
  have hspecial : revisedSessionTimeout .undefined = .num 1000
      ∧ revisedSessionTimeout .nan = .num 1000
      ∧ revisedSessionTimeout .negInf = .num 10
      ∧ revisedSessionTimeout .posInf = .num 300000 := by
    refine ⟨?_, ?_, ?_, ?_⟩ <;>
      simp [revisedSessionTimeout, JsValue.or, JsValue.truthy, defaultSessionTimeout,
        maxSessionTimeout, minSessionTimeout, Math.min, Math.max] <;> norm_num
  cases requested with
  | undefined =>
    refine ⟨1000, hspecial.1, by norm_num, by norm_num, ?_, ?_, ?_, ?_, ?_, ?_,
      hcreated 1000 hspecial.1⟩
    · intro x hx; cases hx
    · intro x hx; cases hx
    · intro hx; cases hx
    · intro x hx; cases hx
    · intro hx; cases hx
    · intro _; rfl
  | nan =>
    refine ⟨1000, hspecial.2.1, by norm_num, by norm_num, ?_, ?_, ?_, ?_, ?_, ?_,
      hcreated 1000 hspecial.2.1⟩
    · intro x hx; cases hx
    · intro x hx; cases hx
    · intro hx; cases hx
    · intro x hx; cases hx
    · intro hx; cases hx
    · intro _; rfl
  | negInf =>
    refine ⟨10, hspecial.2.2.1, by norm_num, by norm_num, ?_, ?_, ?_, ?_, ?_, ?_,
      hcreated 10 hspecial.2.2.1⟩
    · intro x hx; cases hx
    · intro x hx; cases hx
    · intro hx; cases hx
    · intro x hx; cases hx
    · intro _; rfl
    · intro hx; rcases hx with hx | hx <;> cases hx
  | posInf =>
    refine ⟨300000, hspecial.2.2.2, by norm_num, by norm_num, ?_, ?_, ?_, ?_, ?_, ?_,
      hcreated 300000 hspecial.2.2.2⟩
    · intro x hx; cases hx
    · intro x hx; cases hx
    · intro _; rfl
    · intro x hx; cases hx
    · intro hx; cases hx
    · intro hx; rcases hx with hx | hx <;> cases hx
  | num y =>
    have hval : revisedSessionTimeout (.num y)
        = .num (if y = 0 then 1000 else if y ≤ 300000 then (if y ≤ 10 then 10 else y)
            else 300000) := by
      unfold revisedSessionTimeout JsValue.or JsValue.truthy
      by_cases h0 : y = 0
      · subst h0
        simp [defaultSessionTimeout, maxSessionTimeout, minSessionTimeout, Math.min,
          Math.max]
        norm_num
      · by_cases h1 : y ≤ 300000
        · have h1a : y ≤ 1000 * 60 * 5 := by norm_num; exact h1
          by_cases h2 : y ≤ 10
          · simp [h0, h1, h1a, h2, defaultSessionTimeout, maxSessionTimeout,
              minSessionTimeout, Math.min, Math.max]
          · simp [h0, h1, h1a, h2, defaultSessionTimeout, maxSessionTimeout,
              minSessionTimeout, Math.min, Math.max]
        · have h1a : ¬ (y ≤ 1000 * 60 * 5) := by
            intro hh
            apply h1
            norm_num at hh
            exact hh
          simp [h0, h1, h1a, defaultSessionTimeout, maxSessionTimeout, minSessionTimeout,
            Math.min, Math.max]
          norm_num
    refine ⟨_, hval, ?_, ?_, ?_, ?_, ?_, ?_, ?_, ?_, hcreated _ hval⟩
    · split_ifs <;> linarith
    · split_ifs <;> linarith
    · intro x hx h10 h3
      simp only [JsValue.num.injEq] at hx
      subst hx
      split_ifs <;> linarith
    · intro x hx h3
      simp only [JsValue.num.injEq] at hx
      subst hx
      split_ifs <;> linarith
    · intro hx; cases hx
    · intro x hx hne h10
      simp only [JsValue.num.injEq] at hx
      subst hx
      split_ifs <;> first | exact absurd ‹y = 0› hne | linarith
    · intro hx; cases hx
    · intro hx
      rcases hx with hx | hx
      · simp only [JsValue.num.injEq] at hx
        subst hx
        simp
      · cases hx

/-! ## Session object and call service -/

/-- C22. `_apply_on_SessionObject` acts only on a valid session.  Take any response
class, message, function `action_to_perform` and log of earlier events, the session of
the message, when there is one, having a `keepAlive` method.  When `message.session` is
set, the call is the one call of `action_to_perform` with that session, made after
`keepAlive` was called on it; otherwise the call sends one response of the given class
with service result `BadSessionNotActivated` and returns, whatever the action is.  With
the action that records its calls: it is called once when the session is set and never
otherwise, and a response is sent exactly when it is not set. -/
theorem C22_apply_on_session {ρ : Type} (ResponseClass : String) (message : Message ρ)
    (action_to_perform : SessionAction ρ) (log : List ServerEvent)
    (hk : ∀ s, message.session = some s → s.keepAlive = true) :
    (∀ s, message.session = some s →
        OPCUAServer._apply_on_SessionObject ResponseClass message (some action_to_perform)
            log
          = action_to_perform s message (log ++ [.keepAlive s]))
    ∧ (message.session = none →
        OPCUAServer._apply_on_SessionObject ResponseClass message (some action_to_perform)
            log
          = .ok (log ++ [.send_response "MSG"
              { responseClass := ResponseClass, serviceResult := .BadSessionNotActivated }]))
    ∧ ∃ log1, OPCUAServer._apply_on_SessionObject ResponseClass message
          (some recordAction) [] = .ok log1
        ∧ ((log1.filter ServerEvent.isAction).length = 1 ↔ message.session.isSome = true)
        ∧ ((log1.filter ServerEvent.isAction).length = 0 ↔ message.session = none)
        ∧ ((log1.filter ServerEvent.isResponse).length = 1 ↔ message.session = none)
        ∧ (∀ s, message.session = some s → log1 = [.keepAlive s, .action s])
        ∧ (message.session = none → log1 = [.send_response "MSG"
              { responseClass := ResponseClass, serviceResult := .BadSessionNotActivated }]) := by
  have hnone : message.session = none → ∀ (act : SessionAction ρ) (lg : List ServerEvent),
      OPCUAServer._apply_on_SessionObject ResponseClass message (some act) lg
        = .ok (lg ++ [.send_response "MSG"
            { responseClass := ResponseClass, serviceResult := .BadSessionNotActivated }]) := by
    intro h act lg
    simp only [OPCUAServer._apply_on_SessionObject, h]
  have hsome : ∀ s, message.session = some s →
      ∀ (act : SessionAction ρ) (lg : List ServerEvent),
      OPCUAServer._apply_on_SessionObject ResponseClass message (some act) lg
        = act s message (lg ++ [.keepAlive s]) := by
    intro s h act lg
    simp only [OPCUAServer._apply_on_SessionObject, h, hk s h, Bool.true_eq_false, if_false]
  refine ⟨fun s h => hsome s h _ _, fun h => hnone h _ _, ?_⟩
  rcases hs : message.session with _ | s
  · refine ⟨_, hnone hs recordAction [], ?_, ?_, ?_, ?_, ?_⟩
    · simp [ServerEvent.isAction]
    · simp [ServerEvent.isAction]
    · simp [ServerEvent.isResponse]
    · intro s h
      cases h
    · intro _
      rfl
  · refine ⟨[.keepAlive s, .action s], ?_, ?_, ?_, ?_, ?_, ?_⟩
    · rw [hsome s hs]
      rfl
    · simp [ServerEvent.isAction]
    · simp [ServerEvent.isAction]
    · simp [ServerEvent.isResponse]
    · intro s1 h
      simp only [Option.some.injEq] at h
      subst h
      rfl
    · intro h
      cases h

/-- Witness for C22: a message with a session, response class `CallResponse`, the
recording action. -/
theorem C22_apply_on_session_witness :
    (∀ s, (some { sessionId := 7, keepAlive := true } : Option ServerSession) = some s →
        OPCUAServer._apply_on_SessionObject CallResponse
            ({ request := (), session := some { sessionId := 7, keepAlive := true } } :
              Message Unit) (some recordAction) []
          = recordAction s
              ({ request := (), session := some { sessionId := 7, keepAlive := true } } :
                Message Unit) ([] ++ [.keepAlive s]))
    ∧ ((some { sessionId := 7, keepAlive := true } : Option ServerSession) = none →
        OPCUAServer._apply_on_SessionObject CallResponse
            ({ request := (), session := some { sessionId := 7, keepAlive := true } } :
              Message Unit) (some recordAction) []
          = .ok ([] ++ [.send_response "MSG"
              { responseClass := CallResponse, serviceResult := .BadSessionNotActivated }]))
    ∧ ∃ log1, OPCUAServer._apply_on_SessionObject CallResponse
          ({ request := (), session := some { sessionId := 7, keepAlive := true } } :
            Message Unit) (some recordAction) [] = .ok log1
        ∧ ((log1.filter ServerEvent.isAction).length = 1
            ↔ (some { sessionId := 7, keepAlive := true } : Option ServerSession).isSome
                = true)
        ∧ ((log1.filter ServerEvent.isAction).length = 0
            ↔ (some { sessionId := 7, keepAlive := true } : Option ServerSession) = none)
        ∧ ((log1.filter ServerEvent.isResponse).length = 1
            ↔ (some { sessionId := 7, keepAlive := true } : Option ServerSession) = none)
        ∧ (∀ s, (some { sessionId := 7, keepAlive := true } : Option ServerSession) = some s →
            log1 = [.keepAlive s, .action s])
        ∧ ((some { sessionId := 7, keepAlive := true } : Option ServerSession) = none →
            log1 = [.send_response "MSG"
              { responseClass := CallResponse, serviceResult := .BadSessionNotActivated }]) :=
  C22_apply_on_session CallResponse
    ({ request := (), session := some { sessionId := 7, keepAlive := true } } : Message Unit)
    recordAction [] (by
      intro s h
      simp only [Option.some.injEq] at h
      subst h
      rfl)

/-- C29, what the code does.  With a valid session, `_on_CallRequest` answers
`BadNothingToDo` when `methodsToCall` is empty, answers `BadTooManyOperations` when it
holds 1000 methods or more, and runs the methods when it holds between 1 and 999; a
request with exactly 1000 methods is answered `BadTooManyOperations`. -/
theorem C29_thousand_methods_rejected (sessionId : Nat) (m : CallMethodRequest)
    (methods : List CallMethodRequest) (log : List ServerEvent) :
    OPCUAServer._on_CallRequest
        { request := { methodsToCall := List.replicate 1000 m },
          session := some { sessionId := sessionId, keepAlive := true } } log
      = .ok (log ++ [.keepAlive { sessionId := sessionId, keepAlive := true },
          .send_response "MSG"
            { responseClass := CallResponse, serviceResult := .BadTooManyOperations }])
    ∧ OPCUAServer._on_CallRequest
        { request := { methodsToCall := methods },
          session := some { sessionId := sessionId, keepAlive := true } } log
      = .ok (log ++ [.keepAlive { sessionId := sessionId, keepAlive := true },
          if methods.length = 0 then
            .send_response "MSG"
              { responseClass := CallResponse, serviceResult := .BadNothingToDo }
          else if 1000 ≤ methods.length then
            .send_response "MSG"
              { responseClass := CallResponse, serviceResult := .BadTooManyOperations }
          else .async_map { sessionId := sessionId, keepAlive := true } methods]) := by
  have hgen : ∀ ms : List CallMethodRequest,
      OPCUAServer._on_CallRequest
        { request := { methodsToCall := ms },
          session := some { sessionId := sessionId, keepAlive := true } } log
      = .ok (log ++ [.keepAlive { sessionId := sessionId, keepAlive := true },
          if ms.length = 0 then
            .send_response "MSG"
              { responseClass := CallResponse, serviceResult := .BadNothingToDo }
          else if 1000 ≤ ms.length then
            .send_response "MSG"
              { responseClass := CallResponse, serviceResult := .BadTooManyOperations }
          else .async_map { sessionId := sessionId, keepAlive := true } ms]) := by
    intro ms
    simp only [OPCUAServer._on_CallRequest, OPCUAServer._apply_on_SessionObject,
      maximumOperationInCallRequest, Bool.true_eq_false, if_false, ge_iff_le]
    by_cases h0 : ms.length = 0
    · simp [h0]
    · by_cases h1 : 1000 ≤ ms.length
      · simp [h0, h1]
      · simp [h0, h1]
  refine ⟨?_, hgen methods⟩
  rw [hgen]
  simp only [List.length_replicate]
  rfl

/-! ## Registration with the discovery server -/

/-- C23. `registerServer` registers the server with the discovery server.  Take a
server whose `serverType` is set, any endpoint the connection succeeds to, any callback
and any earlier state of the world.  The call is the one call of the callback, made in
the world where, after what had happened before, the client has connected to the
endpoint, performed one transaction, whose request carries the server's own
`serverType`, and disconnected, in this order and nothing else, and where the discovery
server's list of registered servers is not empty; with the callback that records its
call, the events are these three followed by the one call of the callback. -/
theorem C23_register_server (self : OPCUAServer) (reachable : String → Bool)
    (discovery_server_endpointUrl : String) (callback : DiscoveryWorld → Outcome DiscoveryWorld)
    (w : DiscoveryWorld) (t : ApplicationType)
    (ht : self.serverType = some t) (hr : reachable discovery_server_endpointUrl = true) :
    ∃ (request : RegisterServerRequest) (w1 : DiscoveryWorld),
      OPCUAServer.registerServer self (discoveryClient reachable)
          discovery_server_endpointUrl callback w = callback w1
      ∧ request.server.serverType = t
      ∧ w1.events = w.events
          ++ [.connect discovery_server_endpointUrl, .transaction request, .disconnect]
      ∧ w1.registered_servers = w.registered_servers ++ [request.server]
      ∧ w1.registered_servers ≠ []
      ∧ OPCUAServer.registerServer self (discoveryClient reachable)
          discovery_server_endpointUrl recordCallback w
        = .ok { w1 with events := w.events
            ++ [.connect discovery_server_endpointUrl, .transaction request, .disconnect,
                .callback] } := by
  have hrun : ∀ cb : DiscoveryWorld → Outcome DiscoveryWorld,
      OPCUAServer.registerServer self (discoveryClient reachable)
          discovery_server_endpointUrl cb w
        = cb { registered_servers := w.registered_servers ++
                [{ serverUri := "request.serverUri",
                   productUri := "request.productUri",
                   serverNames := [("en", "MyServerName")],
                   serverType := t,
                   gatewayServerUri := none,
                   discoveryUrls := [],
                   semaphoreFilePath := none,
                   isOnline := false }],
               events := w.events ++ [.connect discovery_server_endpointUrl,
                 .transaction { server :=
                   { serverUri := "request.serverUri",
                     productUri := "request.productUri",
                     serverNames := [("en", "MyServerName")],
                     serverType := t,
                     gatewayServerUri := none,
                     discoveryUrls := [],
                     semaphoreFilePath := none,
                     isOnline := false } },
                 .disconnect] } := by
    intro cb
    simp only [OPCUAServer.registerServer, ht, discoveryClient, hr, if_true,
      List.append_assoc, List.singleton_append]
  refine ⟨_, _, hrun callback, rfl, rfl, rfl, by simp, ?_⟩
  rw [hrun recordCallback]
  simp [recordCallback]

/-- Witness for C23: a server of type SERVER and a discovery server with no registered
server, at an endpoint that can be reached. -/
theorem C23_register_server_witness :
    ∃ (request : RegisterServerRequest) (w1 : DiscoveryWorld),
      OPCUAServer.registerServer
          { applicationType := some .SERVER, currentSessionCount := 0,
            maxAllowedSessionNumber := 10, _rejectedSessionCount := 0 }
          (discoveryClient fun _ => true) "opc.tcp://localhost:1234" recordCallback
          { registered_servers := [], events := [] } = recordCallback w1
      ∧ request.server.serverType = .SERVER
      ∧ w1.events = ({ registered_servers := [], events := [] } : DiscoveryWorld).events
          ++ [.connect "opc.tcp://localhost:1234", .transaction request, .disconnect]
      ∧ w1.registered_servers
          = ({ registered_servers := [], events := [] } : DiscoveryWorld).registered_servers
            ++ [request.server]
      ∧ w1.registered_servers ≠ []
      ∧ OPCUAServer.registerServer
          { applicationType := some .SERVER, currentSessionCount := 0,
            maxAllowedSessionNumber := 10, _rejectedSessionCount := 0 }
          (discoveryClient fun _ => true) "opc.tcp://localhost:1234" recordCallback
          { registered_servers := [], events := [] }
        = .ok { w1 with
            events := ({ registered_servers := [], events := [] } : DiscoveryWorld).events
              ++ [.connect "opc.tcp://localhost:1234", .transaction request, .disconnect,
                  .callback] } :=
  C23_register_server
    { applicationType := some .SERVER, currentSessionCount := 0,
      maxAllowedSessionNumber := 10, _rejectedSessionCount := 0 }
    (fun _ => true) "opc.tcp://localhost:1234" recordCallback
    { registered_servers := [], events := [] } .SERVER rfl rfl

end NodeOpcua
